import Mathlib

/-!
# nise: module registry, escape-time engines, palettes, particles, servers

A shallow embedding of the module registry, the particle system and the colour
interpolation of `art_core.c`, of the escape-time iteration engines and the
pixel colouring of `module_fractal.c`, `art_generator.c` and
`mandala/src/fractals.c`, of the input handling of `module_mandala.c` and
`module_fractal.c`, of the module switching of `main.c` and of the request
handlers of `server.c` and `mandala/server.c`, with the properties the
specification states about them.

Conventions of the embedding.

* The three file-scope variables of `art_core.c` (`modules`, `moduleCount`,
  `currentModuleIndex`) become the fields of `Registry`; every registry
  function takes the state and the ones that write return the new state.
* An `ArtModule*` is an `Option ArtModule`: `none` is `NULL`.
* A C `int` is an `Int`.  `%` on `int` is truncated remainder (`Int.tmod`), and
  where an intermediate sum could leave the 32-bit range it is wrapped by
  `wrapInt`.
* A C `float` is an element of a linearly ordered field `F` (exact arithmetic,
  no NaN); `sqrtf`, `cosf`, `sinf`, `logf`, `fmodf` and the conversion to
  `unsigned char` are passed to the functions that call them.  The subtraction
  `lifeTime -= deltaTime` of the particle update is repeated on its own result
  from frame to frame, so its rounding is kept: it is passed in as `fsub`, and
  `subF32` is the subtraction of binary32 on the rationals.
* raylib is not among the sources: `GetRandomValue` is a function of an explicit
  generator state, a rectangle drawn through `Fade` is recorded with the colour
  and the alpha handed to it, `Fade` itself is modelled from the words of the
  specification, and the keys of a frame are a record of booleans.  `rand()` is
  a function of a generator state too, and the file system is what `stat` and
  `open` answer.
-/

namespace Nise

/-! ## art_core.h / art_core.c : the module registry -/

/-- The descriptor `ArtModule` of `art_core.h`.  Each callback is a nullable
function pointer, kept as the identity of the function it points to. -/
structure ArtModule where
  name : String
  init : Option Nat
  update : Option Nat
  draw : Option Nat
  cleanup : Option Nat
  handleInput : Option Nat
deriving DecidableEq, Repr

/-- The capacity `#define MAX_MODULES 10`. -/
def MAX_MODULES : Int := 10

/-- Value of a 32-bit `int` expression whose mathematical value is `z`. -/
def wrapInt (z : Int) : Int := (z + 2147483648) % 4294967296 - 2147483648

/-- The registry state: `static ArtModule* modules[MAX_MODULES]`,
`static int moduleCount`, `static int currentModuleIndex`. -/
structure Registry where
  modules : List (Option ArtModule)
  moduleCount : Int
  currentModuleIndex : Int
deriving DecidableEq, Repr

/-- The state at program start: zero-initialised statics. -/
def Registry.initial : Registry :=
  { modules := List.replicate 10 none, moduleCount := 0, currentModuleIndex := 0 }

/-- The array read `modules[i]`; the outer `none` is a read outside the
ten-slot array. -/
def Registry.slot (s : Registry) (i : Int) : Option (Option ArtModule) :=
  if 0 ≤ i then s.modules[i.toNat]? else none

/-- `RegisterModule`: `if (moduleCount < MAX_MODULES) modules[moduleCount++] = module;`.
Under the guard `moduleCount + 1` cannot overflow. -/
def RegisterModule (s : Registry) (module : Option ArtModule) : Registry :=
  if s.moduleCount < MAX_MODULES then
    { s with
      modules := s.modules.set s.moduleCount.toNat module
      moduleCount := s.moduleCount + 1 }
  else s

/-- `GetCurrentModule`: `modules[currentModuleIndex]` when `moduleCount > 0`,
else `NULL`.  The result is the returned pointer (`some none` is `NULL`). -/
def GetCurrentModule (s : Registry) : Option (Option ArtModule) :=
  if s.moduleCount > 0 then s.slot s.currentModuleIndex else some none

/-- `NextModule`: `currentModuleIndex = (currentModuleIndex + 1) % moduleCount`
when `moduleCount > 0`. -/
def NextModule (s : Registry) : Registry :=
  if s.moduleCount > 0 then
    { s with
      currentModuleIndex := Int.tmod (wrapInt (s.currentModuleIndex + 1)) s.moduleCount }
  else s

/-- `PreviousModule`:
`currentModuleIndex = (currentModuleIndex - 1 + moduleCount) % moduleCount`
when `moduleCount > 0`. -/
def PreviousModule (s : Registry) : Registry :=
  if s.moduleCount > 0 then
    { s with
      currentModuleIndex :=
        Int.tmod (wrapInt (wrapInt (s.currentModuleIndex - 1) + s.moduleCount)) s.moduleCount }
  else s

/-- `GetModuleCount`. -/
def GetModuleCount (s : Registry) : Int := s.moduleCount

/-- `GetModuleName`: `modules[index]->name` when `0 <= index < moduleCount`,
else `"Unknown"`.  The result is `none` when the dereference is of a `NULL`
slot or of a slot outside the array. -/
def GetModuleName (s : Registry) (index : Int) : Option String :=
  if index ≥ 0 ∧ index < s.moduleCount then
    match s.slot index with
    | some (some m) => some m.name
    | _ => none
  else some "Unknown"

/-- One call of the registry interface that changes the state. -/
inductive RegistryCall where
  | register (module : Option ArtModule)
  | next
  | previous
deriving DecidableEq, Repr

/-- The state after one call. -/
def RegistryCall.run (s : Registry) : RegistryCall → Registry
  | .register module => RegisterModule s module
  | .next => NextModule s
  | .previous => PreviousModule s

/-- The state reached from the initial registry by a sequence of calls. -/
def runCalls (calls : List RegistryCall) : Registry :=
  calls.foldl RegistryCall.run Registry.initial

/-- The pointers passed to `RegisterModule` in a sequence of calls, in order. -/
def registeredPointers : List RegistryCall → List (Option ArtModule)
  | [] => []
  | .register module :: rest => module :: registeredPointers rest
  | _ :: rest => registeredPointers rest

/-- The state after registering the given pointers, in order, into the initial
registry (the start of `main`). -/
def registerAll (modules : List (Option ArtModule)) : Registry :=
  modules.foldl RegisterModule Registry.initial

/-- A registry whose first slots hold exactly `l` and whose current index is
valid for `l`. -/
structure Registry.Holds (s : Registry) (l : List (Option ArtModule)) : Prop where
  len : l.length ≤ 10
  mods : s.modules = l ++ List.replicate (10 - l.length) none
  count : s.moduleCount = l.length
  cur_nonneg : 0 ≤ s.currentModuleIndex
  cur_lt : l ≠ [] → s.currentModuleIndex < l.length
  cur_zero : l = [] → s.currentModuleIndex = 0

/-! ## module_fractal.c, art_generator.c, mandala/src/fractals.c : escape-time engines

`CalculateMandelbrot` has the same text in `module_fractal.c` and in
`art_generator.c`; one definition embeds both.  A counted loop is a recursion on
the number of trips that remain (`maxIterations - i`, resp.
`MAX_ITERATIONS - iterations`), so every engine is a total function. -/

section Engines

variable {F : Type} [LinearOrderedField F]

/-- The iteration cap `#define MAX_ITERATIONS 256` of `mandala/src/fractals.c`. -/
def MAX_ITERATIONS : Nat := 256

/-- One trip of the loop of `CalculateMandelbrot` on the pair `(r2, i2)`. -/
def CalculateMandelbrot.body (sqrtf : F → F) (real imag : F) (p : F × F) : F × F :=
  let newReal := p.1 - p.2 + real
  let newImag := 2 * sqrtf p.1 * sqrtf p.2 + imag
  (newReal * newReal, newImag * newImag)

/-- The loop `for (int i = 0; i < maxIterations; i++)` of `CalculateMandelbrot`,
with `trips` iterations left, followed by `return maxIterations`. -/
def CalculateMandelbrot.loop (sqrtf : F → F) (real imag : F) (maxIterations : Int) :
    Nat → Int → F × F → Int
  | 0, _, _ => maxIterations
  | trips + 1, i, p =>
    if p.1 + p.2 > 4 then i
    else CalculateMandelbrot.loop sqrtf real imag maxIterations trips (i + 1)
      (CalculateMandelbrot.body sqrtf real imag p)

/-- `CalculateMandelbrot(x, y, maxIterations)` of `module_fractal.c` and
`art_generator.c`. -/
def CalculateMandelbrot (sqrtf : F → F) (x y : F) (maxIterations : Int) : Int :=
  CalculateMandelbrot.loop sqrtf x y maxIterations maxIterations.toNat 0 (0, 0)

/-- One trip of the loop of `CalculateJulia` on the pair `(real, imag)`. -/
def CalculateJulia.body (cReal cImag : F) (p : F × F) : F × F :=
  let r2 := p.1 * p.1
  let i2 := p.2 * p.2
  (r2 - i2 + cReal, 2 * p.1 * p.2 + cImag)

/-- The loop of `CalculateJulia`, followed by `return maxIterations`. -/
def CalculateJulia.loop (cReal cImag : F) (maxIterations : Int) :
    Nat → Int → F × F → Int
  | 0, _, _ => maxIterations
  | trips + 1, i, p =>
    if p.1 * p.1 + p.2 * p.2 > 4 then i
    else CalculateJulia.loop cReal cImag maxIterations trips (i + 1)
      (CalculateJulia.body cReal cImag p)

/-- `CalculateJulia(x, y, cReal, cImag, maxIterations)` of `module_fractal.c`. -/
def CalculateJulia (x y cReal cImag : F) (maxIterations : Int) : Int :=
  CalculateJulia.loop cReal cImag maxIterations maxIterations.toNat 0 (x, y)

/-- One trip of the loop of `MandelbrotIterations` on the pair `(x, y)`. -/
def MandelbrotIterations.body (x0 y0 : F) (p : F × F) : F × F :=
  let xtemp := p.1 * p.1 - p.2 * p.2 + x0
  (xtemp, 2 * p.1 * p.2 + y0)

/-- The loop `while (x*x + y*y <= 4 && iterations < MAX_ITERATIONS)` of
`MandelbrotIterations`, followed by `return iterations`. -/
def MandelbrotIterations.loop (x0 y0 : F) : Nat → Int → F × F → Int
  | 0, iterations, _ => iterations
  | trips + 1, iterations, p =>
    if p.1 * p.1 + p.2 * p.2 ≤ 4 then
      MandelbrotIterations.loop x0 y0 trips (iterations + 1) (MandelbrotIterations.body x0 y0 p)
    else iterations

/-- `MandelbrotIterations(x0, y0)` of `mandala/src/fractals.c`. -/
def MandelbrotIterations (x0 y0 : F) : Int :=
  MandelbrotIterations.loop x0 y0 MAX_ITERATIONS 0 (0, 0)

/-- One trip of the loop of `JuliaIterations`; `juliaReal` and `juliaImag` are
the globals of that name. -/
def JuliaIterations.body (juliaReal juliaImag : F) (p : F × F) : F × F :=
  let xtemp := p.1 * p.1 - p.2 * p.2 + juliaReal
  (xtemp, 2 * p.1 * p.2 + juliaImag)

/-- The loop of `JuliaIterations`, followed by `return iterations`. -/
def JuliaIterations.loop (juliaReal juliaImag : F) : Nat → Int → F × F → Int
  | 0, iterations, _ => iterations
  | trips + 1, iterations, p =>
    if p.1 * p.1 + p.2 * p.2 ≤ 4 then
      JuliaIterations.loop juliaReal juliaImag trips (iterations + 1)
        (JuliaIterations.body juliaReal juliaImag p)
    else iterations

/-- `JuliaIterations(x0, y0)` of `mandala/src/fractals.c`, reading the globals
`juliaReal` and `juliaImag`. -/
def JuliaIterations (juliaReal juliaImag x0 y0 : F) : Int :=
  JuliaIterations.loop juliaReal juliaImag MAX_ITERATIONS 0 (x0, y0)

/-- One trip of the loop of `BurningShipIterations` on the pair `(x, y)`. -/
def BurningShipIterations.body (x0 y0 : F) (p : F × F) : F × F :=
  let xtemp := p.1 * p.1 - p.2 * p.2 + x0
  (|xtemp|, |2 * p.1 * p.2| + y0)

/-- The loop of `BurningShipIterations`, followed by `return iterations`. -/
def BurningShipIterations.loop (x0 y0 : F) : Nat → Int → F × F → Int
  | 0, iterations, _ => iterations
  | trips + 1, iterations, p =>
    if p.1 * p.1 + p.2 * p.2 ≤ 4 then
      BurningShipIterations.loop x0 y0 trips (iterations + 1)
        (BurningShipIterations.body x0 y0 p)
    else iterations

/-- `BurningShipIterations(x0, y0)` of `mandala/src/fractals.c`. -/
def BurningShipIterations (x0 y0 : F) : Int :=
  BurningShipIterations.loop x0 y0 MAX_ITERATIONS 0 (0, 0)

/-- The escape test of `CalculateMandelbrot` on its state `(r2, i2)`. -/
def escapedSquares (p : F × F) : Prop := p.1 + p.2 > 4

/-- The escape test `|z|^2 > 4` on a state `(x, y)`. -/
def escaped (p : F × F) : Prop := p.1 * p.1 + p.2 * p.2 > 4

instance escapedSquares.decidable : DecidablePred (escapedSquares : F × F → Prop) :=
  fun p => inferInstanceAs (Decidable (p.1 + p.2 > 4))

instance escaped.decidable : DecidablePred (escaped : F × F → Prop) :=
  fun p => inferInstanceAs (Decidable (p.1 * p.1 + p.2 * p.2 > 4))

/-- A counted escape loop over an arbitrary state: the common shape of the five
engines, used to reason about them. -/
def escapeLoop {S : Type} (esc : S → Prop) [DecidablePred esc] (step : S → S) :
    Nat → Int → S → Int
  | 0, i, _ => i
  | trips + 1, i, s => if esc s then i else escapeLoop esc step trips (i + 1) (step s)

end Engines


/-! ## Sample data: the module descriptors of the repository -/

/-- The descriptor `mandalaModule` of `module_mandala.c`; the callbacks
`Mandala_Init`, `Mandala_Update`, `Mandala_Draw`, `Mandala_Cleanup` and
`Mandala_HandleInput` are numbered 1 to 5. -/
def mandalaModule : ArtModule :=
  { name := "Mandala", init := some 1, update := some 2, draw := some 3, cleanup := some 4,
    handleInput := some 5 }

/-- The descriptor `fractalModule` of `module_fractal.c`; its callbacks are
numbered 6 to 10. -/
def fractalModule : ArtModule :=
  { name := "Fractal", init := some 6, update := some 7, draw := some 8, cleanup := some 9,
    handleInput := some 10 }

/-- The registry after the two registrations of `main`. -/
def mainRegistry : Registry :=
  registerAll [some mandalaModule, some fractalModule]

/-- Twelve registrations, alternating the two descriptors. -/
def twelvePointers : List (Option ArtModule) :=
  (List.replicate 6 [some mandalaModule, some fractalModule]).flatten

/-- A registry filled to capacity. -/
def fullRegistry : Registry := registerAll twelvePointers

/-- The calls of a session: the two registrations of `main`, then TAB. -/
def sessionCalls : List RegistryCall :=
  [.register (some mandalaModule), .register (some fractalModule), .next]

/-! ## Colours, palettes and the colouring of fractal pixels -/

/-- The `Color` of raylib as the sources use it: four `unsigned char` channels. -/
structure Color where
  r : Nat
  g : Nat
  b : Nat
  a : Nat
deriving DecidableEq, Repr

/-- Modelled from the spec: the constant `BLACK` of `raylib.h`, which is not among
the sources; the spec names black as the colour of a pixel that never escaped.
Opaque black. -/
def BLACK : Color := { r := 0, g := 0, b := 0, a := 255 }

section Colouring

variable {F : Type} [LinearOrderedField F]

/-- `GetFractalColor(iterations, maxIterations)` of `mandala/src/fractals.c`.
`colorScheme` is the global `fractal.colorScheme`; `logf` and the conversion
`(unsigned char)` of a `float` are passed in. -/
def GetFractalColor (colorScheme : Int) (logf : F → F) (toUChar : F → Nat)
    (iterations maxIterations : Int) : Color :=
  if iterations = maxIterations then { r := 0, g := 0, b := 0, a := 255 }
  else
    let t : F := (iterations : F) / (maxIterations : F)
    let smooth_t : F := t - logf (logf ((wrapInt (iterations + 1) : Int) : F)) / logf 2
    if colorScheme = 0 then
      { r := toUChar (139 + smooth_t * 116), g := toUChar (69 + smooth_t * 100),
        b := toUChar (19 + smooth_t * 80), a := 255 }
    else if colorScheme = 1 then
      { r := toUChar (smooth_t * 70), g := toUChar (90 + smooth_t * 130),
        b := toUChar (140 + smooth_t * 115), a := 255 }
    else if colorScheme = 2 then
      { r := toUChar (180 + smooth_t * 75), g := toUChar (100 * smooth_t),
        b := toUChar (60 * (1 - smooth_t)), a := 255 }
    else if colorScheme = 3 then
      { r := toUChar (34 + smooth_t * 100), g := toUChar (100 + smooth_t * 155),
        b := toUChar (34 + smooth_t * 50), a := 255 }
    else
      { r := toUChar (smooth_t * 255), g := toUChar (smooth_t * 255),
        b := toUChar (smooth_t * 255), a := 255 }

/-- The colour of a pixel in the complex-fractal branch of `DrawFractal` of
`mandala/src/fractals.c`: `GetFractalColor(iterations, MAX_ITERATIONS)`. -/
def DrawFractal.pixelColor (colorScheme : Int) (logf : F → F) (toUChar : F → Nat)
    (iterations : Int) : Color :=
  GetFractalColor colorScheme logf toUChar iterations MAX_ITERATIONS

/-- The array read `palette[i]` of a 256-entry palette; `none` is a read outside
the array. -/
def paletteAt (palette : List Color) (i : Int) : Option Color :=
  if 0 ≤ i then palette[i.toNat]? else none

/-- What the body of the pixel loops of `Fractal_Draw` and `DrawFractal` does for
one block of pixels. -/
inductive BlockDraw (F : Type) where
  /-- no drawing call: `iterations < fractal.iterations` is false -/
  | skipped
  /-- the read `palette[iterations % 256]` fell outside the array -/
  | outside
  /-- the call `DrawRectangle(x, y, w, h, Fade(color, alpha))` -/
  | rectangle (color : Color) (alpha : F)

/-- The `if (iterations < fractal.iterations) { ... }` of `Fractal_Draw` in
`module_fractal.c`, for a block whose count is `iterations`. -/
def Fractal_Draw.block (palette : List Color) (fractalIterations iterations : Int) :
    BlockDraw F :=
  if iterations < fractalIterations then
    match paletteAt palette (Int.tmod iterations 256) with
    | some color =>
      let fade : F := 1 - (iterations : F) / (fractalIterations : F)
      .rectangle color (0.8 + fade * 0.2)
    | none => .outside
  else .skipped

/-- The `if (iterations < fractal.iterations) { ... }` of `DrawFractal` in
`art_generator.c`, for a block whose count is `iterations`. -/
def DrawFractal.block (palette : List Color) (fractalIterations iterations : Int) :
    BlockDraw F :=
  if iterations < fractalIterations then
    match paletteAt palette (Int.tmod iterations 256) with
    | some color => .rectangle color 0.8
    | none => .outside
  else .skipped

/-- The state `FractalState` of `module_fractal.c`. -/
structure FractalState (F : Type) where
  zoom : F
  offsetX : F
  offsetY : F
  iterations : Int
  animationTime : F
  palette : List Color
  speed : F

/-- The count computed for the block at pixel `(x, y)` in `Fractal_Draw`:
`CalculateJulia` while J is held, else `CalculateMandelbrot`, at the point the
pixel maps to.  `1200` and `800` are `SCREEN_WIDTH` and `SCREEN_HEIGHT`. -/
def Fractal_Draw.iterationsAt (sqrtf sinf cosf : F → F) (keyJ : Bool)
    (fractal : FractalState F) (x y : Int) : Int :=
  let scale : F := 3 / (fractal.zoom * min 1200 800)
  let real : F := ((x : F) - 1200 / 2) * scale + fractal.offsetX
  let imag : F := ((y : F) - 800 / 2) * scale + fractal.offsetY
  if keyJ then
    let cReal : F := -0.7 + sinf (fractal.animationTime * 0.5) * 0.1
    let cImag : F := 0.27 + cosf (fractal.animationTime * 0.3) * 0.1
    CalculateJulia real imag cReal cImag fractal.iterations
  else CalculateMandelbrot sqrtf real imag fractal.iterations

/-- The body of the pixel loops of `Fractal_Draw` for the block at `(x, y)`. -/
def Fractal_Draw.pixel (sqrtf sinf cosf : F → F) (keyJ : Bool) (fractal : FractalState F)
    (x y : Int) : BlockDraw F :=
  Fractal_Draw.block fractal.palette fractal.iterations
    (Fractal_Draw.iterationsAt sqrtf sinf cosf keyJ fractal x y)

/-- The colours of the rectangles `Fractal_Draw` draws over a block, in order:
the background `DrawRectangle(0, 0, SCREEN_WIDTH, SCREEN_HEIGHT, BLACK)` first,
then the block's own rectangle if there is one.  `Fade` is raylib's. -/
def Fractal_Draw.drawn (Fade : Color → F → Color) : BlockDraw F → List Color
  | .rectangle color alpha => [BLACK, Fade color alpha]
  | _ => [BLACK]

/-- The three channel values `(r + m) * 255`, `(g + m) * 255`, `(b + m) * 255` of
entry `i` in `GeneratePalette`, before the conversion to `unsigned char`. -/
def GeneratePalette.channels (fmodf : F → F → F) (hueShift : F) (i : Nat) : F × F × F :=
  let t : F := (i : F) / 255
  let hue : F := fmodf (t * 360 + hueShift) 360
  let c : F := 1
  let x : F := c * (1 - |fmodf (hue / 60) 2 - 1|)
  let m : F := 0.2
  let rgb : F × F × F :=
    if hue < 60 then (c, x, 0)
    else if hue < 120 then (x, c, 0)
    else if hue < 180 then (0, c, x)
    else if hue < 240 then (0, x, c)
    else if hue < 300 then (x, 0, c)
    else (c, 0, x)
  ((rgb.1 + m) * 255, (rgb.2.1 + m) * 255, (rgb.2.2 + m) * 255)

/-- The colour stored in `palette[i]` by `GeneratePalette`. -/
def GeneratePalette.entry (fmodf : F → F → F) (toUChar : F → Nat) (hueShift : F) (i : Nat) :
    Color :=
  let v := GeneratePalette.channels fmodf hueShift i
  { r := toUChar v.1, g := toUChar v.2.1, b := toUChar v.2.2, a := 255 }

/-- `GeneratePalette(palette, hueShift)` of `module_fractal.c`: the loop
`for (int i = 0; i < 256; i++) palette[i] = ...` on the given array. -/
def GeneratePalette (fmodf : F → F → F) (toUChar : F → Nat) (palette : List Color)
    (hueShift : F) : List Color :=
  (List.range 256).foldl
    (fun pal i => pal.set i (GeneratePalette.entry fmodf toUChar hueShift i)) palette

end Colouring

/-! ## art_core.c : the particle system

`UpdateParticles` of `art_generator.c` has the text of `UpdateParticleSystem`
with `count` fixed to `MAX_PARTICLES`; one definition embeds both.  raylib's
`GetRandomValue(min, max)` is a function of a generator state `G` returning the
drawn `int` and the next state; `cosf`, `sinf` and the constant `DEG2RAD` are
passed in. -/

/-- `#define SCREEN_WIDTH 1200` of `art_core.h`. -/
def SCREEN_WIDTH : Int := 1200

/-- `#define SCREEN_HEIGHT 800` of `art_core.h`. -/
def SCREEN_HEIGHT : Int := 800

/-- `#define MAX_PARTICLES 500` of `art_core.h`. -/
def MAX_PARTICLES : Int := 500

/-- The conversion of an `int` to `unsigned char`. -/
def ucharOfInt (v : Int) : Nat := (v % 256).toNat

/-- raylib's `Vector2`. -/
structure Vector2 (F : Type) where
  x : F
  y : F

/-- The `Particle` of `art_core.h`. -/
structure Particle (F : Type) where
  position : Vector2 F
  radius : F
  color : Color
  angle : F
  speed : F
  lifeTime : F

/-- A random source meets the contract of `GetRandomValue` when every value
drawn for `min <= max` lies in `min .. max`. -/
def RandomInRange {G : Type} (GetRandomValue : G → Int → Int → Int × G) : Prop :=
  ∀ (g : G) (min max : Int), min ≤ max →
    min ≤ (GetRandomValue g min max).1 ∧ (GetRandomValue g min max).1 ≤ max

section Particles

variable {F : Type} [LinearOrderedField F] {G : Type}

/-- The body of the loop of `InitParticleSystem`: every field of `particles[i]`
is drawn afresh, in the order of the text. -/
def InitParticleSystem.body (GetRandomValue : G → Int → Int → Int × G) (DEG2RAD : F)
    (g : G) : Particle F × G :=
  let px := GetRandomValue g 0 SCREEN_WIDTH
  let py := GetRandomValue px.2 0 SCREEN_HEIGHT
  let rad := GetRandomValue py.2 2 8
  let cr := GetRandomValue rad.2 100 255
  let cg := GetRandomValue cr.2 100 255
  let cb := GetRandomValue cg.2 100 255
  let ca := GetRandomValue cb.2 50 150
  let ang := GetRandomValue ca.2 0 360
  let spd := GetRandomValue ang.2 10 50
  let life := GetRandomValue spd.2 3 10
  ({ position := { x := (px.1 : F), y := (py.1 : F) }
     radius := (rad.1 : F)
     color := { r := ucharOfInt cr.1, g := ucharOfInt cg.1, b := ucharOfInt cb.1,
                a := ucharOfInt ca.1 }
     angle := (ang.1 : F) * DEG2RAD
     speed := (spd.1 : F) * 0.01
     lifeTime := (life.1 : F) }, life.2)

/-- The loop `for (int i = 0; i < count; i++)` of `InitParticleSystem` over the
array, with `trips` iterations left.  The array is assumed to have at least
`count` elements. -/
def InitParticleSystem.loop (GetRandomValue : G → Int → Int → Int × G) (DEG2RAD : F) :
    Nat → G → List (Particle F) → List (Particle F) × G
  | 0, g, particles => (particles, g)
  | _ + 1, g, [] => ([], g)
  | trips + 1, g, _ :: rest =>
    let first := InitParticleSystem.body GetRandomValue DEG2RAD g
    let others := InitParticleSystem.loop GetRandomValue DEG2RAD trips first.2 rest
    (first.1 :: others.1, others.2)

/-- `InitParticleSystem(particles, count)`. -/
def InitParticleSystem (GetRandomValue : G → Int → Int → Int × G) (DEG2RAD : F)
    (particles : List (Particle F)) (count : Int) (g : G) : List (Particle F) × G :=
  InitParticleSystem.loop GetRandomValue DEG2RAD count.toNat g particles

/-- The block `if (particles[i].lifeTime <= 0) { ... }` of `UpdateParticleSystem`
when the test holds: position, lifetime and heading are drawn afresh. -/
def UpdateParticleSystem.respawn (GetRandomValue : G → Int → Int → Int × G) (DEG2RAD : F)
    (g : G) (p : Particle F) : Particle F × G :=
  let px := GetRandomValue g 0 SCREEN_WIDTH
  let py := GetRandomValue px.2 0 SCREEN_HEIGHT
  let life := GetRandomValue py.2 3 10
  let ang := GetRandomValue life.2 0 360
  ({ p with
     position := { x := (px.1 : F), y := (py.1 : F) }
     lifeTime := (life.1 : F)
     angle := (ang.1 : F) * DEG2RAD }, ang.2)

/-- The first half of the loop body of `UpdateParticleSystem`:
`lifeTime -= deltaTime` and the respawn when `lifeTime <= 0`.  The subtraction is
the one of the type `float`, `fsub`: its result is the exact difference rounded
to a `float`, and the rounding adds up over the steps of a run. -/
def UpdateParticleSystem.expire (GetRandomValue : G → Int → Int → Int × G) (DEG2RAD : F)
    (fsub : F → F → F) (deltaTime : F) (g : G) (p : Particle F) : Particle F × G :=
  let aged : Particle F := { p with lifeTime := fsub p.lifeTime deltaTime }
  if aged.lifeTime ≤ 0 then UpdateParticleSystem.respawn GetRandomValue DEG2RAD g aged
  else (aged, g)

/-- The three statements after the respawn block: the position advances by
`speed` along the heading and the heading grows by `deltaTime * 0.5`. -/
def UpdateParticleSystem.advance (cosf sinf : F → F) (deltaTime : F) (p : Particle F) :
    Particle F :=
  { p with
    position :=
      { x := p.position.x + cosf p.angle * p.speed
        y := p.position.y + sinf p.angle * p.speed }
    angle := p.angle + deltaTime * 0.5 }

/-- The four `if` statements that end the loop body, in the order of the text. -/
def UpdateParticleSystem.wrap (p : Particle F) : Particle F :=
  let x1 : F := if p.position.x < 0 then (SCREEN_WIDTH : F) else p.position.x
  let x2 : F := if x1 > (SCREEN_WIDTH : F) then 0 else x1
  let y1 : F := if p.position.y < 0 then (SCREEN_HEIGHT : F) else p.position.y
  let y2 : F := if y1 > (SCREEN_HEIGHT : F) then 0 else y1
  { p with position := { x := x2, y := y2 } }

/-- The whole loop body of `UpdateParticleSystem` for one particle. -/
def UpdateParticleSystem.body (GetRandomValue : G → Int → Int → Int × G) (DEG2RAD : F)
    (fsub : F → F → F) (cosf sinf : F → F) (deltaTime : F) (g : G) (p : Particle F) :
    Particle F × G :=
  let r := UpdateParticleSystem.expire GetRandomValue DEG2RAD fsub deltaTime g p
  (UpdateParticleSystem.wrap (UpdateParticleSystem.advance cosf sinf deltaTime r.1), r.2)

/-- The loop `for (int i = 0; i < count; i++)` of `UpdateParticleSystem` over the
array, with `trips` iterations left. -/
def UpdateParticleSystem.loop (GetRandomValue : G → Int → Int → Int × G) (DEG2RAD : F)
    (fsub : F → F → F) (cosf sinf : F → F) (deltaTime : F) :
    Nat → G → List (Particle F) → List (Particle F) × G
  | 0, g, particles => (particles, g)
  | _ + 1, g, [] => ([], g)
  | trips + 1, g, p :: rest =>
    let first := UpdateParticleSystem.body GetRandomValue DEG2RAD fsub cosf sinf deltaTime g p
    let others :=
      UpdateParticleSystem.loop GetRandomValue DEG2RAD fsub cosf sinf deltaTime trips first.2
        rest
    (first.1 :: others.1, others.2)

/-- `UpdateParticleSystem(particles, count, deltaTime)`. -/
def UpdateParticleSystem (GetRandomValue : G → Int → Int → Int × G) (DEG2RAD : F)
    (fsub : F → F → F) (cosf sinf : F → F) (particles : List (Particle F)) (count : Int)
    (deltaTime : F) (g : G) : List (Particle F) × G :=
  UpdateParticleSystem.loop GetRandomValue DEG2RAD fsub cosf sinf deltaTime count.toNat g
    particles

/-- The particles and the generator after `InitParticleSystem(particles, count)`
and then `steps` calls of `UpdateParticleSystem(particles, count, deltaTime)`. -/
def particlesAfter (GetRandomValue : G → Int → Int → Int × G) (DEG2RAD : F)
    (fsub : F → F → F) (cosf sinf : F → F) (particles : List (Particle F)) (count : Int)
    (deltaTime : F) (g : G) : Nat → List (Particle F) × G
  | 0 => InitParticleSystem GetRandomValue DEG2RAD particles count g
  | steps + 1 =>
    let before :=
      particlesAfter GetRandomValue DEG2RAD fsub cosf sinf particles count deltaTime g steps
    UpdateParticleSystem GetRandomValue DEG2RAD fsub cosf sinf before.1 count deltaTime
      before.2

/-- The lifetime of particle `i` in a list of particles (0 outside the list). -/
def lifeTimeAt (particles : List (Particle F)) (i : Nat) : F :=
  match particles[i]? with
  | some p => p.lifeTime
  | none => 0

end Particles

/-! ## Sample data: a fractal state and a palette -/

/-- A 256-entry palette. -/
def samplePalette : List Color :=
  (List.range 256).map (fun i => { r := i, g := 255 - i, b := 0, a := 255 })

/-- A state of the fractal module over the rationals: zoom 1, no pan, cap 100. -/
def sampleFractal : FractalState ℚ :=
  { zoom := 1, offsetX := 0, offsetY := 0, iterations := 100, animationTime := 0,
    palette := samplePalette, speed := 1 / 10 }

/-- The C function `fmodf` on the rationals: `x - trunc(x / y) * y`. -/
def sampleFmod (x y : ℚ) : ℚ :=
  x - ((if 0 ≤ x / y then Int.floor (x / y) else Int.ceil (x / y) : Int) : ℚ) * y

/-- The conversion `(unsigned char)` of a non-negative rational: the integer
part, modulo 256. -/
def sampleToUChar (v : ℚ) : Nat := (Int.floor v % 256).toNat

section ParticleRuns

variable {F : Type} [LinearOrderedField F] {G : Type}

/-- The lifetime of particle `i` after `InitParticleSystem` and `steps` calls of
`UpdateParticleSystem`. -/
def lifeTimeAfter (GetRandomValue : G → Int → Int → Int × G) (DEG2RAD : F)
    (fsub : F → F → F) (cosf sinf : F → F) (particles : List (Particle F)) (count : Int)
    (deltaTime : F) (g : G) (steps i : Nat) : F :=
  lifeTimeAt
    (particlesAfter GetRandomValue DEG2RAD fsub cosf sinf particles count deltaTime g steps).1 i

/-- The position lies in the viewport `[0, SCREEN_WIDTH] x [0, SCREEN_HEIGHT]`. -/
def InViewport (p : Particle F) : Prop :=
  0 ≤ p.position.x ∧ p.position.x ≤ 1200 ∧ 0 ≤ p.position.y ∧ p.position.y ≤ 800

/-- What is known of particle `i` after initialisation and `n` update steps: it
lies in the viewport, and it was last spawned at step `m = n - k` with the
lifetime `L` in `3 .. 10`, has not been respawned in the `k` steps since, and its
lifetime is what `k` subtractions `lifeTime -= deltaTime` of the type `float`
leave of `L`, a value in `(0, 10]`; were every one of these subtractions exact,
that value would be `L - k * deltaTime`. -/
def SpawnedSince (GetRandomValue : G → Int → Int → Int × G) (DEG2RAD : F)
    (fsub : F → F → F) (cosf sinf : F → F) (particles : List (Particle F)) (count : Int)
    (deltaTime : F) (g : G) (n i : Nat) (q : Particle F) : Prop :=
  InViewport q ∧
  ∃ (m k : Nat) (L : Int), m + k = n ∧ 3 ≤ L ∧ L ≤ 10 ∧
    (m = 0 ∨ (1 ≤ m ∧
      fsub (lifeTimeAfter GetRandomValue DEG2RAD fsub cosf sinf particles count deltaTime g
        (m - 1) i) deltaTime ≤ 0)) ∧
    lifeTimeAfter GetRandomValue DEG2RAD fsub cosf sinf particles count deltaTime g m i =
      (L : F) ∧
    (∀ j : Nat, m ≤ j → j < n →
      0 < fsub (lifeTimeAfter GetRandomValue DEG2RAD fsub cosf sinf particles count deltaTime g
        j i) deltaTime) ∧
    q.lifeTime = (fun t : F => fsub t deltaTime)^[k] (L : F) ∧
    ((∀ j : Nat, j < k →
        fsub ((fun t : F => fsub t deltaTime)^[j] (L : F)) deltaTime =
          (fun t : F => fsub t deltaTime)^[j] (L : F) - deltaTime) →
      q.lifeTime = (L : F) - (k : F) * deltaTime) ∧
    0 < q.lifeTime ∧ q.lifeTime ≤ 10

end ParticleRuns

/-! ## The type `float`: binary32 subtraction

The type `float` of the sources is IEEE 754 binary32: a result is the exact
value rounded to the nearest binary32 value, a tie going to the value with the
even significand.  The values are rationals; between `2^e` and `2^(e+1)` the
binary32 values are the multiples of `2^(e-23)`, and below `2^(-126)` those of
`2^(-149)`.  Overflow (magnitudes from `2^128` on) is not modelled. -/

/-- Rounding of a rational to the nearest integer, a tie going to the even one. -/
def roundHalfEven (x : ℚ) : Int :=
  if x - Int.floor x < 1 / 2 then Int.floor x
  else if 1 / 2 < x - Int.floor x then Int.floor x + 1
  else if Int.floor x % 2 = 0 then Int.floor x
  else Int.floor x + 1

/-- The binary32 value nearest to `q`, a tie going to the even significand:
with `e` the exponent of the binade of `q` (at least `-126`), the nearest
multiple of `2^(e-23)`. -/
def roundF32 (q : ℚ) : ℚ :=
  let e : Int := max (Int.log 2 |q|) (-126)
  (roundHalfEven (q / 2 ^ (e - 23)) : ℚ) * 2 ^ (e - 23)

/-- The subtraction `a - b` of two `float`s: the exact difference, rounded. -/
def subF32 (a b : ℚ) : ℚ := roundF32 (a - b)

/-- The `float` nearest to `1/60`, the frame time at 60 frames per second:
`8947849 * 2^(-29)`, about `0.016666668`. -/
def frameTime60 : ℚ := 8947849 / 536870912

/-! ## Sample data: a random source and particles over the rationals -/

/-- A random source that counts its calls and draws `min + (calls mod (max - min + 1))`. -/
def sampleRandom (g : Nat) (min max : Int) : Int × Nat :=
  (min + (g : Int) % (max - min + 1), g + 1)

/-- A random source that always draws `min`. -/
def lowRandom (g : Nat) (min _max : Int) : Int × Nat := (min, g + 1)

/-- A random source that always draws `max`. -/
def highRandom (g : Nat) (_min max : Int) : Int × Nat := (max, g + 1)

/-- A rational stand-in for `cosf`, exact at 0: `1 - a^2/2 + a^4/24`. -/
def sampleCos (a : ℚ) : ℚ := 1 - a * a / 2 + a * a * a * a / 24

/-- A rational stand-in for `sinf`, exact at 0: `a - a^3/6`. -/
def sampleSin (a : ℚ) : ℚ := a - a * a * a / 6

/-- A rational stand-in for `DEG2RAD = PI / 180`. -/
def sampleDegToRad : ℚ := 355 / (113 * 180)

/-- A particle about to expire: lifetime 1, heading 0, speed 1/4, at `(10, 10)`. -/
def expiringParticle : Particle ℚ :=
  { position := { x := 10, y := 10 }, radius := 2,
    color := { r := 100, g := 100, b := 100, a := 50 }, angle := 0, speed := 1 / 4,
    lifeTime := 1 }

/-- A particle on the right edge moving right: heading 0, speed 1/2, lifetime 5. -/
def edgeParticle : Particle ℚ :=
  { position := { x := 1200, y := 400 }, radius := 2,
    color := { r := 100, g := 100, b := 100, a := 50 }, angle := 0, speed := 1 / 2,
    lifeTime := 5 }

/-! ## Reference escape times over the complex numbers

The recurrences as the specification words them, on Mathlib's `ℂ`; the engines
above are compared with them at `F = ℝ`. -/

/-- The Mandelbrot recurrence `z ← z² + c` with `z₀ = 0`. -/
def mandelbrotOrbit (c : ℂ) : ℕ → ℂ
  | 0 => 0
  | n + 1 => mandelbrotOrbit c n ^ 2 + c

/-- The Burning Ship recurrence `z ← (|Re z| + i |Im z|)² + c` with `z₀ = 0`. -/
def burningShipOrbit (c : ℂ) : ℕ → ℂ
  | 0 => 0
  | n + 1 => (⟨|(burningShipOrbit c n).re|, |(burningShipOrbit c n).im|⟩ : ℂ) ^ 2 + c

/-- The number `n` is the escape time of the sequence `z` under the cap 256: the
least `n` in `0 .. 255` with `|z n|² > 4`, or 256 if there is none. -/
def IsEscapeTime (z : ℕ → ℂ) (n : ℕ) : Prop :=
  (n < 256 ∧ Complex.abs (z n) ^ 2 > 4 ∧ ∀ k < n, ¬ Complex.abs (z k) ^ 2 > 4) ∨
    (n = 256 ∧ ∀ k < 256, ¬ Complex.abs (z k) ^ 2 > 4)

/-! ## mandala/src/fractals.c : the Sierpinski carpet and the exported selectors -/

/-- `SierpinskiCarpet(x, y, size)` of `mandala/src/fractals.c`.  The loop
`while (size > 0)` ends because `size / 3 < size` for `size > 0`; `%` and `/` on
`int` truncate. -/
def SierpinskiCarpet (x y size : Int) : Int :=
  if size > 0 then
    if Int.tmod x 3 = 1 ∧ Int.tmod y 3 = 1 then 0
    else SierpinskiCarpet (Int.tdiv x 3) (Int.tdiv y 3) (Int.tdiv size 3)
  else 1
termination_by size.toNat
decreasing_by
  rw [Int.tdiv_eq_ediv (by omega) (by decide)]
  omega

/-- `SetFractalType(type)`: the value stored in `fractal.fractalType`, `type % 4`. -/
def SetFractalType (type : Int) : Int := Int.tmod type 4

/-- `SetColorScheme(scheme)`: the value stored in `fractal.colorScheme`,
`scheme % 5`. -/
def SetColorScheme (scheme : Int) : Int := Int.tmod scheme 5

/-- The count that `DrawFractal` of `mandala/src/fractals.c` gives a pixel in its
complex-fractal branch (`fractalType != 3`): `int iterations = 0;` followed by the
`switch` with the cases 0, 1 and 2. -/
def DrawFractal.iterationsOf {F : Type} [LinearOrderedField F] (fractalType : Int)
    (juliaReal juliaImag x y : F) : Int :=
  if fractalType = 0 then MandelbrotIterations x y
  else if fractalType = 1 then JuliaIterations juliaReal juliaImag x y
  else if fractalType = 2 then BurningShipIterations x y
  else 0

/-! ## art_core.c : colour interpolation -/

/-- A colour whose four channels fit an `unsigned char`. -/
def Color.Valid (c : Color) : Prop := c.r ≤ 255 ∧ c.g ≤ 255 ∧ c.b ≤ 255 ∧ c.a ≤ 255

instance Color.Valid.decidable (c : Color) : Decidable c.Valid :=
  inferInstanceAs (Decidable (c.r ≤ 255 ∧ c.g ≤ 255 ∧ c.b ≤ 255 ∧ c.a ≤ 255))

section Lerp

variable {F : Type} [LinearOrderedField F] [FloorRing F]

/-- The conversion `(unsigned char)` of a `float`: the fractional part is
discarded (truncation toward zero), and the result is taken modulo 256. -/
def truncToUChar (v : F) : Nat :=
  ((if 0 ≤ v then Int.floor v else Int.ceil v) % 256).toNat

/-- The value `a + (b - a) * t` of one channel in `LerpColor`, before the
conversion: `b - a` is an `int`, the product and the sum are `float`. -/
def LerpColor.channel (a b : Nat) (t : F) : F :=
  (a : F) + (((b : Int) - (a : Int) : Int) : F) * t

/-- `LerpColor(a, b, t)` of `art_core.c`. -/
def LerpColor (a b : Color) (t : F) : Color :=
  let t : F := max 0 (min 1 t)
  { r := truncToUChar (LerpColor.channel a.r b.r t)
    g := truncToUChar (LerpColor.channel a.g b.g t)
    b := truncToUChar (LerpColor.channel a.b b.b t)
    a := truncToUChar (LerpColor.channel a.a b.a t) }

end Lerp

/-! ## raylib : `Fade`, and the colour a block of pixels is drawn with -/

section Fading

variable {F : Type} [LinearOrderedField F] [FloorRing F]

/-- Modelled from the spec: `Fade(color, alpha)` of `raylib.h`, which is not among
the sources; the spec has a colour drawn through it as the stored colour
"alpha-scaled by the given factor".  The red, green and blue channels are kept
and the alpha channel becomes `(unsigned char)(color.a * alpha)`, with `alpha`
held within `[0, 1]`. -/
def Fade (color : Color) (alpha : F) : Color :=
  let factor : F := if alpha < 0 then 0 else if alpha > 1 then 1 else alpha
  { color with a := truncToUChar ((color.a : F) * factor) }

/-- The colour argument `Fade(color, alpha)` of the `DrawRectangle` call a block
makes, the colour its pixels are drawn with; `none` when the block makes no such
call. -/
def BlockDraw.drawnColor : BlockDraw F → Option Color
  | .rectangle color alpha => some (Fade color alpha)
  | _ => none

end Fading

/-! ## module_mandala.c and module_fractal.c : input handling and animation

The keys raylib reports for one frame are a record of booleans (`IsKeyPressed`
or `IsKeyDown`, as each function asks).  `rand()` of the C library is, like
`GetRandomValue`, a function of an explicit generator state. -/

/-- The keys reported for one frame. -/
structure Keys where
  up : Bool := false
  down : Bool := false
  left : Bool := false
  right : Bool := false
  p : Bool := false
  r : Bool := false
  w : Bool := false
  a : Bool := false
  s : Bool := false
  d : Bool := false
  q : Bool := false
  e : Bool := false
  tab : Bool := false
  leftShift : Bool := false
deriving DecidableEq, Repr

/-- The `AnimationSettings` of `art_core.h`. -/
structure AnimationSettings (F : Type) where
  speed : F
  time : F
  paused : Bool
  smoothness : F

/-- The `MandalaState` of `module_mandala.c`. -/
structure MandalaState (F : Type) where
  centerX : F
  centerY : F
  segments : Int
  rotation : F
  scale : F
  primaryColor : Color
  secondaryColor : Color
  animationTime : F
  speed : F

/-- The file-scope state of `module_mandala.c` (`mandala`, `particles`,
`animation`) together with the state of raylib's random generator. -/
structure MandalaModule (F G : Type) where
  mandala : MandalaState F
  particles : List (Particle F)
  animation : AnimationSettings F
  random : G

/-- The file-scope state of `module_fractal.c` (`fractal`, `animation`) together
with the state of the generator behind `rand()`. -/
structure FractalModule (F R : Type) where
  fractal : FractalState F
  animation : AnimationSettings F
  random : R

/-- One call on the fractal module: `Fractal_HandleInput` with the keys of the
frame, or `Fractal_Update(deltaTime)`. -/
inductive FractalEvent (F : Type) where
  | input (keys : Keys)
  | update (deltaTime : F)

section MandalaInput

variable {F : Type} [LinearOrderedField F] [FloorRing F] {G : Type}

/-- The conversion of a `float` to `int`: the fractional part is discarded. -/
def truncToInt (v : F) : Int := if 0 ≤ v then Int.floor v else Int.ceil v

/-- `Mandala_Init` of `module_mandala.c`. -/
def Mandala_Init (GetRandomValue : G → Int → Int → Int × G) (DEG2RAD : F)
    (m : MandalaModule F G) : MandalaModule F G :=
  let drawn := InitParticleSystem GetRandomValue DEG2RAD m.particles MAX_PARTICLES m.random
  { m with
    mandala :=
      { centerX := ((SCREEN_WIDTH : Int) : F) / 2
        centerY := ((SCREEN_HEIGHT : Int) : F) / 2
        segments := 12
        rotation := 0
        scale := 1
        primaryColor := { r := 139, g := 69, b := 19, a := 255 }
        secondaryColor := { r := 255, g := 215, b := 0, a := 255 }
        animationTime := 0
        speed := 0.3 }
    particles := drawn.1
    random := drawn.2 }

/-- `Mandala_HandleInput` of `module_mandala.c`: the six `if` statements in the
order of the text.  `fmaxf(3, segments - 1)` and `fminf(24, segments + 1)` take
the `int` as a `float` and the result is converted back to `int`. -/
def Mandala_HandleInput (GetRandomValue : G → Int → Int → Int × G) (DEG2RAD : F)
    (keys : Keys) (m : MandalaModule F G) : MandalaModule F G :=
  let m1 : MandalaModule F G :=
    if keys.up then { m with mandala := { m.mandala with speed := min (m.mandala.speed + 0.1) 2 } }
    else m
  let m2 : MandalaModule F G :=
    if keys.down then
      { m1 with mandala := { m1.mandala with speed := max (m1.mandala.speed - 0.1) 0.1 } }
    else m1
  let m3 : MandalaModule F G :=
    if keys.p then { m2 with animation := { m2.animation with paused := !m2.animation.paused } }
    else m2
  let m4 : MandalaModule F G :=
    if keys.r then Mandala_Init GetRandomValue DEG2RAD m3 else m3
  let m5 : MandalaModule F G :=
    if keys.left then
      { m4 with mandala := { m4.mandala with
          segments := truncToInt (max (3 : F) ((wrapInt (m4.mandala.segments - 1) : Int) : F)) } }
    else m4
  if keys.right then
    { m5 with mandala := { m5.mandala with
        segments := truncToInt (min (24 : F) ((wrapInt (m5.mandala.segments + 1) : Int) : F)) } }
  else m5

/-- The module after `Mandala_Init` and then one `Mandala_HandleInput` per frame. -/
def mandalaAfter (GetRandomValue : G → Int → Int → Int × G) (DEG2RAD : F)
    (m : MandalaModule F G) (frames : List Keys) : MandalaModule F G :=
  frames.foldl (fun s keys => Mandala_HandleInput GetRandomValue DEG2RAD keys s)
    (Mandala_Init GetRandomValue DEG2RAD m)

/-- The `layerSegments = mandala.segments + layer * 4` of `Mandala_Draw`. -/
def Mandala_Draw.layerSegments (segments layer : Int) : Int := segments + layer * 4

/-- The `angleStep = (2.0f * PI) / segments` of `DrawMandalaPattern`. -/
def DrawMandalaPattern.angleStep (PI : F) (segments : Int) : F := (2 * PI) / (segments : F)

end MandalaInput

section FractalInput

variable {F : Type} [LinearOrderedField F] {R : Type}

/-- `Fractal_Init` of `module_fractal.c`: three draws of `rand()` in the order of
the text; `fmodf` and the conversion to `unsigned char` are those of
`GeneratePalette`. -/
def Fractal_Init (rand : R → Int × R) (fmodf : F → F → F) (toUChar : F → Nat)
    (m : FractalModule F R) : FractalModule F R :=
  let r1 := rand m.random
  let r2 := rand r1.2
  let r3 := rand r2.2
  let randomHue : F := ((Int.tmod r3.1 360 : Int) : F)
  { m with
    fractal :=
      { zoom := 1
        offsetX := -0.5
        offsetY := 0
        iterations := 100 + Int.tmod r1.1 156
        animationTime := 0
        palette := GeneratePalette fmodf toUChar m.fractal.palette randomHue
        speed := 0.1 + ((Int.tmod r2.1 30 : Int) : F) * 0.01 }
    random := r3.2 }

/-- `Fractal_Update(deltaTime)` of `module_fractal.c`. -/
def Fractal_Update (sinf : F → F) (fmodf : F → F → F) (toUChar : F → Nat) (deltaTime : F)
    (m : FractalModule F R) : FractalModule F R :=
  if !m.animation.paused then
    let animationTime : F := m.fractal.animationTime + deltaTime * m.fractal.speed
    { m with
      fractal := { m.fractal with
        animationTime := animationTime
        zoom := 1 + sinf animationTime * 0.3 * m.animation.smoothness
        palette := GeneratePalette fmodf toUChar m.fractal.palette (animationTime * 20) } }
  else m

/-- `Fractal_HandleInput` of `module_fractal.c`: the statements in the order of
the text. -/
def Fractal_HandleInput (rand : R → Int × R) (fmodf : F → F → F) (toUChar : F → Nat)
    (keys : Keys) (m : FractalModule F R) : FractalModule F R :=
  let m1 : FractalModule F R :=
    if keys.up then { m with fractal := { m.fractal with speed := min (m.fractal.speed + 0.05) 1 } }
    else m
  let m2 : FractalModule F R :=
    if keys.down then
      { m1 with fractal := { m1.fractal with speed := max (m1.fractal.speed - 0.05) 0.05 } }
    else m1
  let m3 : FractalModule F R :=
    if keys.p then { m2 with animation := { m2.animation with paused := !m2.animation.paused } }
    else m2
  let m4 : FractalModule F R := if keys.r then Fractal_Init rand fmodf toUChar m3 else m3
  let moveSpeed : F := 0.1 * (3 / m4.fractal.zoom)
  let m5 : FractalModule F R :=
    if keys.w then { m4 with fractal := { m4.fractal with offsetY := m4.fractal.offsetY - moveSpeed } }
    else m4
  let m6 : FractalModule F R :=
    if keys.s then { m5 with fractal := { m5.fractal with offsetY := m5.fractal.offsetY + moveSpeed } }
    else m5
  let m7 : FractalModule F R :=
    if keys.a then { m6 with fractal := { m6.fractal with offsetX := m6.fractal.offsetX - moveSpeed } }
    else m6
  let m8 : FractalModule F R :=
    if keys.d then { m7 with fractal := { m7.fractal with offsetX := m7.fractal.offsetX + moveSpeed } }
    else m7
  let m9 : FractalModule F R :=
    if keys.q then { m8 with fractal := { m8.fractal with zoom := m8.fractal.zoom * 1.05 } }
    else m8
  if keys.e then { m9 with fractal := { m9.fractal with zoom := m9.fractal.zoom * 0.95 } }
  else m9

/-- One event on the fractal module. -/
def FractalEvent.run (rand : R → Int × R) (sinf : F → F) (fmodf : F → F → F)
    (toUChar : F → Nat) (m : FractalModule F R) : FractalEvent F → FractalModule F R
  | .input keys => Fractal_HandleInput rand fmodf toUChar keys m
  | .update deltaTime => Fractal_Update sinf fmodf toUChar deltaTime m

end FractalInput

/-! ## Sample data: the two modules at program start -/

/-- The state of `module_mandala.c` at program start: `mandala` zero-initialised,
no particle drawn yet, `animation = { 0.3f, 0.0f, false, 1.0f }`. -/
def sampleMandalaModule : MandalaModule ℚ Nat :=
  { mandala :=
      { centerX := 0, centerY := 0, segments := 0, rotation := 0, scale := 0,
        primaryColor := { r := 0, g := 0, b := 0, a := 0 },
        secondaryColor := { r := 0, g := 0, b := 0, a := 0 }, animationTime := 0, speed := 0 }
    particles := List.replicate 500 edgeParticle
    animation := { speed := 3 / 10, time := 0, paused := false, smoothness := 1 }
    random := 0 }

/-- What the frame loop of `main` holds between frames: the registry, the local
variable `currentModule`, and the callbacks invoked so far, in order. -/
structure Driver where
  registry : Registry
  currentModule : Option (Option ArtModule)
  calls : List Nat
deriving DecidableEq, Repr

/-- The statement `if (currentModule && currentModule->f) currentModule->f();`
for a callback field `f`. -/
def Driver.call (field : ArtModule → Option Nat) (d : Driver) : Driver :=
  match d.currentModule with
  | some (some module) =>
    match field module with
    | some f => { d with calls := d.calls ++ [f] }
    | none => d
  | _ => d

/-- The start of `main`: the two registrations, `currentModule = GetCurrentModule()`
and the `init` of the first module. -/
def main.start : Driver :=
  Driver.call ArtModule.init
    { registry := mainRegistry, currentModule := GetCurrentModule mainRegistry, calls := [] }

/-- The body of `if (IsKeyPressed(KEY_TAB))`: cleanup, `NextModule()`,
`currentModule = GetCurrentModule()`, init. -/
def main.onTab (d : Driver) : Driver :=
  let d1 := Driver.call ArtModule.cleanup d
  let registry := NextModule d1.registry
  Driver.call ArtModule.init
    { d1 with registry := registry, currentModule := GetCurrentModule registry }

/-- The body of `if (IsKeyPressed(KEY_LEFT_SHIFT) && IsKeyPressed(KEY_TAB))`:
cleanup, `PreviousModule()`, `currentModule = GetCurrentModule()`, init. -/
def main.onShiftTab (d : Driver) : Driver :=
  let d1 := Driver.call ArtModule.cleanup d
  let registry := PreviousModule d1.registry
  Driver.call ArtModule.init
    { d1 with registry := registry, currentModule := GetCurrentModule registry }

/-- The module switching of one frame of `main`: the two `if` statements, in the
order of the text. -/
def main.switching (keys : Keys) (d : Driver) : Driver :=
  let d1 := if keys.tab then main.onTab d else d
  if keys.leftShift && keys.tab then main.onShiftTab d1 else d1

/-! ## server.c and mandala/server.c : the request handlers

A request is taken as the `method` and `path` that `sscanf` extracted.  The file
system is what `stat` and `open` answer for a path. -/

/-- The answers of `stat` and of `open(path, O_RDONLY)`: `true` is success. -/
structure FileSystem where
  stat : String → Bool
  canOpen : String → Bool

/-- What a handler sends back. -/
inductive Reply where
  /-- the response `405 Method Not Allowed` -/
  | methodNotAllowed
  /-- the response `404 Not Found` -/
  | notFound
  /-- the response `500 Internal Server Error` -/
  | internalError
  /-- the response `200 OK` with the content of the file opened at `filepath` -/
  | ok (filepath : String)
deriving DecidableEq, Repr

/-- The file a reply was read from, if one was opened. -/
def Reply.opened : Reply → Option String
  | .ok filepath => some filepath
  | _ => none

/-- `snprintf(buffer, size, ...)`: the text, cut to `size - 1` characters. -/
def snprintf (size : Nat) (text : String) : String := String.mk (text.data.take (size - 1))

/-- `strstr(haystack, needle) != NULL`. -/
def strstr (haystack needle : String) : Bool := decide (needle.data <:+: haystack.data)

/-- `send_file` of `server.c`. -/
def Server.send_file (fs : FileSystem) (filepath : String) : Reply :=
  if !fs.stat filepath then .notFound
  else if !fs.canOpen filepath then .notFound
  else .ok filepath

/-- `handle_request` of `server.c` (`MAX_PATH` is 256), for a `path` of at most
255 characters. -/
def Server.handle_request (fs : FileSystem) (method path : String) : Reply :=
  if method ≠ "GET" then .methodNotAllowed
  else
    let filepath : String := if path = "/" then "index.html" else snprintf 256 ("." ++ path)
    if strstr filepath ".." then .notFound
    else Server.send_file fs filepath

/-- `send_file` of `mandala/server.c` (`MAX_PATH` is 512).  The recursive call is
made on `index_path` right after `stat(index_path)` succeeded, so it goes
straight to `open`; it is written out here. -/
def MandalaServer.send_file (fs : FileSystem) (filepath : String) : Reply :=
  if !fs.stat filepath then
    let index_path : String := snprintf 512 (filepath ++ "/index.html")
    if fs.stat index_path then
      if !fs.canOpen index_path then .internalError else .ok index_path
    else .notFound
  else if !fs.canOpen filepath then .internalError
  else .ok filepath

/-- `handle_request` of `mandala/server.c`, once `read` and `sscanf` succeeded. -/
def MandalaServer.handle_request (fs : FileSystem) (method path : String) : Reply :=
  if method ≠ "GET" then .methodNotAllowed
  else
    let filepath : String :=
      if path = "/" then snprintf 512 "web/index.html" else snprintf 512 ("web" ++ path)
    MandalaServer.send_file fs filepath

/-- A file system in which the one file `web/../server.c` exists and can be read:
the source of the server, next to its `web` directory. -/
def serverSourceOnly : FileSystem :=
  { stat := fun path => path == "web/../server.c"
    canOpen := fun path => path == "web/../server.c" }

/-- A path of 255 characters, the longest that fits `path[256]`, ending in `..`. -/
def longDotDotPath : String := String.mk ('/' :: List.replicate 252 'a' ++ ['.', '.'])

/-- A file system in which every `stat` and every `open` succeeds. -/
def everyFile : FileSystem := { stat := fun _ => true, canOpen := fun _ => true }

/-! # Properties -/

/-! ## Registry: arithmetic of the index updates -/

theorem wrapInt_of_small (z : Int) (h1 : -2147483648 ≤ z) (h2 : z < 2147483648) :
    wrapInt z = z := by
  unfold wrapInt; omega

theorem tmod_next (i n : Int) (hi : 0 ≤ i) (hin : i < n) (hn : n ≤ 1073741824) :
    Int.tmod (wrapInt (i + 1)) n = if i + 1 < n then i + 1 else 0 := by
  rw [wrapInt_of_small _ (by omega) (by omega), Int.tmod_eq_emod (by omega) (by omega)]
  split
  · exact Int.emod_eq_of_lt (by omega) (by assumption)
  · have : i + 1 = n := by omega
    rw [this, Int.emod_self]

theorem tmod_previous (i n : Int) (hi : 0 ≤ i) (hin : i < n) (hn : n ≤ 1073741824) :
    Int.tmod (wrapInt (wrapInt (i - 1) + n)) n = if i = 0 then n - 1 else i - 1 := by
  rw [wrapInt_of_small (i - 1) (by omega) (by omega),
    wrapInt_of_small _ (by omega) (by omega), Int.tmod_eq_emod (by omega) (by omega)]
  split
  · subst i
    have : (0 - 1 + n : Int) = n - 1 := by ring
    rw [this]
    exact Int.emod_eq_of_lt (by omega) (by omega)
  · rw [Int.add_emod_self]
    exact Int.emod_eq_of_lt (by omega) (by omega)

/-- The state after `NextModule` when the count is positive and the index valid. -/
theorem NextModule_eq (s : Registry) (hi : 0 ≤ s.currentModuleIndex)
    (hin : s.currentModuleIndex < s.moduleCount) (hn : s.moduleCount ≤ 1073741824) :
    NextModule s = { s with currentModuleIndex :=
      if s.currentModuleIndex + 1 < s.moduleCount then s.currentModuleIndex + 1 else 0 } := by
  have hpos : s.moduleCount > 0 := by omega
  simp only [NextModule, hpos, if_true, tmod_next _ _ hi hin hn]

/-- The state after `PreviousModule` when the count is positive and the index valid. -/
theorem PreviousModule_eq (s : Registry) (hi : 0 ≤ s.currentModuleIndex)
    (hin : s.currentModuleIndex < s.moduleCount) (hn : s.moduleCount ≤ 1073741824) :
    PreviousModule s = { s with currentModuleIndex :=
      if s.currentModuleIndex = 0 then s.moduleCount - 1 else s.currentModuleIndex - 1 } := by
  have hpos : s.moduleCount > 0 := by omega
  simp only [PreviousModule, hpos, if_true, tmod_previous _ _ hi hin hn]

theorem NextModule_of_empty (s : Registry) (h : s.moduleCount ≤ 0) : NextModule s = s := by
  have : ¬ s.moduleCount > 0 := by omega
  simp [NextModule, this]

theorem PreviousModule_of_empty (s : Registry) (h : s.moduleCount ≤ 0) :
    PreviousModule s = s := by
  have : ¬ s.moduleCount > 0 := by omega
  simp [PreviousModule, this]

/-- `PreviousModule` undoes `NextModule` on a state with a valid index. -/
theorem PreviousModule_NextModule (s : Registry) (hi : 0 ≤ s.currentModuleIndex)
    (hin : s.currentModuleIndex < s.moduleCount) (hn : s.moduleCount ≤ 1073741824) :
    PreviousModule (NextModule s) = s := by
  rw [NextModule_eq s hi hin hn]
  rw [PreviousModule_eq _ (by dsimp only; split <;> omega) (by dsimp only; split <;> omega)
    (by exact hn)]
  cases s with
  | mk ms n i =>
    simp only [Registry.mk.injEq, true_and] at *
    split_ifs <;> omega

/-- `NextModule` undoes `PreviousModule` on a state with a valid index. -/
theorem NextModule_PreviousModule (s : Registry) (hi : 0 ≤ s.currentModuleIndex)
    (hin : s.currentModuleIndex < s.moduleCount) (hn : s.moduleCount ≤ 1073741824) :
    NextModule (PreviousModule s) = s := by
  rw [PreviousModule_eq s hi hin hn]
  rw [NextModule_eq _ (by dsimp only; split <;> omega) (by dsimp only; split <;> omega)
    (by exact hn)]
  cases s with
  | mk ms n i =>
    simp only [Registry.mk.injEq, true_and] at *
    split_ifs <;> omega

/-! ## Registry: the states reached by calls -/

theorem Registry.holds_initial : Registry.initial.Holds [] :=
  { len := by simp
    mods := by simp [Registry.initial]
    count := by simp [Registry.initial]
    cur_nonneg := by simp [Registry.initial]
    cur_lt := by simp
    cur_zero := by simp [Registry.initial] }

theorem set_append_replicate (l : List (Option ArtModule)) (p : Option ArtModule)
    (h : l.length < 10) :
    (l ++ List.replicate (10 - l.length) none).set l.length p =
      (l ++ [p]) ++ List.replicate (10 - (l ++ [p]).length) none := by
  have h1 : 10 - l.length = (10 - (l ++ [p]).length) + 1 := by
    simp only [List.length_append, List.length_singleton]; omega
  rw [h1, List.replicate_succ, List.set_append_right _ _ (le_refl _)]
  simp

/-- The state after `RegisterModule` below capacity. -/
theorem RegisterModule_of_lt (s : Registry) (p : Option ArtModule)
    (h : s.moduleCount < MAX_MODULES) :
    RegisterModule s p =
      { s with
        modules := s.modules.set s.moduleCount.toNat p
        moduleCount := s.moduleCount + 1 } := by
  simp [RegisterModule, h]

/-- Below capacity `RegisterModule` appends the pointer. -/
theorem Registry.Holds.register {s : Registry} {l : List (Option ArtModule)}
    (h : s.Holds l) (p : Option ArtModule) (hlt : l.length < 10) :
    (RegisterModule s p).Holds (l ++ [p]) := by
  have hc : s.moduleCount < MAX_MODULES := by
    rw [h.count]; unfold MAX_MODULES; omega
  have hcur : l = [] ∨ s.currentModuleIndex < l.length := by
    by_cases hl : l = []
    · exact Or.inl hl
    · exact Or.inr (h.cur_lt hl)
  rw [RegisterModule_of_lt s p hc]
  refine
    { len := by simp only [List.length_append, List.length_singleton]; omega
      mods := ?_
      count := ?_
      cur_nonneg := h.cur_nonneg
      cur_lt := ?_
      cur_zero := by simp }
  · simp only [h.count, Int.toNat_ofNat, h.mods]
    exact set_append_replicate l p hlt
  · simp only [h.count, List.length_append, List.length_singleton]
    push_cast; rfl
  · intro _
    simp only [List.length_append, List.length_singleton]
    rcases hcur with hl | hl
    · rw [h.cur_zero hl]; push_cast; omega
    · push_cast; omega

/-- At capacity `RegisterModule` changes nothing. -/
theorem RegisterModule_of_full (s : Registry) (p : Option ArtModule)
    (h : MAX_MODULES ≤ s.moduleCount) : RegisterModule s p = s := by
  have : ¬ s.moduleCount < MAX_MODULES := by omega
  simp [RegisterModule, this]

theorem Registry.Holds.count_le {s : Registry} {l : List (Option ArtModule)} (h : s.Holds l) :
    s.moduleCount ≤ 1073741824 := by
  rw [h.count]; have := h.len; omega

theorem Registry.Holds.cur_lt_count {s : Registry} {l : List (Option ArtModule)}
    (h : s.Holds l) (hpos : 0 < s.moduleCount) : s.currentModuleIndex < s.moduleCount := by
  rw [h.count]
  apply h.cur_lt
  intro hl
  rw [h.count, hl] at hpos
  simp at hpos

theorem Registry.Holds.next {s : Registry} {l : List (Option ArtModule)} (h : s.Holds l) :
    (NextModule s).Holds l := by
  by_cases hpos : 0 < s.moduleCount
  · have hlt := h.cur_lt_count hpos
    rw [NextModule_eq s h.cur_nonneg hlt h.count_le]
    have hne : l ≠ [] := by
      intro hl; rw [h.count, hl] at hpos; simp at hpos
    have hc := h.count
    have hnn := h.cur_nonneg
    exact
      { len := h.len
        mods := h.mods
        count := h.count
        cur_nonneg := by dsimp only; split <;> omega
        cur_lt := by intro _; dsimp only; split <;> omega
        cur_zero := fun hl => absurd hl hne }
  · rw [NextModule_of_empty s (by omega)]; exact h

theorem Registry.Holds.previous {s : Registry} {l : List (Option ArtModule)} (h : s.Holds l) :
    (PreviousModule s).Holds l := by
  by_cases hpos : 0 < s.moduleCount
  · have hlt := h.cur_lt_count hpos
    rw [PreviousModule_eq s h.cur_nonneg hlt h.count_le]
    have hne : l ≠ [] := by
      intro hl; rw [h.count, hl] at hpos; simp at hpos
    have hc := h.count
    have hnn := h.cur_nonneg
    exact
      { len := h.len
        mods := h.mods
        count := h.count
        cur_nonneg := by dsimp only; split <;> omega
        cur_lt := by intro _; dsimp only; split <;> omega
        cur_zero := fun hl => absurd hl hne }
  · rw [PreviousModule_of_empty s (by omega)]; exact h

/-- Every sequence of calls keeps the registry holding the first ten registered
pointers, with a valid current index. -/
theorem Registry.Holds.foldl_run (calls : List RegistryCall) :
    ∀ (s : Registry) (l : List (Option ArtModule)), s.Holds l →
      (calls.foldl RegistryCall.run s).Holds ((l ++ registeredPointers calls).take 10) := by
  induction calls with
  | nil =>
    intro s l h
    simpa [registeredPointers, List.take_of_length_le h.len] using h
  | cons c rest ih =>
    intro s l h
    rw [List.foldl_cons]
    cases c with
    | register p =>
      by_cases hlt : l.length < 10
      · have := ih _ _ (h.register p hlt)
        simpa [registeredPointers, RegistryCall.run] using this
      · have hfull : l.length = 10 := le_antisymm h.len (not_lt.mp hlt)
        have hs : RegisterModule s p = s := by
          apply RegisterModule_of_full
          rw [h.count, hfull]; decide
        have := ih _ _ h
        rw [List.take_append_of_le_length (by omega)] at this ⊢
        simpa [RegistryCall.run, hs] using this
    | next =>
      simpa [registeredPointers, RegistryCall.run] using ih _ _ h.next
    | previous =>
      simpa [registeredPointers, RegistryCall.run] using ih _ _ h.previous

theorem runCalls_holds (calls : List RegistryCall) :
    (runCalls calls).Holds ((registeredPointers calls).take 10) := by
  simpa [runCalls] using Registry.Holds.foldl_run calls _ _ Registry.holds_initial

theorem registeredPointers_map_register (ps : List (Option ArtModule)) :
    registeredPointers (ps.map RegistryCall.register) = ps := by
  induction ps with
  | nil => rfl
  | cons p rest ih => simp [registeredPointers, ih]

theorem registerAll_eq_runCalls (ps : List (Option ArtModule)) :
    registerAll ps = runCalls (ps.map RegistryCall.register) := by
  unfold registerAll runCalls
  generalize Registry.initial = s
  induction ps generalizing s with
  | nil => rfl
  | cons p rest ih => simp [RegistryCall.run, ih]

theorem registerAll_holds (ps : List (Option ArtModule)) :
    (registerAll ps).Holds (ps.take 10) := by
  have := runCalls_holds (ps.map RegistryCall.register)
  rwa [registeredPointers_map_register, ← registerAll_eq_runCalls] at this

/-- Registration alone never moves the current index. -/
theorem registerAll_currentModuleIndex (ps : List (Option ArtModule)) :
    (registerAll ps).currentModuleIndex = 0 := by
  have key : ∀ (s : Registry), (ps.foldl RegisterModule s).currentModuleIndex =
      s.currentModuleIndex := by
    induction ps with
    | nil => intro s; rfl
    | cons p rest ih =>
      intro s
      rw [List.foldl_cons, ih]
      unfold RegisterModule
      split <;> rfl
  exact key _

/-! ## Registry: reading the slots -/

theorem Registry.Holds.slot_eq {s : Registry} {l : List (Option ArtModule)} (h : s.Holds l)
    (i : Int) (h0 : 0 ≤ i) (hi : i < s.moduleCount) : s.slot i = l[i.toNat]? := by
  have hlt : i.toNat < l.length := by
    have := h.count; omega
  simp only [Registry.slot, h0, if_true, h.mods]
  exact List.getElem?_append_left hlt

theorem Registry.Holds.modules_length {s : Registry} {l : List (Option ArtModule)}
    (h : s.Holds l) : s.modules.length = 10 := by
  have := h.len
  rw [h.mods, List.length_append, List.length_replicate]; omega

/-- In a reachable state a slot below the count holds a registered pointer. -/
theorem runCalls_slot (calls : List RegistryCall) (i : Int) (h0 : 0 ≤ i)
    (hi : i < (runCalls calls).moduleCount) :
    (runCalls calls).slot i = (registeredPointers calls)[i.toNat]? ∧
      i.toNat < (registeredPointers calls).length := by
  have h := runCalls_holds calls
  have hlen : i.toNat < ((registeredPointers calls).take 10).length := by
    have := h.count; omega
  rw [h.slot_eq i h0 hi]
  have h10 : i.toNat < 10 := lt_of_lt_of_le hlen h.len
  refine ⟨List.getElem?_take_of_lt h10, ?_⟩
  rw [List.length_take] at hlen
  omega

/-- When only modules are registered, a slot below the count holds a module. -/
theorem runCalls_slot_module (calls : List RegistryCall)
    (hmod : ∀ p ∈ registeredPointers calls, p ≠ none) (i : Int) (h0 : 0 ≤ i)
    (hi : i < (runCalls calls).moduleCount) :
    ∃ m : ArtModule, (runCalls calls).slot i = some (some m) ∧
      (registeredPointers calls)[i.toNat]? = some (some m) := by
  obtain ⟨hslot, hlt⟩ := runCalls_slot calls i h0 hi
  rw [hslot, List.getElem?_eq_getElem hlt]
  have hmem : (registeredPointers calls)[i.toNat] ∈ registeredPointers calls :=
    List.getElem_mem _
  cases hp : (registeredPointers calls)[i.toNat] with
  | none => exact absurd hp (hmod _ hmem)
  | some m => exact ⟨m, rfl, rfl⟩

/-! ## Registry: iterating the index updates -/

theorem emod_succ_step (a n : Int) (hn : 0 < n) :
    (if a % n + 1 < n then a % n + 1 else 0) = (a + 1) % n := by
  have h0 := Int.emod_nonneg a (ne_of_gt hn)
  have h1 := Int.emod_lt_of_pos a hn
  have key : (a + 1) % n = (a % n + 1) % n := by
    rw [Int.emod_add_cancel_right]; exact (Int.emod_emod_of_dvd a (dvd_refl n)).symm
  rw [key]
  split
  · exact (Int.emod_eq_of_lt (by omega) (by assumption)).symm
  · have : a % n + 1 = n := by omega
    rw [this, Int.emod_self]

theorem emod_pred_step (a n : Int) (hn : 0 < n) :
    (if a % n = 0 then n - 1 else a % n - 1) = (a - 1) % n := by
  have h0 := Int.emod_nonneg a (ne_of_gt hn)
  have h1 := Int.emod_lt_of_pos a hn
  have key : (a - 1) % n = (a % n - 1) % n := by
    rw [sub_eq_add_neg, sub_eq_add_neg, Int.emod_add_cancel_right]
    exact (Int.emod_emod_of_dvd a (dvd_refl n)).symm
  rw [key]
  split
  · rename_i hz
    rw [hz]
    have : (0 - 1 : Int) = (n - 1) + (-1) * n := by ring
    rw [this, Int.add_mul_emod_self]
    exact (Int.emod_eq_of_lt (by omega) (by omega)).symm
  · exact (Int.emod_eq_of_lt (by omega) (by omega)).symm

/-- The state after `k` calls of `NextModule`. -/
theorem NextModule_iterate (s : Registry) (hn : 0 < s.moduleCount)
    (hcap : s.moduleCount ≤ 1073741824) (k : Nat) :
    NextModule^[k] { s with currentModuleIndex := s.currentModuleIndex % s.moduleCount } =
      { s with currentModuleIndex := (s.currentModuleIndex + k) % s.moduleCount } := by
  induction k with
  | zero => simp
  | succ k ih =>
    rw [Function.iterate_succ_apply', ih]
    rw [NextModule_eq { s with currentModuleIndex := (s.currentModuleIndex + k) % s.moduleCount }
      (Int.emod_nonneg _ (ne_of_gt hn)) (Int.emod_lt_of_pos _ hn) hcap]
    simp only [Registry.mk.injEq, true_and]
    rw [emod_succ_step _ _ hn]
    push_cast
    rw [add_assoc]

/-- The state after `k` calls of `PreviousModule`. -/
theorem PreviousModule_iterate (s : Registry) (hn : 0 < s.moduleCount)
    (hcap : s.moduleCount ≤ 1073741824) (k : Nat) :
    PreviousModule^[k] { s with currentModuleIndex := s.currentModuleIndex % s.moduleCount } =
      { s with currentModuleIndex := (s.currentModuleIndex - k) % s.moduleCount } := by
  induction k with
  | zero => simp
  | succ k ih =>
    rw [Function.iterate_succ_apply', ih]
    rw [PreviousModule_eq
      { s with currentModuleIndex := (s.currentModuleIndex - k) % s.moduleCount }
      (Int.emod_nonneg _ (ne_of_gt hn)) (Int.emod_lt_of_pos _ hn) hcap]
    simp only [Registry.mk.injEq, true_and]
    rw [emod_pred_step _ _ hn]
    push_cast
    rw [sub_sub]

theorem Registry.eq_with_emod (s : Registry) (hi0 : 0 ≤ s.currentModuleIndex)
    (hi : s.currentModuleIndex < s.moduleCount) :
    { s with currentModuleIndex := s.currentModuleIndex % s.moduleCount } = s := by
  cases s with
  | mk ms n i =>
    simp only [Registry.mk.injEq, true_and]
    exact Int.emod_eq_of_lt hi0 hi

/-- `count` calls of `NextModule` restore the state. -/
theorem NextModule_iterate_count (s : Registry) (hn : 0 < s.moduleCount)
    (hcap : s.moduleCount ≤ 1073741824) (hi0 : 0 ≤ s.currentModuleIndex)
    (hi : s.currentModuleIndex < s.moduleCount) :
    NextModule^[s.moduleCount.toNat] s = s := by
  have h := NextModule_iterate s hn hcap s.moduleCount.toNat
  rw [Registry.eq_with_emod s hi0 hi] at h
  rw [h]
  cases s with
  | mk ms n i =>
    simp only [Registry.mk.injEq, true_and] at *
    rw [Int.toNat_of_nonneg (le_of_lt hn), Int.add_emod_self]
    exact Int.emod_eq_of_lt hi0 hi

/-- `count` calls of `PreviousModule` restore the state. -/
theorem PreviousModule_iterate_count (s : Registry) (hn : 0 < s.moduleCount)
    (hcap : s.moduleCount ≤ 1073741824) (hi0 : 0 ≤ s.currentModuleIndex)
    (hi : s.currentModuleIndex < s.moduleCount) :
    PreviousModule^[s.moduleCount.toNat] s = s := by
  have h := PreviousModule_iterate s hn hcap s.moduleCount.toNat
  rw [Registry.eq_with_emod s hi0 hi] at h
  rw [h]
  cases s with
  | mk ms n i =>
    simp only [Registry.mk.injEq, true_and] at *
    rw [Int.toNat_of_nonneg (le_of_lt hn)]
    have : i - n = i + (-1) * n := by ring
    rw [this, Int.add_mul_emod_self]
    exact Int.emod_eq_of_lt hi0 hi

/-! ## Registry: the claims -/

/-- C1. In a registry whose count is the capacity 10, `RegisterModule` of any
pointer changes nothing: the state is the same, so the count is still 10, the
current index is unchanged and every slot and every `GetModuleName(i)` is as
before.  Registering more than 10 pointers into the empty registry leaves
exactly the first 10, in order, with count 10. -/
theorem registerModule_at_capacity (s : Registry) (module : Option ArtModule)
    (hfull : GetModuleCount s = MAX_MODULES)
    (ps : List (Option ArtModule)) (hk : 10 < ps.length) :
    (RegisterModule s module = s ∧
      GetModuleCount (RegisterModule s module) = 10 ∧
      (RegisterModule s module).currentModuleIndex = s.currentModuleIndex ∧
      ∀ i : Int, (RegisterModule s module).slot i = s.slot i ∧
        GetModuleName (RegisterModule s module) i = GetModuleName s i) ∧
    (GetModuleCount (registerAll ps) = 10 ∧
      (registerAll ps).modules = ps.take 10 ∧
      (registerAll ps).currentModuleIndex = 0) := by
  have hs : RegisterModule s module = s :=
    RegisterModule_of_full s module (le_of_eq hfull.symm)
  refine ⟨⟨hs, ?_, ?_, ?_⟩, ?_, ?_, registerAll_currentModuleIndex ps⟩
  · rw [hs]; exact hfull
  · rw [hs]
  · intro i; rw [hs]; exact ⟨rfl, rfl⟩
  · have h := registerAll_holds ps
    unfold GetModuleCount
    rw [h.count, List.length_take]
    have : min 10 ps.length = 10 := by omega
    rw [this]; rfl
  · have h := registerAll_holds ps
    have hl : (ps.take 10).length = 10 := by rw [List.length_take]; omega
    rw [h.mods, hl]
    simp

theorem registerModule_at_capacity_witness :
    GetModuleCount fullRegistry = MAX_MODULES ∧ 10 < twelvePointers.length ∧
      RegisterModule fullRegistry (some fractalModule) = fullRegistry ∧
      (registerAll twelvePointers).modules = twelvePointers.take 10 :=
  ⟨by decide, by decide,
    (registerModule_at_capacity fullRegistry (some fractalModule) (by decide)
      twelvePointers (by decide)).1.1,
    (registerModule_at_capacity fullRegistry (some fractalModule) (by decide)
      twelvePointers (by decide)).2.2.1⟩

/-- C2. In a registry with `n = GetModuleCount() > 0` modules (`n` at most 2^30,
so that `currentModuleIndex - 1 + moduleCount` is an `int`; the registry never
holds more than 10) and a valid current index, `n` calls of `NextModule` bring
the current index back to where it was, and so do `n` calls of
`PreviousModule`. -/
theorem next_previous_cyclic (s : Registry) (hn : 0 < GetModuleCount s)
    (hcap : GetModuleCount s ≤ 1073741824) (hi0 : 0 ≤ s.currentModuleIndex)
    (hi : s.currentModuleIndex < GetModuleCount s) :
    (NextModule^[(GetModuleCount s).toNat] s).currentModuleIndex = s.currentModuleIndex ∧
      (PreviousModule^[(GetModuleCount s).toNat] s).currentModuleIndex =
        s.currentModuleIndex := by
  unfold GetModuleCount at *
  rw [NextModule_iterate_count s hn hcap hi0 hi, PreviousModule_iterate_count s hn hcap hi0 hi]
  exact ⟨rfl, rfl⟩

theorem next_previous_cyclic_witness :
    0 < GetModuleCount (runCalls sessionCalls) ∧
      (NextModule^[2] (runCalls sessionCalls)).currentModuleIndex = 1 ∧
      (PreviousModule^[2] (runCalls sessionCalls)).currentModuleIndex = 1 :=
  ⟨by decide,
    next_previous_cyclic (runCalls sessionCalls) (by decide) (by decide) (by decide)
      (by decide)⟩

/-- C3. In every state reached from the empty registry by calls of
`RegisterModule`, `NextModule` and `PreviousModule` (any count, the empty
registry included), `PreviousModule` after `NextModule` and `NextModule` after
`PreviousModule` both give back the whole state. -/
theorem previous_inverse_of_next (calls : List RegistryCall) :
    PreviousModule (NextModule (runCalls calls)) = runCalls calls ∧
      NextModule (PreviousModule (runCalls calls)) = runCalls calls := by
  have h := runCalls_holds calls
  by_cases hpos : 0 < (runCalls calls).moduleCount
  · exact ⟨PreviousModule_NextModule _ h.cur_nonneg (h.cur_lt_count hpos) h.count_le,
      NextModule_PreviousModule _ h.cur_nonneg (h.cur_lt_count hpos) h.count_le⟩
  · have he : (runCalls calls).moduleCount ≤ 0 := not_lt.mp hpos
    have hN := NextModule_of_empty _ he
    have hP := PreviousModule_of_empty _ he
    exact ⟨by rw [hN, hP], by rw [hP, hN]⟩

/-- C4. In every state reached from the empty registry by calls of
`RegisterModule`, `NextModule` and `PreviousModule`, `0 <= moduleCount <= 10`,
and when `moduleCount > 0` the current index is in `0 .. moduleCount - 1`. -/
theorem registry_invariant (calls : List RegistryCall) :
    0 ≤ (runCalls calls).moduleCount ∧ (runCalls calls).moduleCount ≤ MAX_MODULES ∧
      (0 < (runCalls calls).moduleCount →
        0 ≤ (runCalls calls).currentModuleIndex ∧
          (runCalls calls).currentModuleIndex < (runCalls calls).moduleCount) := by
  have h := runCalls_holds calls
  refine ⟨?_, ?_, fun hpos => ⟨h.cur_nonneg, h.cur_lt_count hpos⟩⟩
  · rw [h.count]; exact Int.ofNat_nonneg _
  · rw [h.count]; unfold MAX_MODULES; exact_mod_cast h.len

theorem registry_invariant_witness :
    0 < (runCalls sessionCalls).moduleCount ∧
      0 ≤ (runCalls sessionCalls).currentModuleIndex ∧
      (runCalls sessionCalls).currentModuleIndex < (runCalls sessionCalls).moduleCount :=
  ⟨by decide, (registry_invariant sessionCalls).2.2 (by decide)⟩

/-- C5. In every state reached from the empty registry by calls that register
modules (non-`NULL` pointers) and move the index, `GetCurrentModule()` is `NULL`
exactly when the registry is empty; otherwise it is the module that was
registered at position `currentModuleIndex`, a position below the count. -/
theorem getCurrentModule_spec (calls : List RegistryCall)
    (hmod : ∀ p ∈ registeredPointers calls, p ≠ none) :
    (GetCurrentModule (runCalls calls) = some none ↔ GetModuleCount (runCalls calls) = 0) ∧
      (0 < GetModuleCount (runCalls calls) →
        ∃ m : ArtModule, GetCurrentModule (runCalls calls) = some (some m) ∧
          (registeredPointers calls)[(runCalls calls).currentModuleIndex.toNat]? =
            some (some m) ∧
          some m ∈ registeredPointers calls ∧
          (runCalls calls).currentModuleIndex < GetModuleCount (runCalls calls)) := by
  have h := runCalls_holds calls
  have hinv := registry_invariant calls
  unfold GetModuleCount
  have hpos : 0 < (runCalls calls).moduleCount →
      ∃ m : ArtModule, GetCurrentModule (runCalls calls) = some (some m) ∧
        (registeredPointers calls)[(runCalls calls).currentModuleIndex.toNat]? =
          some (some m) ∧
        some m ∈ registeredPointers calls ∧
        (runCalls calls).currentModuleIndex < (runCalls calls).moduleCount := by
    intro hp
    obtain ⟨m, hslot, hreg⟩ :=
      runCalls_slot_module calls hmod _ h.cur_nonneg (h.cur_lt_count hp)
    refine ⟨m, ?_, hreg, List.getElem?_mem hreg, h.cur_lt_count hp⟩
    have : (runCalls calls).moduleCount > 0 := hp
    simp only [GetCurrentModule, this, if_true, hslot]
  refine ⟨⟨fun hnull => ?_, fun hzero => ?_⟩, hpos⟩
  · by_contra hne
    have hp : 0 < (runCalls calls).moduleCount := lt_of_le_of_ne hinv.1 (Ne.symm hne)
    obtain ⟨m, hm, _⟩ := hpos hp
    rw [hm] at hnull
    simp at hnull
  · simp [GetCurrentModule, hzero]

theorem getCurrentModule_spec_witness :
    (∀ p ∈ registeredPointers sessionCalls, p ≠ none) ∧
      0 < GetModuleCount (runCalls sessionCalls) ∧
      GetCurrentModule (runCalls sessionCalls) ≠ some none :=
  ⟨by decide, by decide,
    fun hnull => absurd
      (((getCurrentModule_spec sessionCalls (by decide)).1).mp hnull) (by decide)⟩

/-- C6. Registering modules `m_1 .. m_k` (`k <= 10`) in that order into the empty
registry gives count `k`, `GetModuleName(i)` the name of `m_(i+1)` for every
`0 <= i < k`, and `m_1` as current module.  In any registry with
`0 <= moduleCount < 10`, `RegisterModule` stores the pointer at position
`moduleCount`, adds one to the count and changes no other slot and not the
current index. -/
theorem register_in_order (ms : List ArtModule) (hk : ms.length ≤ 10)
    (s : Registry) (module : Option ArtModule) (hlen : s.modules.length = 10)
    (h0 : 0 ≤ s.moduleCount) (hlt : s.moduleCount < MAX_MODULES) :
    (GetModuleCount (registerAll (ms.map some)) = ms.length ∧
      (∀ i : Nat, ∀ hi : i < ms.length,
        GetModuleName (registerAll (ms.map some)) i = some (ms.get ⟨i, hi⟩).name) ∧
      (∀ m : ArtModule, ms.head? = some m →
        GetCurrentModule (registerAll (ms.map some)) = some (some m))) ∧
    ((RegisterModule s module).slot s.moduleCount = some module ∧
      GetModuleCount (RegisterModule s module) = GetModuleCount s + 1 ∧
      (∀ j : Int, j ≠ s.moduleCount → (RegisterModule s module).slot j = s.slot j) ∧
      (RegisterModule s module).currentModuleIndex = s.currentModuleIndex) := by
  have h := registerAll_holds (ms.map some)
  have htake : (ms.map some).take 10 = ms.map some :=
    List.take_of_length_le (by simpa using hk)
  rw [htake] at h
  have hcount : (registerAll (ms.map some)).moduleCount = ms.length := by
    rw [h.count, List.length_map]
  have hname : ∀ i : Nat, ∀ hi : i < ms.length,
      (registerAll (ms.map some)).slot i = some (some (ms.get ⟨i, hi⟩)) := by
    intro i hi
    rw [h.slot_eq i (Int.ofNat_nonneg _) (by rw [hcount]; exact_mod_cast hi)]
    simp [List.getElem?_eq_getElem hi]
  refine ⟨⟨hcount, ?_, ?_⟩, ?_⟩
  · intro i hi
    have hr : (i : Int) ≥ 0 ∧ (i : Int) < (registerAll (ms.map some)).moduleCount :=
      ⟨Int.ofNat_nonneg _, by rw [hcount]; exact_mod_cast hi⟩
    simp only [GetModuleName, hr, and_self, if_true, hname i hi]
  · intro m hm
    cases ms with
    | nil => simp at hm
    | cons a rest =>
      simp only [List.head?_cons, Option.some.injEq] at hm
      subst hm
      have hp : (registerAll ((a :: rest).map some)).moduleCount > 0 := by
        rw [hcount]; simp
      have hz := registerAll_currentModuleIndex ((a :: rest).map some)
      have := hname 0 (by simp)
      simp only [GetCurrentModule, hp, if_true, hz]
      simpa using this
  · rw [RegisterModule_of_lt s module hlt]
    have hc : s.moduleCount.toNat < s.modules.length := by
      rw [hlen]; unfold MAX_MODULES at hlt; omega
    refine ⟨?_, rfl, ?_, rfl⟩
    · simp only [Registry.slot, h0, if_true]
      rw [List.getElem?_set_self hc]
    · intro j hj
      by_cases hj0 : 0 ≤ j
      · simp only [Registry.slot, hj0, if_true]
        exact List.getElem?_set_ne (by omega)
      · simp [Registry.slot, hj0]

theorem register_in_order_witness :
    [mandalaModule, fractalModule].length ≤ 10 ∧
      Registry.initial.modules.length = 10 ∧ 0 ≤ Registry.initial.moduleCount ∧
      Registry.initial.moduleCount < MAX_MODULES ∧
      GetModuleCount mainRegistry = 2 ∧
      GetCurrentModule mainRegistry = some (some mandalaModule) ∧
      (RegisterModule Registry.initial (some mandalaModule)).slot 0 = some (some mandalaModule) :=
  ⟨by decide, by decide, by decide, by decide,
    (register_in_order [mandalaModule, fractalModule] (by decide) Registry.initial
      (some mandalaModule) (by decide) (by decide) (by decide)).1.1,
    (register_in_order [mandalaModule, fractalModule] (by decide) Registry.initial
      (some mandalaModule) (by decide) (by decide) (by decide)).1.2.2 mandalaModule rfl,
    (register_in_order [mandalaModule, fractalModule] (by decide) Registry.initial
      (some mandalaModule) (by decide) (by decide) (by decide)).2.1⟩

/-- C7. `GetModuleName(index)` never fails, for any integer `index`.  In a state
reached by calls that register modules (non-`NULL` pointers) it returns the name
of the module registered at position `index` when
`0 <= index < GetModuleCount()`; in any state whatever it returns `"Unknown"`
for every other index, hence for every index when the registry is empty. -/
theorem getModuleName_spec (calls : List RegistryCall)
    (hmod : ∀ p ∈ registeredPointers calls, p ≠ none) (s : Registry) (index : Int) :
    (0 ≤ index ∧ index < GetModuleCount (runCalls calls) →
      ∃ m : ArtModule, (registeredPointers calls)[index.toNat]? = some (some m) ∧
        GetModuleName (runCalls calls) index = some m.name) ∧
    (¬ (0 ≤ index ∧ index < GetModuleCount s) → GetModuleName s index = some "Unknown") ∧
    (GetModuleCount s = 0 → GetModuleName s index = some "Unknown") ∧
    (∃ name : String, GetModuleName (runCalls calls) index = some name) := by
  have hout : ∀ t : Registry, ¬ (0 ≤ index ∧ index < GetModuleCount t) →
      GetModuleName t index = some "Unknown" := by
    intro t hnot
    unfold GetModuleCount at hnot
    simp only [GetModuleName, ge_iff_le, hnot, if_false]
  have hin : 0 ≤ index ∧ index < GetModuleCount (runCalls calls) →
      ∃ m : ArtModule, (registeredPointers calls)[index.toNat]? = some (some m) ∧
        GetModuleName (runCalls calls) index = some m.name := by
    intro hr
    obtain ⟨m, hslot, hreg⟩ := runCalls_slot_module calls hmod index hr.1 hr.2
    refine ⟨m, hreg, ?_⟩
    unfold GetModuleCount at hr
    simp only [GetModuleName, ge_iff_le, hr, and_self, if_true, hslot]
  refine ⟨hin, hout s, ?_, ?_⟩
  · intro hz
    apply hout s
    rw [hz]
    omega
  · by_cases hr : 0 ≤ index ∧ index < GetModuleCount (runCalls calls)
    · obtain ⟨m, _, hm⟩ := hin hr
      exact ⟨_, hm⟩
    · exact ⟨_, hout _ hr⟩

theorem getModuleName_spec_witness :
    (∀ p ∈ registeredPointers sessionCalls, p ≠ none) ∧
      (0 : Int) ≤ 1 ∧ 1 < GetModuleCount (runCalls sessionCalls) ∧
      (∃ m : ArtModule, (registeredPointers sessionCalls)[(1 : Int).toNat]? = some (some m) ∧
        GetModuleName (runCalls sessionCalls) 1 = some m.name) ∧
      GetModuleName (runCalls sessionCalls) (-1) = some "Unknown" ∧
      GetModuleName (runCalls sessionCalls) 2 = some "Unknown" :=
  ⟨by decide, by decide, by decide,
    (getModuleName_spec sessionCalls (by decide) Registry.initial 1).1 ⟨by decide, by decide⟩,
    (getModuleName_spec sessionCalls (by decide) (runCalls sessionCalls) (-1)).2.1 (by decide),
    (getModuleName_spec sessionCalls (by decide) (runCalls sessionCalls) 2).2.1 (by decide)⟩

/-! ## Escape-time engines: the counted escape loop -/

section EscapeLoop

variable {S : Type} (esc : S → Prop) [DecidablePred esc] (step : S → S)

/-- The loop returns a count between its start value and start plus trips. -/
theorem escapeLoop_bounds (trips : Nat) :
    ∀ (i : Int) (s : S),
      i ≤ escapeLoop esc step trips i s ∧ escapeLoop esc step trips i s ≤ i + trips := by
  induction trips with
  | zero => intro i s; simp [escapeLoop]
  | succ n ih =>
    intro i s
    unfold escapeLoop
    split
    · constructor
      · exact le_refl _
      · push_cast; omega
    · have := ih (i + 1) (step s)
      push_cast
      omega

/-- A count below start plus trips is returned only at a state that passed the
escape test. -/
theorem escapeLoop_escaped (trips : Nat) :
    ∀ (i : Int) (s : S), escapeLoop esc step trips i s < i + trips →
      esc (step^[(escapeLoop esc step trips i s - i).toNat] s) := by
  induction trips with
  | zero => intro i s h; simp [escapeLoop] at h
  | succ n ih =>
    intro i s h
    unfold escapeLoop at h ⊢
    split
    · rename_i he
      simpa using he
    · rename_i he
      rw [if_neg he] at h
      have hb := (escapeLoop_bounds esc step n (i + 1) (step s)).1
      have h1 : escapeLoop esc step n (i + 1) (step s) < i + 1 + n := by
        push_cast at h; omega
      have := ih (i + 1) (step s) h1
      have hk : (escapeLoop esc step n (i + 1) (step s) - i).toNat =
          (escapeLoop esc step n (i + 1) (step s) - (i + 1)).toNat + 1 := by omega
      rw [hk, Function.iterate_succ_apply]
      exact this

/-- No state before the returned count passed the escape test. -/
theorem escapeLoop_not_escaped_before (trips : Nat) :
    ∀ (i : Int) (s : S) (k : Nat), (k : Int) < escapeLoop esc step trips i s - i →
      ¬ esc (step^[k] s) := by
  induction trips with
  | zero => intro i s k h; simp [escapeLoop] at h; omega
  | succ n ih =>
    intro i s k h
    unfold escapeLoop at h
    split at h
    · omega
    · rename_i he
      cases k with
      | zero => simpa using he
      | succ k =>
        rw [Function.iterate_succ_apply]
        apply ih (i + 1) (step s) k
        push_cast at h
        omega

end EscapeLoop

section EngineLemmas

variable {F : Type} [LinearOrderedField F]

theorem CalculateMandelbrot_loop_eq (sqrtf : F → F) (real imag : F) (maxIterations : Int)
    (trips : Nat) :
    ∀ (i : Int) (p : F × F), i + trips = maxIterations →
      CalculateMandelbrot.loop sqrtf real imag maxIterations trips i p =
        escapeLoop escapedSquares (CalculateMandelbrot.body sqrtf real imag) trips i p := by
  induction trips with
  | zero =>
    intro i p h
    simp only [CalculateMandelbrot.loop, escapeLoop]
    simpa using h.symm
  | succ n ih =>
    intro i p h
    simp only [CalculateMandelbrot.loop, escapeLoop, escapedSquares]
    rw [ih (i + 1) _ (by push_cast at h; omega)]

theorem CalculateJulia_loop_eq (cReal cImag : F) (maxIterations : Int) (trips : Nat) :
    ∀ (i : Int) (p : F × F), i + trips = maxIterations →
      CalculateJulia.loop cReal cImag maxIterations trips i p =
        escapeLoop escaped (CalculateJulia.body cReal cImag) trips i p := by
  induction trips with
  | zero =>
    intro i p h
    simp only [CalculateJulia.loop, escapeLoop]
    simpa using h.symm
  | succ n ih =>
    intro i p h
    simp only [CalculateJulia.loop, escapeLoop, escaped]
    rw [ih (i + 1) _ (by push_cast at h; omega)]

theorem MandelbrotIterations_loop_eq (x0 y0 : F) (trips : Nat) :
    ∀ (i : Int) (p : F × F),
      MandelbrotIterations.loop x0 y0 trips i p =
        escapeLoop escaped (MandelbrotIterations.body x0 y0) trips i p := by
  induction trips with
  | zero => intro i p; rfl
  | succ n ih =>
    intro i p
    simp only [MandelbrotIterations.loop, escapeLoop, escaped, ih]
    by_cases h : p.1 * p.1 + p.2 * p.2 ≤ 4
    · rw [if_pos h, if_neg (not_lt.mpr h)]
    · rw [if_neg h, if_pos (not_le.mp h)]

theorem JuliaIterations_loop_eq (juliaReal juliaImag : F) (trips : Nat) :
    ∀ (i : Int) (p : F × F),
      JuliaIterations.loop juliaReal juliaImag trips i p =
        escapeLoop escaped (JuliaIterations.body juliaReal juliaImag) trips i p := by
  induction trips with
  | zero => intro i p; rfl
  | succ n ih =>
    intro i p
    simp only [JuliaIterations.loop, escapeLoop, escaped, ih]
    by_cases h : p.1 * p.1 + p.2 * p.2 ≤ 4
    · rw [if_pos h, if_neg (not_lt.mpr h)]
    · rw [if_neg h, if_pos (not_le.mp h)]

theorem BurningShipIterations_loop_eq (x0 y0 : F) (trips : Nat) :
    ∀ (i : Int) (p : F × F),
      BurningShipIterations.loop x0 y0 trips i p =
        escapeLoop escaped (BurningShipIterations.body x0 y0) trips i p := by
  induction trips with
  | zero => intro i p; rfl
  | succ n ih =>
    intro i p
    simp only [BurningShipIterations.loop, escapeLoop, escaped, ih]
    by_cases h : p.1 * p.1 + p.2 * p.2 ≤ 4
    · rw [if_pos h, if_neg (not_lt.mpr h)]
    · rw [if_neg h, if_pos (not_le.mp h)]

/-- Bounds and escape for a loop started at count 0. -/
theorem escapeLoop_from_zero {S : Type} (esc : S → Prop) [DecidablePred esc] (step : S → S)
    (trips : Nat) (s : S) :
    0 ≤ escapeLoop esc step trips 0 s ∧ escapeLoop esc step trips 0 s ≤ trips ∧
      (escapeLoop esc step trips 0 s < trips →
        esc (step^[(escapeLoop esc step trips 0 s).toNat] s)) := by
  have hb := escapeLoop_bounds esc step trips 0 s
  refine ⟨hb.1, by simpa using hb.2, fun h => ?_⟩
  have := escapeLoop_escaped esc step trips 0 s (by simpa using h)
  simpa using this

end EngineLemmas

/-! ## Escape-time engines: the claims -/

section EngineClaims

variable {F : Type} [LinearOrderedField F]

theorem CalculateMandelbrot_loop_origin (sqrtf : F → F) (h0 : sqrtf 0 = 0)
    (maxIterations : Int) (trips : Nat) :
    ∀ i : Int, CalculateMandelbrot.loop sqrtf 0 0 maxIterations trips i (0, 0) =
      maxIterations := by
  induction trips with
  | zero => intro i; rfl
  | succ n ih =>
    intro i
    have hb : CalculateMandelbrot.body sqrtf 0 0 ((0 : F), (0 : F)) = (0, 0) := by
      simp [CalculateMandelbrot.body, h0]
    have hn : ¬ ((0 : F) + 0 > 4) := by norm_num
    simp only [CalculateMandelbrot.loop, hn, if_false, hb]
    exact ih (i + 1)

theorem MandelbrotIterations_loop_origin (trips : Nat) :
    ∀ i : Int, MandelbrotIterations.loop (0 : F) 0 trips i (0, 0) = i + trips := by
  induction trips with
  | zero => intro i; simp [MandelbrotIterations.loop]
  | succ n ih =>
    intro i
    have hb : MandelbrotIterations.body (0 : F) 0 ((0 : F), (0 : F)) = (0, 0) := by
      simp [MandelbrotIterations.body]
    have hn : (0 : F) * 0 + 0 * 0 ≤ 4 := by norm_num
    simp only [MandelbrotIterations.loop, hn, if_true, hb]
    rw [ih (i + 1)]
    push_cast
    ring

/-- C8. At `c = 0 + 0i` the Mandelbrot iteration never escapes:
`CalculateMandelbrot(0, 0, cap)` returns `cap` for every `cap` (given
`sqrtf(0) = 0`), and `MandelbrotIterations(0, 0)` returns
`MAX_ITERATIONS = 256`. -/
theorem mandelbrot_origin_never_escapes (sqrtf : F → F) (h0 : sqrtf 0 = 0) (cap : Int) :
    CalculateMandelbrot sqrtf 0 0 cap = cap ∧
      MandelbrotIterations (0 : F) 0 = 256 ∧ (MAX_ITERATIONS : Int) = 256 := by
  refine ⟨CalculateMandelbrot_loop_origin sqrtf h0 cap _ 0, ?_, rfl⟩
  unfold MandelbrotIterations
  rw [MandelbrotIterations_loop_origin]
  rfl

theorem mandelbrot_origin_never_escapes_witness :
    Rat.sqrt 0 = 0 ∧ CalculateMandelbrot Rat.sqrt 0 0 100 = 100 ∧
      MandelbrotIterations (0 : ℚ) 0 = 256 :=
  ⟨by decide, (mandelbrot_origin_never_escapes Rat.sqrt (by decide) 100).1,
    (mandelbrot_origin_never_escapes Rat.sqrt (by decide) 100).2.1⟩

/-- `MandelbrotIterations(2, 0)`: the states are `(0,0)`, `(2,0)`, `(6,0)` and the
test `x*x + y*y <= 4` first fails at the third. -/
theorem MandelbrotIterations_two : MandelbrotIterations (2 : F) 0 = 2 := by
  show MandelbrotIterations.loop (2 : F) 0 (254 + 1 + 1) 0 (0, 0) = 2
  have h1 : ((0 : F), (0 : F)).1 * ((0 : F), (0 : F)).1 +
      ((0 : F), (0 : F)).2 * ((0 : F), (0 : F)).2 ≤ 4 := by norm_num
  have b1 : MandelbrotIterations.body (2 : F) 0 ((0 : F), (0 : F)) = (2, 0) := by
    simp [MandelbrotIterations.body]
  have h2 : ((2 : F), (0 : F)).1 * ((2 : F), (0 : F)).1 +
      ((2 : F), (0 : F)).2 * ((2 : F), (0 : F)).2 ≤ 4 := by norm_num
  have b2 : MandelbrotIterations.body (2 : F) 0 ((2 : F), (0 : F)) = (6, 0) := by
    simp only [MandelbrotIterations.body]; norm_num
  have h3 : ¬ (((6 : F), (0 : F)).1 * ((6 : F), (0 : F)).1 +
      ((6 : F), (0 : F)).2 * ((6 : F), (0 : F)).2 ≤ 4) := by norm_num
  rw [MandelbrotIterations.loop, if_pos h1, b1, MandelbrotIterations.loop, if_pos h2, b2]
  show MandelbrotIterations.loop (2 : F) 0 (253 + 1) (0 + 1 + 1) (6, 0) = 2
  rw [MandelbrotIterations.loop, if_neg h3]
  rfl

/-- `CalculateMandelbrot(2, 0, cap)` for `cap >= 2`: the states `(r2, i2)` are
`(0,0)`, `(4,0)`, `(36,0)` and the test `r2 + i2 > 4` first holds at the third. -/
theorem CalculateMandelbrot_two (sqrtf : F → F) (h0 : sqrtf 0 = 0) (cap : Int)
    (hcap : 2 ≤ cap) : CalculateMandelbrot sqrtf 2 0 cap = 2 := by
  obtain ⟨k, hk⟩ : ∃ k : Nat, cap.toNat = k + 1 + 1 := ⟨cap.toNat - 2, by omega⟩
  have h1 : ¬ (((0 : F), (0 : F)).1 + ((0 : F), (0 : F)).2 > 4) := by norm_num
  have b1 : CalculateMandelbrot.body sqrtf 2 0 ((0 : F), (0 : F)) = (4, 0) := by
    simp only [CalculateMandelbrot.body, h0]; norm_num
  have h2 : ¬ (((4 : F), (0 : F)).1 + ((4 : F), (0 : F)).2 > 4) := by norm_num
  have b2 : CalculateMandelbrot.body sqrtf 2 0 ((4 : F), (0 : F)) = (36, 0) := by
    simp only [CalculateMandelbrot.body, h0]; norm_num
  have h3 : ((36 : F), (0 : F)).1 + ((36 : F), (0 : F)).2 > 4 := by norm_num
  unfold CalculateMandelbrot
  rw [hk, CalculateMandelbrot.loop, if_neg h1, b1, CalculateMandelbrot.loop, if_neg h2, b2]
  cases k with
  | zero =>
    simp only [CalculateMandelbrot.loop]
    omega
  | succ k =>
    rw [CalculateMandelbrot.loop, if_pos h3]
    rfl

/-- C9, as the code has it. At `c = 2 + 0i` the iteration escapes at count 2:
`MandelbrotIterations(2, 0)` returns 2, and `CalculateMandelbrot(2, 0, cap)`
returns 2 for every `cap >= 2` (given `sqrtf(0) = 0`); the state `z = 2` has
`|z|^2 = 4`, which is not `> 4`. -/
theorem mandelbrot_two_escapes_at_two (sqrtf : F → F) (h0 : sqrtf 0 = 0) (cap : Int)
    (hcap : 2 ≤ cap) :
    MandelbrotIterations (2 : F) 0 = 2 ∧ CalculateMandelbrot sqrtf 2 0 cap = 2 :=
  ⟨MandelbrotIterations_two, CalculateMandelbrot_two sqrtf h0 cap hcap⟩

end EngineClaims

theorem mandelbrot_two_escapes_at_two_witness :
    Rat.sqrt 0 = 0 ∧ (2 : Int) ≤ 256 ∧ MandelbrotIterations (2 : ℚ) 0 = 2 ∧
      CalculateMandelbrot Rat.sqrt 2 0 256 = 2 :=
  ⟨by decide, by decide, mandelbrot_two_escapes_at_two Rat.sqrt (by decide) 256 (by decide)⟩

/-- C9 as stated fails: over the rationals, `MandelbrotIterations(2, 0)` is
neither 0 nor 1, and `CalculateMandelbrot(2, 0, 256)` is neither 0 nor 1. -/
theorem mandelbrot_two_not_zero_or_one :
    ¬ (MandelbrotIterations (2 : ℚ) 0 = 0 ∨ MandelbrotIterations (2 : ℚ) 0 = 1) ∧
      ¬ (CalculateMandelbrot Rat.sqrt (2 : ℚ) 0 256 = 0 ∨
        CalculateMandelbrot Rat.sqrt (2 : ℚ) 0 256 = 1) := by
  rw [MandelbrotIterations_two, CalculateMandelbrot_two Rat.sqrt (by decide) 256 (by decide)]
  decide

/-- C10. Every escape-time engine is a total function whose count is bounded by
its cap, for every input point: for `cap >= 0`, `CalculateMandelbrot` and
`CalculateJulia` return a count in `0 .. cap`, and `MandelbrotIterations`,
`JuliaIterations` and `BurningShipIterations` return a count in `0 .. 256`.
A count `n` below the cap is returned only when the state after `n` trips of the
loop passed the escape test (`r2 + i2 > 4`, resp. `x*x + y*y > 4`). -/
theorem escape_count_bounded {F : Type} [LinearOrderedField F] (sqrtf : F → F)
    (x y cReal cImag juliaReal juliaImag : F) (cap : Int) (hcap : 0 ≤ cap) :
    (0 ≤ CalculateMandelbrot sqrtf x y cap ∧ CalculateMandelbrot sqrtf x y cap ≤ cap ∧
      (CalculateMandelbrot sqrtf x y cap < cap →
        escapedSquares
          ((CalculateMandelbrot.body sqrtf x y)^[(CalculateMandelbrot sqrtf x y cap).toNat]
            (0, 0)))) ∧
    (0 ≤ CalculateJulia x y cReal cImag cap ∧ CalculateJulia x y cReal cImag cap ≤ cap ∧
      (CalculateJulia x y cReal cImag cap < cap →
        escaped
          ((CalculateJulia.body cReal cImag)^[(CalculateJulia x y cReal cImag cap).toNat]
            (x, y)))) ∧
    (0 ≤ MandelbrotIterations x y ∧ MandelbrotIterations x y ≤ 256 ∧
      (MandelbrotIterations x y < 256 →
        escaped ((MandelbrotIterations.body x y)^[(MandelbrotIterations x y).toNat] (0, 0)))) ∧
    (0 ≤ JuliaIterations juliaReal juliaImag x y ∧
      JuliaIterations juliaReal juliaImag x y ≤ 256 ∧
      (JuliaIterations juliaReal juliaImag x y < 256 →
        escaped
          ((JuliaIterations.body juliaReal juliaImag)^[
            (JuliaIterations juliaReal juliaImag x y).toNat] (x, y)))) ∧
    (0 ≤ BurningShipIterations x y ∧ BurningShipIterations x y ≤ 256 ∧
      (BurningShipIterations x y < 256 →
        escaped
          ((BurningShipIterations.body x y)^[(BurningShipIterations x y).toNat] (0, 0)))) := by
  have hc : ((cap.toNat : Nat) : Int) = cap := Int.toNat_of_nonneg hcap
  refine ⟨?_, ?_, ?_, ?_, ?_⟩
  · unfold CalculateMandelbrot
    rw [CalculateMandelbrot_loop_eq sqrtf x y cap cap.toNat 0 (0, 0) (by omega)]
    have := escapeLoop_from_zero escapedSquares (CalculateMandelbrot.body sqrtf x y)
      cap.toNat (0, 0)
    rwa [hc] at this
  · unfold CalculateJulia
    rw [CalculateJulia_loop_eq cReal cImag cap cap.toNat 0 (x, y) (by omega)]
    have := escapeLoop_from_zero escaped (CalculateJulia.body cReal cImag) cap.toNat (x, y)
    rwa [hc] at this
  · unfold MandelbrotIterations
    rw [MandelbrotIterations_loop_eq]
    exact escapeLoop_from_zero escaped (MandelbrotIterations.body x y) MAX_ITERATIONS (0, 0)
  · unfold JuliaIterations
    rw [JuliaIterations_loop_eq]
    exact escapeLoop_from_zero escaped (JuliaIterations.body juliaReal juliaImag)
      MAX_ITERATIONS (x, y)
  · unfold BurningShipIterations
    rw [BurningShipIterations_loop_eq]
    exact escapeLoop_from_zero escaped (BurningShipIterations.body x y) MAX_ITERATIONS (0, 0)

theorem escape_count_bounded_witness :
    (0 : Int) ≤ 100 ∧
      0 ≤ CalculateMandelbrot Rat.sqrt (1 / 4) (1 / 2) 100 ∧
      CalculateMandelbrot Rat.sqrt (1 / 4) (1 / 2) 100 ≤ 100 ∧
      0 ≤ BurningShipIterations (3 : ℚ) 1 ∧ BurningShipIterations (3 : ℚ) 1 ≤ 256 :=
  ⟨by decide,
    (escape_count_bounded Rat.sqrt (1 / 4) (1 / 2) 0 0 0 0 100 (by decide)).1.1,
    (escape_count_bounded Rat.sqrt (1 / 4) (1 / 2) 0 0 0 0 100 (by decide)).1.2.1,
    (escape_count_bounded Rat.sqrt (3 : ℚ) 1 0 0 0 0 100 (by decide)).2.2.2.2.1,
    (escape_count_bounded Rat.sqrt (3 : ℚ) 1 0 0 0 0 100 (by decide)).2.2.2.2.2.1⟩

/-! ## Colouring of fractal pixels: the claims -/

section ColouringClaims

variable {F : Type} [LinearOrderedField F]

theorem Fractal_Draw_block_at_cap (palette : List Color) (cap : Int) :
    (Fractal_Draw.block palette cap cap : BlockDraw F) = BlockDraw.skipped := by
  simp [Fractal_Draw.block]

theorem paletteAt_tmod (palette : List Color) (hlen : palette.length = 256) (n : Int)
    (h0 : 0 ≤ n) :
    0 ≤ Int.tmod n 256 ∧ Int.tmod n 256 < 256 ∧ Int.tmod n 256 = n % 256 ∧
      ∃ color : Color, paletteAt palette (Int.tmod n 256) = some color ∧
        palette[(n % 256).toNat]? = some color := by
  have hm : Int.tmod n 256 = n % 256 := Int.tmod_eq_emod h0 (by decide)
  have h1 : 0 ≤ n % 256 := Int.emod_nonneg n (by decide)
  have h2 : n % 256 < 256 := Int.emod_lt_of_pos n (by decide)
  rw [hm]
  refine ⟨h1, h2, rfl, ?_⟩
  have hlt : (n % 256).toNat < palette.length := by rw [hlen]; omega
  exact ⟨palette[(n % 256).toNat], by simp [paletteAt, h1, List.getElem?_eq_getElem hlt],
    List.getElem?_eq_getElem hlt⟩

/-- The counts of `CalculateMandelbrot` are never negative when the cap is not. -/
theorem CalculateMandelbrot_nonneg (sqrtf : F → F) (x y : F) (cap : Int) (hcap : 0 ≤ cap) :
    0 ≤ CalculateMandelbrot sqrtf x y cap := by
  unfold CalculateMandelbrot
  rw [CalculateMandelbrot_loop_eq sqrtf x y cap cap.toNat 0 (0, 0) (by omega)]
  exact (escapeLoop_bounds _ _ _ 0 _).1

/-- The counts of `CalculateJulia` are never negative when the cap is not. -/
theorem CalculateJulia_nonneg (x y cReal cImag : F) (cap : Int) (hcap : 0 ≤ cap) :
    0 ≤ CalculateJulia x y cReal cImag cap := by
  unfold CalculateJulia
  rw [CalculateJulia_loop_eq cReal cImag cap cap.toNat 0 (x, y) (by omega)]
  exact (escapeLoop_bounds _ _ _ 0 _).1

theorem Fractal_Draw_iterationsAt_nonneg (sqrtf sinf cosf : F → F) (keyJ : Bool)
    (fractal : FractalState F) (x y : Int) (hcap : 0 ≤ fractal.iterations) :
    0 ≤ Fractal_Draw.iterationsAt sqrtf sinf cosf keyJ fractal x y := by
  unfold Fractal_Draw.iterationsAt
  cases keyJ with
  | true => simpa using CalculateJulia_nonneg _ _ _ _ _ hcap
  | false => simpa using CalculateMandelbrot_nonneg sqrtf _ _ _ hcap

/-- C11. A pixel whose count equals the cap is black: `GetFractalColor(n, n)` is
`(0, 0, 0, 255)` for every `n` and every colour scheme (so a pixel of
`DrawFractal` with `MAX_ITERATIONS` iterations is black), and in the fractal
module a block whose count equals `fractal.iterations` gets no rectangle of its
own: the only rectangle drawn over it is the `BLACK` background. -/
theorem black_at_cap (colorScheme : Int) (logf : F → F) (toUChar : F → Nat) (n : Int)
    (Fade : Color → F → Color) (sqrtf sinf cosf : F → F) (keyJ : Bool)
    (fractal : FractalState F) (x y : Int)
    (hcap : Fractal_Draw.iterationsAt sqrtf sinf cosf keyJ fractal x y = fractal.iterations) :
    (GetFractalColor colorScheme logf toUChar n n = { r := 0, g := 0, b := 0, a := 255 } ∧
      DrawFractal.pixelColor colorScheme logf toUChar MAX_ITERATIONS = BLACK) ∧
    ((Fractal_Draw.block fractal.palette n n : BlockDraw F) = BlockDraw.skipped ∧
      (DrawFractal.block fractal.palette n n : BlockDraw F) = BlockDraw.skipped) ∧
    (Fractal_Draw.pixel sqrtf sinf cosf keyJ fractal x y = BlockDraw.skipped ∧
      Fractal_Draw.drawn Fade (Fractal_Draw.pixel sqrtf sinf cosf keyJ fractal x y) =
        [BLACK]) := by
  have hp : Fractal_Draw.pixel sqrtf sinf cosf keyJ fractal x y = BlockDraw.skipped := by
    unfold Fractal_Draw.pixel
    rw [hcap]
    exact Fractal_Draw_block_at_cap _ _
  refine ⟨⟨by simp [GetFractalColor], by simp [DrawFractal.pixelColor, GetFractalColor, BLACK]⟩,
    ⟨Fractal_Draw_block_at_cap _ _, by simp [DrawFractal.block]⟩, hp, ?_⟩
  rw [hp]
  rfl

/-- The factor `0.8f + fade * 0.2f` of `Fractal_Draw` lies in `[0.8, 1]` for a
count in `0 .. cap - 1`. -/
theorem Fractal_Draw_alpha_range (cap iterations : Int) (h0 : 0 ≤ iterations)
    (hlt : iterations < cap) :
    (0.8 : F) ≤ 0.8 + (1 - (iterations : F) / (cap : F)) * 0.2 ∧
      0.8 + (1 - (iterations : F) / (cap : F)) * 0.2 ≤ (1 : F) := by
  have hc : (0 : F) < (cap : F) := by exact_mod_cast lt_of_le_of_lt h0 hlt
  have hi : (0 : F) ≤ (iterations : F) := by exact_mod_cast h0
  have hq0 : (0 : F) ≤ (iterations : F) / (cap : F) := div_nonneg hi hc.le
  have hq1 : (iterations : F) / (cap : F) ≤ 1 := by
    rw [div_le_one hc]; exact_mod_cast hlt.le
  have e8 : (0.8 : F) = 4 / 5 := by norm_num
  have e2 : (0.2 : F) = 1 / 5 := by norm_num
  rw [e8, e2]
  constructor <;> nlinarith

end ColouringClaims

/-! ## Colouring of fractal pixels: the colour drawn below the cap -/

section FadeClaims

variable {F : Type} [LinearOrderedField F] [FloorRing F]

/-- The conversion of a value between two bytes lies between them. -/
theorem truncToUChar_between (v : F) (lo hi : Nat) (hlo : (lo : F) ≤ v) (hhi : v ≤ (hi : F))
    (h255 : hi ≤ 255) : lo ≤ truncToUChar v ∧ truncToUChar v ≤ hi := by
  have hnn : (0 : F) ≤ v := le_trans (Nat.cast_nonneg _) hlo
  have hfl : ((lo : Nat) : Int) ≤ Int.floor v := by
    rw [Int.le_floor]; exact_mod_cast hlo
  have hfu : Int.floor v ≤ ((hi : Nat) : Int) := by
    have := le_trans (Int.floor_le v) hhi
    exact_mod_cast this
  simp only [truncToUChar, hnn, if_true]
  omega

/-- `Fade` keeps the red, green and blue channels. -/
theorem Fade_rgb (color : Color) (alpha : F) :
    (Fade color alpha).r = color.r ∧ (Fade color alpha).g = color.g ∧
      (Fade color alpha).b = color.b :=
  ⟨rfl, rfl, rfl⟩

/-- The alpha channel of an opaque colour after `Fade` with a factor in
`[0.8, 1]` lies in `204 .. 255`. -/
theorem Fade_alpha_of_opaque (color : Color) (hc : color.a = 255) (alpha : F)
    (h1 : 0.8 ≤ alpha) (h2 : alpha ≤ 1) :
    204 ≤ (Fade color alpha).a ∧ (Fade color alpha).a ≤ 255 := by
  have hn : ¬ alpha < 0 := not_lt.mpr (le_trans (by norm_num) h1)
  have hg : ¬ alpha > 1 := not_lt.mpr h2
  simp only [Fade, hn, hg, if_false, hc]
  apply truncToUChar_between _ 204 255 _ _ (le_refl _)
  · push_cast
    have : (0.8 : F) = 4 / 5 := by norm_num
    rw [this] at h1
    linarith
  · push_cast
    linarith

/-- The alpha channel of an opaque colour after `Fade(color, 0.8f)` is 204. -/
theorem Fade_alpha_four_fifths (color : Color) (hc : color.a = 255) :
    (Fade color (0.8 : F)).a = 204 := by
  have hn : ¬ (0.8 : F) < 0 := by norm_num
  have hg : ¬ (0.8 : F) > 1 := by norm_num
  simp only [Fade, hn, hg, if_false, hc]
  have hv : ((255 : Nat) : F) * 0.8 = ((204 : Nat) : F) := by norm_num
  rw [hv]
  have := truncToUChar_between ((204 : Nat) : F) 204 204 (le_refl _) (le_refl _) (by decide)
  omega

/-- C12, as the code has it. A block whose count is below the cap
(`0 <= iterations < cap`) is drawn with `Fade(palette[iterations % 256], alpha)`,
and the index `iterations % 256` lies in `0 .. 255`, inside the 256-entry
palette.  The factor `alpha` is `0.8f + fade * 0.2f` with
`fade = 1 - iterations / cap` in `Fractal_Draw` and `0.8f` in `DrawFractal` of
`art_generator.c`.  The colour drawn has the red, green and blue channels of the
palette entry; its alpha channel is the entry's alpha scaled by `alpha`: for an
opaque entry (alpha 255, as both palettes are written) it is 204 in
`DrawFractal` and lies in `204 .. 255` in `Fractal_Draw`.  For every pixel of
`Fractal_Draw` the computed count is not negative, so this covers every pixel
whose count is below `fractal.iterations`: over it are drawn the `BLACK`
background and then the faded palette entry. -/
theorem palette_colour_below_cap (palette : List Color) (hlen : palette.length = 256)
    (cap iterations : Int) (h0 : 0 ≤ iterations) (hlt : iterations < cap)
    (sqrtf sinf cosf : F → F) (keyJ : Bool) (fractal : FractalState F) (x y : Int)
    (hpal : fractal.palette.length = 256) (hcap : 0 ≤ fractal.iterations)
    (hbelow : Fractal_Draw.iterationsAt sqrtf sinf cosf keyJ fractal x y < fractal.iterations) :
    (0 ≤ Int.tmod iterations 256 ∧ Int.tmod iterations 256 < 256 ∧
      Int.tmod iterations 256 = iterations % 256 ∧
      ∃ color : Color, palette[(iterations % 256).toNat]? = some color ∧
        (Fractal_Draw.block palette cap iterations : BlockDraw F).drawnColor =
          some (Fade color (0.8 + (1 - (iterations : F) / (cap : F)) * 0.2)) ∧
        (DrawFractal.block palette cap iterations : BlockDraw F).drawnColor =
          some (Fade color (0.8 : F)) ∧
        (∀ alpha : F, (Fade color alpha).r = color.r ∧ (Fade color alpha).g = color.g ∧
          (Fade color alpha).b = color.b) ∧
        (color.a = 255 →
          (Fade color (0.8 : F)).a = 204 ∧
          204 ≤ (Fade color (0.8 + (1 - (iterations : F) / (cap : F)) * 0.2)).a ∧
          (Fade color (0.8 + (1 - (iterations : F) / (cap : F)) * 0.2)).a ≤ 255)) ∧
    (∃ color : Color,
      fractal.palette[(Fractal_Draw.iterationsAt sqrtf sinf cosf keyJ fractal x y % 256).toNat]? =
        some color ∧
      Fractal_Draw.drawn Fade (Fractal_Draw.pixel sqrtf sinf cosf keyJ fractal x y) =
        [BLACK, Fade color
          (0.8 + (1 - (Fractal_Draw.iterationsAt sqrtf sinf cosf keyJ fractal x y : F) /
            (fractal.iterations : F)) * 0.2)]) := by
  constructor
  · obtain ⟨h1, h2, h3, color, hc, hg⟩ := paletteAt_tmod palette hlen iterations h0
    refine ⟨h1, h2, h3, color, hg, ?_, ?_, Fade_rgb color, fun ha => ⟨?_, ?_⟩⟩
    · simp only [Fractal_Draw.block, hlt, if_true, hc, BlockDraw.drawnColor]
    · simp only [DrawFractal.block, hlt, if_true, hc, BlockDraw.drawnColor]
    · exact Fade_alpha_four_fifths color ha
    · exact Fade_alpha_of_opaque color ha _ (Fractal_Draw_alpha_range cap iterations h0 hlt).1
        (Fractal_Draw_alpha_range cap iterations h0 hlt).2
  · have hn := Fractal_Draw_iterationsAt_nonneg sqrtf sinf cosf keyJ fractal x y hcap
    obtain ⟨_, _, _, color, hc, hg⟩ := paletteAt_tmod fractal.palette hpal _ hn
    refine ⟨color, hg, ?_⟩
    simp only [Fractal_Draw.pixel, Fractal_Draw.block, hbelow, if_true, hc, Fractal_Draw.drawn]

end FadeClaims

/-- The pixel `(600, 400)` of the sample state maps to `c = 0` and never escapes. -/
theorem sampleFractal_centre_count :
    Fractal_Draw.iterationsAt Rat.sqrt id id false sampleFractal 600 400 = 100 := by
  have hr : ((600 : Int) : ℚ) - 1200 / 2 = 0 := by norm_num
  have hi : ((400 : Int) : ℚ) - 800 / 2 = 0 := by norm_num
  simp only [Fractal_Draw.iterationsAt, sampleFractal, hr, hi, zero_mul, zero_add,
    Bool.false_eq_true, if_false]
  exact CalculateMandelbrot_loop_origin Rat.sqrt (by decide) 100 _ 0

/-- The pixel `(0, 0)` of the sample state maps to `c = -9/4 - 3/2 i` and escapes
at count 1. -/
theorem sampleFractal_corner_count :
    Fractal_Draw.iterationsAt Rat.sqrt id id false sampleFractal 0 0 = 1 := by
  have hs : (3 : ℚ) / (1 * min 1200 800) = 3 / 800 := by norm_num
  have hr : (((0 : Int) : ℚ) - 1200 / 2) * (3 / 800) + 0 = -9 / 4 := by norm_num
  have hi : (((0 : Int) : ℚ) - 800 / 2) * (3 / 800) + 0 = -3 / 2 := by norm_num
  simp only [Fractal_Draw.iterationsAt, sampleFractal, hs, hr, hi, Bool.false_eq_true,
    if_false]
  show CalculateMandelbrot.loop Rat.sqrt (-9 / 4 : ℚ) (-3 / 2) 100 (98 + 1 + 1) 0 (0, 0) = 1
  have h1 : ¬ (((0 : ℚ), (0 : ℚ)).1 + ((0 : ℚ), (0 : ℚ)).2 > 4) := by norm_num
  have hsq : Rat.sqrt 0 = 0 := by decide
  have b1 : CalculateMandelbrot.body Rat.sqrt (-9 / 4 : ℚ) (-3 / 2) ((0 : ℚ), (0 : ℚ)) =
      (81 / 16, 9 / 4) := by
    simp only [CalculateMandelbrot.body, hsq]; norm_num
  have h2 : ((81 / 16 : ℚ), (9 / 4 : ℚ)).1 + ((81 / 16 : ℚ), (9 / 4 : ℚ)).2 > 4 := by norm_num
  rw [CalculateMandelbrot.loop, if_neg h1, b1, CalculateMandelbrot.loop, if_pos h2]
  rfl

theorem samplePalette_length : samplePalette.length = 256 := by
  simp [samplePalette]

theorem black_at_cap_witness :
    Fractal_Draw.iterationsAt Rat.sqrt id id false sampleFractal 600 400 =
        sampleFractal.iterations ∧
      GetFractalColor 2 (id : ℚ → ℚ) (fun _ => 0) 256 256 = BLACK ∧
      Fractal_Draw.pixel Rat.sqrt id id false sampleFractal 600 400 = BlockDraw.skipped :=
  ⟨sampleFractal_centre_count,
    (black_at_cap 2 (id : ℚ → ℚ) (fun _ => 0) 256 (fun c _ => c) Rat.sqrt id id false
      sampleFractal 600 400 sampleFractal_centre_count).1.1,
    (black_at_cap 2 (id : ℚ → ℚ) (fun _ => 0) 256 (fun c _ => c) Rat.sqrt id id false
      sampleFractal 600 400 sampleFractal_centre_count).2.2.1⟩

/-- The conversion of a value whose integer part is the byte `n`. -/
theorem truncToUChar_of_floor (v : ℚ) (n : Nat) (hn : n ≤ 255) (h1 : (n : ℚ) ≤ v)
    (h2 : v < (n : ℚ) + 1) : truncToUChar v = n := by
  have hnn : (0 : ℚ) ≤ v := le_trans (Nat.cast_nonneg _) h1
  have hf : Int.floor v = (n : Int) := by
    rw [Int.floor_eq_iff]
    exact ⟨by exact_mod_cast h1, by exact_mod_cast h2⟩
  simp only [truncToUChar, hnn, if_true, hf]
  omega

theorem samplePalette_getElem (i : Nat) (hi : i < 256) :
    samplePalette[i]? = some { r := i, g := 255 - i, b := 0, a := 255 } := by
  simp [samplePalette, hi]

/-- The colour drawn over the pixel `(0, 0)` of the sample state, whose count is
1: the palette entry `(1, 254, 0, 255)` faded by `0.8 + (1 - 1/100) * 0.2`. -/
theorem sampleFractal_corner_drawn :
    Fractal_Draw.drawn Fade (Fractal_Draw.pixel Rat.sqrt id id false sampleFractal 0 0) =
      [BLACK, { r := 1, g := 254, b := 0, a := 254 }] := by
  have hp : paletteAt sampleFractal.palette (Int.tmod 1 256) =
      some { r := 1, g := 254, b := 0, a := 255 } := by
    have h1 : Int.tmod 1 256 = 1 := by decide
    rw [h1]
    simp only [paletteAt, sampleFractal]
    exact samplePalette_getElem 1 (by decide)
  have hlt : (1 : Int) < sampleFractal.iterations := by decide
  have hn : ¬ ((0.8 : ℚ) + (1 - ((1 : Int) : ℚ) / ((100 : Int) : ℚ)) * 0.2 < 0) := by norm_num
  have hg : ¬ ((0.8 : ℚ) + (1 - ((1 : Int) : ℚ) / ((100 : Int) : ℚ)) * 0.2 > 1) := by norm_num
  have ht : truncToUChar (((255 : Nat) : ℚ) *
      ((0.8 : ℚ) + (1 - ((1 : Int) : ℚ) / ((100 : Int) : ℚ)) * 0.2)) = 254 :=
    truncToUChar_of_floor _ 254 (by decide) (by norm_num) (by norm_num)
  rw [Fractal_Draw.pixel, sampleFractal_corner_count, Fractal_Draw.block, if_pos hlt, hp]
  simp only [Fractal_Draw.drawn, Fade, sampleFractal, hn, hg, if_false, ht]

/-- The colour drawn by `DrawFractal` of `art_generator.c` over a block whose
count is 44 under the cap 128: the palette entry `(44, 211, 0, 255)` faded by
`0.8`. -/
theorem DrawFractal_block_drawn :
    (DrawFractal.block samplePalette 128 44 : BlockDraw ℚ).drawnColor =
      some { r := 44, g := 211, b := 0, a := 204 } := by
  have hp : paletteAt samplePalette (Int.tmod 44 256) =
      some { r := 44, g := 211, b := 0, a := 255 } := by
    have h1 : Int.tmod 44 256 = 44 := by decide
    rw [h1]
    simp only [paletteAt]
    exact samplePalette_getElem 44 (by decide)
  have hlt : (44 : Int) < 128 := by decide
  have ha := Fade_alpha_four_fifths (F := ℚ) { r := 44, g := 211, b := 0, a := 255 } rfl
  rw [DrawFractal.block, if_pos hlt, hp]
  simp only [BlockDraw.drawnColor, Option.some.injEq]
  have hr := Fade_rgb ({ r := 44, g := 211, b := 0, a := 255 } : Color) (0.8 : ℚ)
  cases hF : Fade ({ r := 44, g := 211, b := 0, a := 255 } : Color) (0.8 : ℚ) with
  | mk r g b a =>
    rw [hF] at ha hr
    simp only at ha hr
    obtain ⟨h1, h2, h3⟩ := hr
    subst h1 h2 h3 ha
    rfl

/-- C12 as stated fails.  In `Fractal_Draw`, the pixel `(0, 0)` of the sample
state has the count 1, below the cap 100, and `palette[1]` is
`(1, 254, 0, 255)`; the colour drawn over the pixel is `(1, 254, 0, 254)`, since
`Fade` scales the alpha by `0.8 + 0.99 * 0.2 = 0.998`.  In `DrawFractal` of
`art_generator.c`, a block with the count 44 under the cap 128 is drawn with
`(44, 211, 0, 204)` while `palette[44]` is `(44, 211, 0, 255)`. -/
theorem drawn_colour_not_palette_entry :
    (Fractal_Draw.iterationsAt Rat.sqrt id id false sampleFractal 0 0 = 1 ∧
      (1 : Int) < sampleFractal.iterations ∧
      sampleFractal.palette[((1 : Int) % 256).toNat]? =
        some { r := 1, g := 254, b := 0, a := 255 } ∧
      Fractal_Draw.drawn Fade (Fractal_Draw.pixel Rat.sqrt id id false sampleFractal 0 0) =
        [BLACK, { r := 1, g := 254, b := 0, a := 254 }] ∧
      ¬ Fractal_Draw.drawn Fade (Fractal_Draw.pixel Rat.sqrt id id false sampleFractal 0 0) =
        [BLACK, { r := 1, g := 254, b := 0, a := 255 }]) ∧
    ((0 : Int) ≤ 44 ∧ (44 : Int) < 128 ∧
      samplePalette[((44 : Int) % 256).toNat]? =
        some { r := 44, g := 211, b := 0, a := 255 } ∧
      (DrawFractal.block samplePalette 128 44 : BlockDraw ℚ).drawnColor =
        some { r := 44, g := 211, b := 0, a := 204 } ∧
      ¬ (DrawFractal.block samplePalette 128 44 : BlockDraw ℚ).drawnColor =
        samplePalette[((44 : Int) % 256).toNat]?) := by
  have e1 : ((1 : Int) % 256).toNat = 1 := by decide
  have e44 : ((44 : Int) % 256).toNat = 44 := by decide
  refine ⟨⟨sampleFractal_corner_count, by decide, ?_, sampleFractal_corner_drawn, ?_⟩,
    by decide, by decide, ?_, DrawFractal_block_drawn, ?_⟩
  · rw [e1]; exact samplePalette_getElem 1 (by decide)
  · rw [sampleFractal_corner_drawn]; decide
  · rw [e44]; exact samplePalette_getElem 44 (by decide)
  · rw [DrawFractal_block_drawn, e44, samplePalette_getElem 44 (by decide)]; decide

theorem palette_colour_below_cap_witness :
    samplePalette.length = 256 ∧ (0 : Int) ≤ 300 ∧ (300 : Int) < 1000 ∧
      sampleFractal.palette.length = 256 ∧ 0 ≤ sampleFractal.iterations ∧
      Fractal_Draw.iterationsAt Rat.sqrt id id false sampleFractal 0 0 <
        sampleFractal.iterations ∧
      (Int.tmod 300 256 = 44 ∧
        ∃ color : Color, samplePalette[((300 : Int) % 256).toNat]? = some color ∧
          (DrawFractal.block samplePalette 1000 300 : BlockDraw ℚ).drawnColor =
            some (Fade color (0.8 : ℚ))) :=
  ⟨samplePalette_length, by decide, by decide, samplePalette_length, by decide,
    by rw [sampleFractal_corner_count]; decide,
    by decide,
    by
      obtain ⟨_, _, _, color, hc, _, hd, _⟩ :=
        (palette_colour_below_cap samplePalette samplePalette_length 1000 300 (by decide)
          (by decide) Rat.sqrt id id false sampleFractal 0 0 samplePalette_length (by decide)
          (by rw [sampleFractal_corner_count]; decide)).1
      exact ⟨color, hc, hd⟩⟩

/-! ## Palette generation -/

/-- Writing `f i` into slot `i` for `i = 0 .. n - 1` replaces the first `n`
entries of a list that has at least `n`. -/
theorem foldl_set_range {α : Type} (f : Nat → α) (n : Nat) :
    ∀ l : List α, n ≤ l.length →
      (List.range n).foldl (fun acc i => acc.set i (f i)) l =
        (List.range n).map f ++ l.drop n := by
  induction n with
  | zero => intro l _; simp
  | succ n ih =>
    intro l hl
    rw [List.range_succ, List.foldl_append, ih l (by omega)]
    have hn : n < l.length := by omega
    have hlen : ((List.range n).map f).length = n := by simp
    simp only [List.foldl_cons, List.foldl_nil, List.map_append, List.map_cons, List.map_nil]
    rw [List.set_append_right _ _ (by rw [hlen]), hlen, Nat.sub_self,
      List.drop_eq_getElem_cons hn, List.set_cons_zero, List.append_assoc]
    rfl

section PaletteClaims

variable {F : Type} [LinearOrderedField F]

/-- On a 256-entry array `GeneratePalette` stores `entry i` in every slot `i`. -/
theorem GeneratePalette_eq_map (fmodf : F → F → F) (toUChar : F → Nat) (palette : List Color)
    (hlen : palette.length = 256) (hueShift : F) :
    GeneratePalette fmodf toUChar palette hueShift =
      (List.range 256).map (GeneratePalette.entry fmodf toUChar hueShift) := by
  unfold GeneratePalette
  rw [foldl_set_range _ 256 palette (by omega)]
  have : palette.drop 256 = [] := List.drop_eq_nil_of_le (by omega)
  rw [this, List.append_nil]

/-- C13. Palette generation is idempotent for a fixed hue shift: for every hue
shift `h` and all prior contents `p` of the 256-entry array,
`GeneratePalette(GeneratePalette(p, h), h) = GeneratePalette(p, h)`, and the
output has 256 entries that depend on `h` alone: two prior contents `p` and `q`
give the same output, whose entry `i` is the colour computed from `i` and `h`. -/
theorem generatePalette_idempotent (fmodf : F → F → F) (toUChar : F → Nat)
    (p q : List Color) (hp : p.length = 256) (hq : q.length = 256) (h : F) :
    GeneratePalette fmodf toUChar (GeneratePalette fmodf toUChar p h) h =
        GeneratePalette fmodf toUChar p h ∧
      GeneratePalette fmodf toUChar p h = GeneratePalette fmodf toUChar q h ∧
      (GeneratePalette fmodf toUChar p h).length = 256 ∧
      ∀ i : Nat, i < 256 →
        (GeneratePalette fmodf toUChar p h)[i]? =
          some (GeneratePalette.entry fmodf toUChar h i) := by
  have hP := GeneratePalette_eq_map fmodf toUChar p hp h
  have hQ := GeneratePalette_eq_map fmodf toUChar q hq h
  have hlen : (GeneratePalette fmodf toUChar p h).length = 256 := by
    rw [hP]; simp
  refine ⟨?_, by rw [hP, hQ], hlen, ?_⟩
  · rw [GeneratePalette_eq_map fmodf toUChar _ hlen h, ← hP]
  · intro i hi
    rw [hP, List.getElem?_map, List.getElem?_range hi]
    rfl

end PaletteClaims

theorem generatePalette_idempotent_witness :
    samplePalette.length = 256 ∧ (List.replicate 256 BLACK).length = 256 ∧
      GeneratePalette sampleFmod sampleToUChar samplePalette (30 : ℚ) =
        GeneratePalette sampleFmod sampleToUChar
          (List.replicate 256 BLACK) 30 :=
  ⟨samplePalette_length, List.length_replicate _ _,
    (generatePalette_idempotent sampleFmod sampleToUChar samplePalette
      (List.replicate 256 BLACK) samplePalette_length (List.length_replicate _ _)
      (30 : ℚ)).2.1⟩

/-! ## The type `float`: rounding -/

/-- A rational within less than `1/2` of an integer rounds to it. -/
theorem roundHalfEven_eq_of_near (x : ℚ) (m : Int) (h : |x - m| < 1 / 2) :
    roundHalfEven x = m := by
  rw [abs_lt] at h
  unfold roundHalfEven
  rcases le_or_lt (m : ℚ) x with hx | hx
  · have hf : Int.floor x = m := by
      rw [Int.floor_eq_iff]
      constructor <;> linarith
    rw [hf, if_pos (by linarith)]
  · have hf : Int.floor x = m - 1 := by
      rw [Int.floor_eq_iff]
      push_cast
      constructor <;> linarith
    rw [hf]
    push_cast
    rw [if_neg (by linarith), if_pos (by linarith)]
    ring

/-- Rounding does not cross an integer from below. -/
theorem roundHalfEven_le (x : ℚ) (n : Int) (h : x ≤ n) : roundHalfEven x ≤ n := by
  have hfl : Int.floor x ≤ n :=
    Int.le_of_lt_add_one (Int.floor_lt.mpr (by push_cast; linarith))
  unfold roundHalfEven
  have key : ¬ (x - Int.floor x < 1 / 2) → Int.floor x + 1 ≤ n := by
    intro hh
    have h1 : (Int.floor x : ℚ) < n := by linarith [Int.floor_le x]
    have : Int.floor x < n := by exact_mod_cast h1
    omega
  split_ifs with h1 h2 h3
  · exact hfl
  · exact key h1
  · exact hfl
  · exact key h1

/-- The binary32 value nearest to `q`, when `q` lies in the binade of `2^e` and
within less than half a spacing of `m * 2^(e-23)`. -/
theorem roundF32_eq_of_near (q : ℚ) (e m : Int) (he : -126 ≤ e) (h1 : 2 ^ e ≤ |q|)
    (h2 : |q| < 2 ^ (e + 1)) (hm : |q / 2 ^ (e - 23) - m| < 1 / 2) :
    roundF32 q = (m : ℚ) * 2 ^ (e - 23) := by
  have hpos : (0 : ℚ) < |q| := lt_of_lt_of_le (by positivity) h1
  have hlog : Int.log 2 |q| = e := by
    have a1 : e ≤ Int.log 2 |q| :=
      (Int.zpow_le_iff_le_log (by decide) hpos).mp (by exact_mod_cast h1)
    have a2 : Int.log 2 |q| < e + 1 :=
      (Int.lt_zpow_iff_log_lt (by decide) hpos).mp (by exact_mod_cast h2)
    omega
  unfold roundF32
  simp only [hlog, max_eq_left he]
  rw [roundHalfEven_eq_of_near _ m hm]

/-- Rounding does not cross 10, which is a binary32 value. -/
theorem roundF32_le_ten (q : ℚ) (h : q ≤ 10) : roundF32 q ≤ 10 := by
  unfold roundF32
  set e : Int := max (Int.log 2 |q|) (-126) with he
  show (roundHalfEven (q / 2 ^ (e - 23)) : ℚ) * 2 ^ (e - 23) ≤ 10
  have hp : (0 : ℚ) < 2 ^ (e - 23) := by positivity
  rcases le_or_lt q 0 with hq | hq
  · have : roundHalfEven (q / 2 ^ (e - 23)) ≤ 0 :=
      roundHalfEven_le _ 0 (by simpa using div_nonpos_of_nonpos_of_nonneg hq hp.le)
    have h0 : ((roundHalfEven (q / 2 ^ (e - 23)) : Int) : ℚ) ≤ 0 := by exact_mod_cast this
    nlinarith
  · have hlog : Int.log 2 |q| < 4 := by
      apply (Int.lt_zpow_iff_log_lt (by decide) (abs_pos.mpr hq.ne')).mp
      rw [abs_of_pos hq]
      norm_num
      linarith
    have he3 : e ≤ 3 := by
      rw [he]; exact max_le (by omega) (by decide)
    obtain ⟨d, hd⟩ : ∃ d : Nat, (d : Int) = 23 - e := ⟨(23 - e).toNat, by omega⟩
    have hpow : (2 : ℚ) ^ (e - 23) = ((2 : ℚ) ^ d)⁻¹ := by
      have : e - 23 = -(d : Int) := by omega
      rw [this, zpow_neg, zpow_natCast]
    have hx : q / 2 ^ (e - 23) ≤ ((10 * 2 ^ d : Int) : ℚ) := by
      rw [hpow, div_inv_eq_mul]
      push_cast
      have : (0 : ℚ) < 2 ^ d := by positivity
      nlinarith
    have hr := roundHalfEven_le _ _ hx
    have hr' : ((roundHalfEven (q / 2 ^ (e - 23)) : Int) : ℚ) ≤ 10 * 2 ^ d := by
      exact_mod_cast hr
    rw [hpow] at hr' ⊢
    have : (0 : ℚ) < 2 ^ d := by positivity
    rw [← div_eq_mul_inv, div_le_iff₀ this]
    exact hr'

/-- Subtracting a `float` that is not negative from one that is at most 10 gives
at most 10. -/
theorem subF32_le_ten (a b : ℚ) (hb : 0 ≤ b) (ha : a ≤ 10) : subF32 a b ≤ 10 :=
  roundF32_le_ten _ (by linarith)

/-- `1 - 2` is exact in `float`. -/
theorem subF32_one_two : subF32 1 2 = -1 := by
  have h := roundF32_eq_of_near (1 - 2) 0 (-8388608) (by decide) (by norm_num) (by norm_num)
    (by norm_num)
  unfold subF32
  rw [h]
  norm_num

/-- `5 - 1` is exact in `float`. -/
theorem subF32_five_one : subF32 5 1 = 4 := by
  have h := roundF32_eq_of_near (5 - 1) 2 8388608 (by decide) (by norm_num) (by norm_num)
    (by norm_num)
  unfold subF32
  rw [h]
  norm_num

/-! ## Particle system: one particle -/

theorem sampleRandom_inRange : RandomInRange sampleRandom := by
  intro g min max h
  simp only [sampleRandom]
  have h0 := Int.emod_nonneg (g : Int) (show max - min + 1 ≠ 0 by omega)
  have h1 := Int.emod_lt_of_pos (g : Int) (show 0 < max - min + 1 by omega)
  omega

theorem lowRandom_inRange : RandomInRange lowRandom := by
  intro g min max h
  simp only [lowRandom]
  omega

section ParticleLemmas

variable {F : Type} [LinearOrderedField F] {G : Type}

theorem UpdateParticleSystem_wrap_inViewport (p : Particle F) :
    InViewport (UpdateParticleSystem.wrap p) := by
  have hW : ((SCREEN_WIDTH : Int) : F) = 1200 := by simp [SCREEN_WIDTH]
  have hH : ((SCREEN_HEIGHT : Int) : F) = 800 := by simp [SCREEN_HEIGHT]
  simp only [InViewport, UpdateParticleSystem.wrap, hW, hH]
  refine ⟨?_, ?_, ?_, ?_⟩
  · split_ifs <;> linarith
  · split_ifs <;> linarith
  · split_ifs <;> linarith
  · split_ifs <;> linarith

theorem UpdateParticleSystem_wrap_lifeTime (p : Particle F) :
    (UpdateParticleSystem.wrap p).lifeTime = p.lifeTime := rfl

theorem UpdateParticleSystem_advance_lifeTime (cosf sinf : F → F) (deltaTime : F)
    (p : Particle F) :
    (UpdateParticleSystem.advance cosf sinf deltaTime p).lifeTime = p.lifeTime := rfl

theorem UpdateParticleSystem_body_lifeTime (GetRandomValue : G → Int → Int → Int × G)
    (DEG2RAD : F) (fsub : F → F → F) (cosf sinf : F → F) (deltaTime : F) (g : G)
    (p : Particle F) :
    (UpdateParticleSystem.body GetRandomValue DEG2RAD fsub cosf sinf deltaTime g p).1.lifeTime =
      (UpdateParticleSystem.expire GetRandomValue DEG2RAD fsub deltaTime g p).1.lifeTime := rfl

/-- The lifetime after the respawn block, when the lifetime has expired. -/
theorem UpdateParticleSystem_expire_of_le (GetRandomValue : G → Int → Int → Int × G)
    (hrand : RandomInRange GetRandomValue) (DEG2RAD : F) (fsub : F → F → F) (deltaTime : F)
    (g : G)
    (p : Particle F) (h : fsub p.lifeTime deltaTime ≤ 0) :
    ∃ L : Int, 3 ≤ L ∧ L ≤ 10 ∧
      (UpdateParticleSystem.expire GetRandomValue DEG2RAD fsub deltaTime g p).1.lifeTime =
        (L : F) := by
  simp only [UpdateParticleSystem.expire, h, if_true, UpdateParticleSystem.respawn]
  exact ⟨_, (hrand _ 3 10 (by decide)).1, (hrand _ 3 10 (by decide)).2, rfl⟩

/-- The particle after the respawn block, when the lifetime has not expired. -/
theorem UpdateParticleSystem_expire_of_pos (GetRandomValue : G → Int → Int → Int × G)
    (DEG2RAD : F) (fsub : F → F → F) (deltaTime : F) (g : G) (p : Particle F)
    (h : 0 < fsub p.lifeTime deltaTime) :
    UpdateParticleSystem.expire GetRandomValue DEG2RAD fsub deltaTime g p =
      ({ p with lifeTime := fsub p.lifeTime deltaTime }, g) := by
  simp only [UpdateParticleSystem.expire, not_le.mpr h, if_false]

/-- The lifetime of one particle after the loop body. -/
theorem UpdateParticleSystem_body_lifeTime_spec (GetRandomValue : G → Int → Int → Int × G)
    (hrand : RandomInRange GetRandomValue) (DEG2RAD : F) (fsub : F → F → F) (cosf sinf : F → F)
    (deltaTime : F) (g : G) (p : Particle F) :
    0 < (UpdateParticleSystem.body GetRandomValue DEG2RAD fsub cosf sinf deltaTime g p).1.lifeTime ∧
    (fsub p.lifeTime deltaTime ≤ 0 → ∃ L : Int, 3 ≤ L ∧ L ≤ 10 ∧
      (UpdateParticleSystem.body GetRandomValue DEG2RAD fsub cosf sinf deltaTime g p).1.lifeTime =
        (L : F)) ∧
    (0 < fsub p.lifeTime deltaTime →
      (UpdateParticleSystem.body GetRandomValue DEG2RAD fsub cosf sinf deltaTime g p).1.lifeTime =
        fsub p.lifeTime deltaTime) := by
  rw [UpdateParticleSystem_body_lifeTime]
  have hle : fsub p.lifeTime deltaTime ≤ 0 → ∃ L : Int, 3 ≤ L ∧ L ≤ 10 ∧
      (UpdateParticleSystem.expire GetRandomValue DEG2RAD fsub deltaTime g p).1.lifeTime = (L : F) :=
    UpdateParticleSystem_expire_of_le GetRandomValue hrand DEG2RAD fsub deltaTime g p
  have hpos : 0 < fsub p.lifeTime deltaTime →
      (UpdateParticleSystem.expire GetRandomValue DEG2RAD fsub deltaTime g p).1.lifeTime =
        fsub p.lifeTime deltaTime := by
    intro h
    rw [UpdateParticleSystem_expire_of_pos GetRandomValue DEG2RAD fsub deltaTime g p h]
  refine ⟨?_, hle, hpos⟩
  by_cases h : fsub p.lifeTime deltaTime ≤ 0
  · obtain ⟨L, h3, _, hL⟩ := hle h
    rw [hL]
    have : (0 : Int) < L := by omega
    exact_mod_cast this
  · rw [hpos (not_le.mp h)]
    exact not_le.mp h

theorem UpdateParticleSystem_body_inViewport (GetRandomValue : G → Int → Int → Int × G)
    (DEG2RAD : F) (fsub : F → F → F) (cosf sinf : F → F) (deltaTime : F) (g : G)
    (p : Particle F) :
    InViewport (UpdateParticleSystem.body GetRandomValue DEG2RAD fsub cosf sinf deltaTime g p).1 :=
  UpdateParticleSystem_wrap_inViewport _

/-- Each particle below `trips` is replaced by the loop body applied to it, at
some state of the generator. -/
theorem UpdateParticleSystem_loop_getElem (GetRandomValue : G → Int → Int → Int × G)
    (DEG2RAD : F) (fsub : F → F → F) (cosf sinf : F → F) (deltaTime : F) (trips : Nat) :
    ∀ (g : G) (particles : List (Particle F)) (i : Nat) (p : Particle F),
      particles[i]? = some p → i < trips →
      ∃ g' : G,
        (UpdateParticleSystem.loop GetRandomValue DEG2RAD fsub cosf sinf deltaTime trips g
          particles).1[i]? =
          some
            (UpdateParticleSystem.body GetRandomValue DEG2RAD fsub cosf sinf deltaTime g' p).1 := by
  induction trips with
  | zero => intro g particles i p _ hi; omega
  | succ n ih =>
    intro g particles i p hp hi
    cases particles with
    | nil => simp at hp
    | cons a rest =>
      cases i with
      | zero =>
        simp only [List.getElem?_cons_zero, Option.some.injEq] at hp
        subst hp
        exact ⟨g, by simp [UpdateParticleSystem.loop]⟩
      | succ i =>
        simp only [List.getElem?_cons_succ] at hp
        obtain ⟨g', hg'⟩ := ih
          (UpdateParticleSystem.body GetRandomValue DEG2RAD fsub cosf sinf deltaTime g a).2 rest i p
          hp (by omega)
        exact ⟨g', by simpa [UpdateParticleSystem.loop] using hg'⟩

theorem UpdateParticleSystem_loop_length (GetRandomValue : G → Int → Int → Int × G)
    (DEG2RAD : F) (fsub : F → F → F) (cosf sinf : F → F) (deltaTime : F) (trips : Nat) :
    ∀ (g : G) (particles : List (Particle F)),
      (UpdateParticleSystem.loop GetRandomValue DEG2RAD fsub cosf sinf deltaTime trips g
        particles).1.length = particles.length := by
  induction trips with
  | zero => intro g particles; rfl
  | succ n ih =>
    intro g particles
    cases particles with
    | nil => rfl
    | cons a rest => simp [UpdateParticleSystem.loop, ih]

end ParticleLemmas

/-! ## Particle system: the claims about one update step -/

section ParticleClaims

variable {F : Type} [LinearOrderedField F] {G : Type}

/-- C14. After one `UpdateParticleSystem` step every particle below `count` has
`lifeTime > 0`, whatever its prior lifetime and whatever `deltaTime`: when
`lifeTime - deltaTime <= 0` it was respawned with a lifetime that
`GetRandomValue(3, 10)` drew, an integer in `3 .. 10` (for every random source
whose draws lie in `min .. max`), and otherwise its lifetime is
`lifeTime - deltaTime`, which is positive.  The difference is the one the
subtraction of `float` gives, `fsub`, whatever its rounding. -/
theorem lifetime_positive_after_update (GetRandomValue : G → Int → Int → Int × G)
    (hrand : RandomInRange GetRandomValue) (DEG2RAD : F) (fsub : F → F → F) (cosf sinf : F → F)
    (particles : List (Particle F)) (count : Int) (deltaTime : F) (g : G)
    (i : Nat) (hi : i < particles.length) (hcount : (i : Int) < count) :
    ∃ q : Particle F,
      (UpdateParticleSystem GetRandomValue DEG2RAD fsub cosf sinf particles count deltaTime
        g).1[i]? = some q ∧
      0 < q.lifeTime ∧
      (fsub (particles.get ⟨i, hi⟩).lifeTime deltaTime ≤ 0 →
        ∃ L : Int, 3 ≤ L ∧ L ≤ 10 ∧ q.lifeTime = (L : F)) ∧
      (0 < fsub (particles.get ⟨i, hi⟩).lifeTime deltaTime →
        q.lifeTime = fsub (particles.get ⟨i, hi⟩).lifeTime deltaTime) := by
  have hp : particles[i]? = some (particles.get ⟨i, hi⟩) := by
    simp [List.getElem?_eq_getElem hi]
  obtain ⟨g', hg'⟩ := UpdateParticleSystem_loop_getElem GetRandomValue DEG2RAD fsub cosf sinf
    deltaTime count.toNat g particles i _ hp (by omega)
  exact ⟨_, hg',
    UpdateParticleSystem_body_lifeTime_spec GetRandomValue hrand DEG2RAD fsub cosf sinf deltaTime
      g' _⟩

/-- C15. After one `UpdateParticleSystem` step every particle below `count` has
its stored position in `[0, SCREEN_WIDTH] x [0, SCREEN_HEIGHT]`
(`0 <= x <= 1200`, `0 <= y <= 800`), whatever its prior position, heading and
speed, whatever `deltaTime`, and whether or not it was respawned. -/
theorem position_in_viewport_after_update (GetRandomValue : G → Int → Int → Int × G)
    (DEG2RAD : F) (fsub : F → F → F) (cosf sinf : F → F) (particles : List (Particle F))
    (count : Int)
    (deltaTime : F) (g : G) (i : Nat) (hi : i < particles.length)
    (hcount : (i : Int) < count) :
    ∃ q : Particle F,
      (UpdateParticleSystem GetRandomValue DEG2RAD fsub cosf sinf particles count deltaTime
        g).1[i]? = some q ∧
      0 ≤ q.position.x ∧ q.position.x ≤ ((SCREEN_WIDTH : Int) : F) ∧
      0 ≤ q.position.y ∧ q.position.y ≤ ((SCREEN_HEIGHT : Int) : F) ∧
      ((SCREEN_WIDTH : Int) : F) = 1200 ∧ ((SCREEN_HEIGHT : Int) : F) = 800 := by
  have hp : particles[i]? = some (particles.get ⟨i, hi⟩) := by
    simp [List.getElem?_eq_getElem hi]
  obtain ⟨g', hg'⟩ := UpdateParticleSystem_loop_getElem GetRandomValue DEG2RAD fsub cosf sinf
    deltaTime count.toNat g particles i _ hp (by omega)
  have hW : ((SCREEN_WIDTH : Int) : F) = 1200 := by simp [SCREEN_WIDTH]
  have hH : ((SCREEN_HEIGHT : Int) : F) = 800 := by simp [SCREEN_HEIGHT]
  have hv := UpdateParticleSystem_body_inViewport GetRandomValue DEG2RAD fsub cosf sinf deltaTime
    g' (particles.get ⟨i, hi⟩)
  rw [hW, hH]
  exact ⟨_, hg', hv.1, hv.2.1, hv.2.2.1, hv.2.2.2, rfl, rfl⟩

end ParticleClaims

theorem lifetime_positive_after_update_witness :
    RandomInRange sampleRandom ∧ 1 < [edgeParticle, expiringParticle].length ∧
      ((1 : Nat) : Int) < 2 ∧
      ∃ q : Particle ℚ,
        (UpdateParticleSystem sampleRandom sampleDegToRad subF32 sampleCos sampleSin
          [edgeParticle, expiringParticle] 2 2 0).1[1]? = some q ∧ 0 < q.lifeTime :=
  ⟨sampleRandom_inRange, by decide, by decide,
    by
      obtain ⟨q, hq, hpos, _⟩ :=
        lifetime_positive_after_update sampleRandom sampleRandom_inRange sampleDegToRad
          subF32 sampleCos sampleSin [edgeParticle, expiringParticle] 2 2 0 1 (by decide) (by decide)
      exact ⟨q, hq, hpos⟩⟩

theorem position_in_viewport_after_update_witness :
    0 < [edgeParticle, expiringParticle].length ∧ ((0 : Nat) : Int) < 2 ∧
      ∃ q : Particle ℚ,
        (UpdateParticleSystem sampleRandom sampleDegToRad subF32 sampleCos sampleSin
          [edgeParticle, expiringParticle] 2 2 0).1[0]? = some q ∧
        0 ≤ q.position.x ∧ q.position.x ≤ 1200 :=
  ⟨by decide, by decide,
    by
      obtain ⟨q, hq, h0, h1, _, _, hW, _⟩ :=
        position_in_viewport_after_update sampleRandom sampleDegToRad subF32 sampleCos sampleSin
          [edgeParticle, expiringParticle] 2 2 0 0 (by decide) (by decide)
      exact ⟨q, hq, h0, by rw [← hW]; exact h1⟩⟩

/-! ## Particle system: respawn, advance and wrap -/

section ParticleMotion

variable {F : Type} [LinearOrderedField F] {G : Type}

/-- C17, as the code has it. In one `UpdateParticleSystem` step the motion follows
the respawn block for every particle.  A particle whose lifetime expires in the
step (`lifeTime - deltaTime <= 0`) is respawned and then advanced in the same
step: before the wrap its position is the freshly drawn position plus `speed`
along the freshly drawn heading, and its stored heading is the fresh heading
plus `deltaTime * 0.5`.  A particle whose lifetime stays `> 0` is advanced in
the same way from its prior position and heading.  The difference
`lifeTime - deltaTime` is the one the subtraction of `float` gives, `fsub`. -/
theorem respawn_then_advance (GetRandomValue : G → Int → Int → Int × G) (DEG2RAD : F)
    (fsub : F → F → F) (cosf sinf : F → F) (deltaTime : F) (g : G) (p : Particle F) :
    (fsub p.lifeTime deltaTime ≤ 0 →
      UpdateParticleSystem.body GetRandomValue DEG2RAD fsub cosf sinf deltaTime g p =
        (UpdateParticleSystem.wrap (UpdateParticleSystem.advance cosf sinf deltaTime
          (UpdateParticleSystem.respawn GetRandomValue DEG2RAD g
            { p with lifeTime := fsub p.lifeTime deltaTime }).1),
         (UpdateParticleSystem.respawn GetRandomValue DEG2RAD g
            { p with lifeTime := fsub p.lifeTime deltaTime }).2)) ∧
    (0 < fsub p.lifeTime deltaTime →
      UpdateParticleSystem.body GetRandomValue DEG2RAD fsub cosf sinf deltaTime g p =
        (UpdateParticleSystem.wrap (UpdateParticleSystem.advance cosf sinf deltaTime
          { p with lifeTime := fsub p.lifeTime deltaTime }), g)) ∧
    (∀ q : Particle F,
      (UpdateParticleSystem.advance cosf sinf deltaTime q).position.x =
          q.position.x + cosf q.angle * q.speed ∧
        (UpdateParticleSystem.advance cosf sinf deltaTime q).position.y =
          q.position.y + sinf q.angle * q.speed ∧
        (UpdateParticleSystem.wrap (UpdateParticleSystem.advance cosf sinf deltaTime q)).angle =
          q.angle + deltaTime * 0.5) := by
  refine ⟨fun h => ?_, fun h => ?_, fun q => ⟨rfl, rfl, rfl⟩⟩
  · simp only [UpdateParticleSystem.body, UpdateParticleSystem.expire, h, if_true]
  · simp only [UpdateParticleSystem.body, UpdateParticleSystem.expire, not_le.mpr h, if_false]

/-- C18, as the code has it. `UpdateParticleSystem` stores an edge value for a
position that left the viewport: with `x'` the x coordinate after the advance,
the stored x is `SCREEN_WIDTH` when `x' < 0`, it is `0` when `x' > SCREEN_WIDTH`,
and it is `x'` otherwise; likewise the stored y is `SCREEN_HEIGHT`, `0` or `y'`. -/
theorem wrap_to_opposite_edge (p : Particle F) :
    ((UpdateParticleSystem.wrap p).position.x =
        if p.position.x < 0 then 1200 else if p.position.x > 1200 then 0 else p.position.x) ∧
      ((UpdateParticleSystem.wrap p).position.y =
        if p.position.y < 0 then 800 else if p.position.y > 800 then 0 else p.position.y) ∧
      ((SCREEN_WIDTH : Int) : F) = 1200 ∧ ((SCREEN_HEIGHT : Int) : F) = 800 := by
  have hW : ((SCREEN_WIDTH : Int) : F) = 1200 := by simp [SCREEN_WIDTH]
  have hH : ((SCREEN_HEIGHT : Int) : F) = 800 := by simp [SCREEN_HEIGHT]
  simp only [UpdateParticleSystem.wrap, hW, hH]
  refine ⟨?_, ?_, trivial, trivial⟩
  · split_ifs <;> first | rfl | linarith
  · split_ifs <;> first | rfl | linarith

end ParticleMotion

theorem respawn_then_advance_witness :
    subF32 expiringParticle.lifeTime 2 ≤ 0 ∧
      UpdateParticleSystem.body lowRandom sampleDegToRad subF32 sampleCos sampleSin 2 0
          expiringParticle =
        (UpdateParticleSystem.wrap (UpdateParticleSystem.advance sampleCos sampleSin 2
          (UpdateParticleSystem.respawn lowRandom sampleDegToRad 0
            { expiringParticle with lifeTime := subF32 expiringParticle.lifeTime 2 }).1),
         (UpdateParticleSystem.respawn lowRandom sampleDegToRad 0
            { expiringParticle with lifeTime := subF32 expiringParticle.lifeTime 2 }).2) :=
  ⟨by norm_num [expiringParticle, subF32_one_two],
    (respawn_then_advance lowRandom sampleDegToRad subF32 sampleCos sampleSin 2 0
      expiringParticle).1 (by norm_num [expiringParticle, subF32_one_two])⟩

/-- The respawn of `expiringParticle` with the source that draws `min`: the fresh
position is `(0, 0)` and the fresh heading is 0. -/
theorem expiringParticle_respawn :
    (UpdateParticleSystem.respawn lowRandom sampleDegToRad 0
        { expiringParticle with
          lifeTime := subF32 expiringParticle.lifeTime 2 }).1.position.x = 0 ∧
      (UpdateParticleSystem.respawn lowRandom sampleDegToRad 0
        { expiringParticle with lifeTime := subF32 expiringParticle.lifeTime 2 }).1.angle = 0 := by
  simp [UpdateParticleSystem.respawn, lowRandom]

/-- The step of `expiringParticle` with `deltaTime = 2`: the stored position is
`(1/4, 0)` and the stored heading is 1. -/
theorem expiringParticle_step :
    (UpdateParticleSystem.body lowRandom sampleDegToRad subF32 sampleCos sampleSin 2 0
        expiringParticle).1.position.x = 1 / 4 ∧
      (UpdateParticleSystem.body lowRandom sampleDegToRad subF32 sampleCos sampleSin 2 0
        expiringParticle).1.angle = 1 := by
  have h : subF32 1 2 ≤ 0 := by rw [subF32_one_two]; norm_num
  simp only [UpdateParticleSystem.body, UpdateParticleSystem.expire, expiringParticle, h,
    if_true, UpdateParticleSystem.respawn, lowRandom, UpdateParticleSystem.advance,
    UpdateParticleSystem.wrap, sampleCos, sampleSin, SCREEN_WIDTH, SCREEN_HEIGHT]
  norm_num

/-- C17 as stated fails: `expiringParticle` expires in a step with
`deltaTime = 2` and is respawned at `x = 0` with heading 0 (where `cosf` is 1),
yet its stored x is `1/4`, not the respawn x, and its stored heading is 1, not
the fresh heading. -/
theorem respawned_particle_is_advanced :
    subF32 expiringParticle.lifeTime 2 ≤ 0 ∧
      ¬ ((UpdateParticleSystem.body lowRandom sampleDegToRad subF32 sampleCos sampleSin 2 0
            expiringParticle).1.position.x =
          (UpdateParticleSystem.respawn lowRandom sampleDegToRad 0
            { expiringParticle with
              lifeTime := subF32 expiringParticle.lifeTime 2 }).1.position.x) ∧
      ¬ ((UpdateParticleSystem.body lowRandom sampleDegToRad subF32 sampleCos sampleSin 2 0
            expiringParticle).1.angle =
          (UpdateParticleSystem.respawn lowRandom sampleDegToRad 0
            { expiringParticle with lifeTime := subF32 expiringParticle.lifeTime 2 }).1.angle) := by
  rw [expiringParticle_step.1, expiringParticle_step.2, expiringParticle_respawn.1,
    expiringParticle_respawn.2]
  refine ⟨by norm_num [expiringParticle, subF32_one_two], by norm_num, by norm_num⟩

/-- The step of `edgeParticle` with `deltaTime = 1`: the advance takes x from 1200
to `1200 + 1/2` and the stored x is 0. -/
theorem edgeParticle_step :
    (UpdateParticleSystem.advance sampleCos sampleSin 1
        (UpdateParticleSystem.expire lowRandom sampleDegToRad subF32 1 0
          edgeParticle).1).position.x =
        2401 / 2 ∧
      (UpdateParticleSystem.body lowRandom sampleDegToRad subF32 sampleCos sampleSin 1 0
        edgeParticle).1.position.x = 0 := by
  have h : ¬ (subF32 5 1 ≤ 0) := by rw [subF32_five_one]; norm_num
  simp only [UpdateParticleSystem.body, UpdateParticleSystem.expire, edgeParticle, h,
    if_false, UpdateParticleSystem.advance, UpdateParticleSystem.wrap, sampleCos,
    sampleSin, SCREEN_WIDTH, SCREEN_HEIGHT]
  norm_num

/-- C18 as stated fails: `edgeParticle` overshoots the right edge by `1/2`
(`x' = 1200 + 1/2`) and is stored at `x = 0`, which is not congruent to `x'`
modulo 1200 (the toroidal position would be `1/2`). -/
theorem wrap_not_congruent :
    (UpdateParticleSystem.advance sampleCos sampleSin 1
        (UpdateParticleSystem.expire lowRandom sampleDegToRad subF32 1 0
          edgeParticle).1).position.x =
        1200 + 1 / 2 ∧
      ¬ ∃ k : Int,
        (UpdateParticleSystem.body lowRandom sampleDegToRad subF32 sampleCos sampleSin 1 0
            edgeParticle).1.position.x -
          (UpdateParticleSystem.advance sampleCos sampleSin 1
            (UpdateParticleSystem.expire lowRandom sampleDegToRad subF32 1 0
              edgeParticle).1).position.x = (k : ℚ) * ((SCREEN_WIDTH : Int) : ℚ) := by
  rw [edgeParticle_step.1, edgeParticle_step.2]
  refine ⟨by norm_num, ?_⟩
  rintro ⟨k, hk⟩
  have h2 : ((k * 2400 : Int) : ℚ) = ((-2401 : Int) : ℚ) := by
    simp only [SCREEN_WIDTH] at hk
    push_cast at hk ⊢
    linarith
  have h3 : k * 2400 = -2401 := by exact_mod_cast h2
  omega

/-! ## Particle system: initialisation followed by update steps -/

section ParticleRunLemmas

variable {F : Type} [LinearOrderedField F] {G : Type}

/-- A particle drawn by `InitParticleSystem` lies in the viewport and has a
lifetime that is an integer in `3 .. 10`. -/
theorem InitParticleSystem_body_spec (GetRandomValue : G → Int → Int → Int × G)
    (hrand : RandomInRange GetRandomValue) (DEG2RAD : F) (g : G) :
    InViewport (InitParticleSystem.body GetRandomValue DEG2RAD g).1 ∧
      ∃ L : Int, 3 ≤ L ∧ L ≤ 10 ∧
        (InitParticleSystem.body GetRandomValue DEG2RAD g).1.lifeTime = (L : F) := by
  constructor
  · simp only [InViewport, InitParticleSystem.body]
    have hx := hrand g 0 SCREEN_WIDTH (by decide)
    have hy := hrand (GetRandomValue g 0 SCREEN_WIDTH).2 0 SCREEN_HEIGHT (by decide)
    simp only [SCREEN_WIDTH, SCREEN_HEIGHT] at hx hy ⊢
    refine ⟨?_, ?_, ?_, ?_⟩
    · exact_mod_cast hx.1
    · exact_mod_cast hx.2
    · exact_mod_cast hy.1
    · exact_mod_cast hy.2
  · simp only [InitParticleSystem.body]
    exact ⟨_, (hrand _ 3 10 (by decide)).1, (hrand _ 3 10 (by decide)).2, rfl⟩

/-- Each particle below `trips` is replaced by a freshly drawn one. -/
theorem InitParticleSystem_loop_getElem (GetRandomValue : G → Int → Int → Int × G)
    (DEG2RAD : F) (trips : Nat) :
    ∀ (g : G) (particles : List (Particle F)) (i : Nat),
      i < particles.length → i < trips →
      ∃ g' : G,
        (InitParticleSystem.loop GetRandomValue DEG2RAD trips g particles).1[i]? =
          some (InitParticleSystem.body GetRandomValue DEG2RAD g').1 := by
  induction trips with
  | zero => intro g particles i _ hi; omega
  | succ n ih =>
    intro g particles i hlen hi
    cases particles with
    | nil => simp at hlen
    | cons a rest =>
      cases i with
      | zero => exact ⟨g, by simp [InitParticleSystem.loop]⟩
      | succ i =>
        simp only [List.length_cons, Nat.succ_lt_succ_iff] at hlen
        obtain ⟨g', hg'⟩ := ih (InitParticleSystem.body GetRandomValue DEG2RAD g).2 rest i
          hlen (by omega)
        exact ⟨g', by simpa [InitParticleSystem.loop] using hg'⟩

theorem lifeTimeAt_of_getElem (particles : List (Particle F)) (i : Nat) (q : Particle F)
    (h : particles[i]? = some q) : lifeTimeAt particles i = q.lifeTime := by
  simp [lifeTimeAt, h]

end ParticleRunLemmas

section ParticleRunClaims

variable {F : Type} [LinearOrderedField F] {G : Type}

/-- The lifetime of a particle below `count` after one more update step: the
`float` difference of its lifetime and `deltaTime` when that is positive. -/
theorem lifeTimeAfter_succ_of_pos (GetRandomValue : G → Int → Int → Int × G)
    (hrand : RandomInRange GetRandomValue) (DEG2RAD : F) (fsub : F → F → F)
    (cosf sinf : F → F) (particles : List (Particle F)) (count : Int) (deltaTime : F) (g : G)
    (n i : Nat) (q : Particle F)
    (hq : (particlesAfter GetRandomValue DEG2RAD fsub cosf sinf particles count deltaTime g
      n).1[i]? = some q)
    (hcount : (i : Int) < count) (hpos : 0 < fsub q.lifeTime deltaTime) :
    ∃ q' : Particle F,
      (particlesAfter GetRandomValue DEG2RAD fsub cosf sinf particles count deltaTime g
        (n + 1)).1[i]? = some q' ∧
      q'.lifeTime = fsub q.lifeTime deltaTime := by
  obtain ⟨g', hg'⟩ := UpdateParticleSystem_loop_getElem GetRandomValue DEG2RAD fsub cosf sinf
    deltaTime count.toNat
    (particlesAfter GetRandomValue DEG2RAD fsub cosf sinf particles count deltaTime g n).2
    (particlesAfter GetRandomValue DEG2RAD fsub cosf sinf particles count deltaTime g n).1
    i q hq (by omega)
  exact ⟨_, hg',
    (UpdateParticleSystem_body_lifeTime_spec GetRandomValue hrand DEG2RAD fsub cosf sinf
      deltaTime g' q).2.2 hpos⟩

/-- The invariant of the run, by induction on the number of update steps. -/
theorem particlesAfter_spawnedSince (GetRandomValue : G → Int → Int → Int × G)
    (hrand : RandomInRange GetRandomValue) (DEG2RAD : F) (fsub : F → F → F)
    (hsub : ∀ a b : F, 0 ≤ b → a ≤ 10 → fsub a b ≤ 10) (cosf sinf : F → F)
    (particles : List (Particle F)) (count : Int) (deltaTime : F) (hdt : 0 ≤ deltaTime)
    (g : G) (i : Nat) (hi : i < particles.length) (hcount : (i : Int) < count) (n : Nat) :
    ∃ q : Particle F,
      (particlesAfter GetRandomValue DEG2RAD fsub cosf sinf particles count deltaTime g
        n).1[i]? = some q ∧
      SpawnedSince GetRandomValue DEG2RAD fsub cosf sinf particles count deltaTime g n i q := by
  induction n with
  | zero =>
    obtain ⟨g', hg'⟩ := InitParticleSystem_loop_getElem GetRandomValue DEG2RAD count.toNat g
      particles i hi (by omega)
    obtain ⟨hv, L, h3, h10, hL⟩ := InitParticleSystem_body_spec GetRandomValue hrand DEG2RAD g'
    have hq : (particlesAfter GetRandomValue DEG2RAD fsub cosf sinf particles count deltaTime g
        0).1[i]? = some (InitParticleSystem.body GetRandomValue DEG2RAD g').1 := hg'
    refine ⟨_, hq, hv, 0, 0, L, rfl, h3, h10, Or.inl rfl, ?_, ?_, ?_, ?_, ?_, ?_⟩
    · unfold lifeTimeAfter
      rw [lifeTimeAt_of_getElem _ _ _ hq, hL]
    · intro j _ hj; omega
    · rw [hL]; rfl
    · intro _; rw [hL]; simp
    · rw [hL]
      have : (0 : Int) < L := by omega
      exact_mod_cast this
    · rw [hL]; exact_mod_cast h10
  | succ n ih =>
    obtain ⟨q, hq, _, m, k, L, hmk, h3, h10, hspawn, hLm, hsince, hlife, hexact, hpos, hle⟩ :=
      ih
    obtain ⟨g', hg'⟩ := UpdateParticleSystem_loop_getElem GetRandomValue DEG2RAD fsub cosf sinf
      deltaTime count.toNat
      (particlesAfter GetRandomValue DEG2RAD fsub cosf sinf particles count deltaTime g n).2
      (particlesAfter GetRandomValue DEG2RAD fsub cosf sinf particles count deltaTime g n).1
      i q hq (by omega)
    have hq' : (particlesAfter GetRandomValue DEG2RAD fsub cosf sinf particles count deltaTime g
        (n + 1)).1[i]? =
        some (UpdateParticleSystem.body GetRandomValue DEG2RAD fsub cosf sinf deltaTime g'
          q).1 := hg'
    have hn : lifeTimeAfter GetRandomValue DEG2RAD fsub cosf sinf particles count deltaTime g
        n i = q.lifeTime := lifeTimeAt_of_getElem _ _ _ hq
    have hn1 : lifeTimeAfter GetRandomValue DEG2RAD fsub cosf sinf particles count deltaTime g
        (n + 1) i =
        (UpdateParticleSystem.body GetRandomValue DEG2RAD fsub cosf sinf deltaTime g'
          q).1.lifeTime := lifeTimeAt_of_getElem _ _ _ hq'
    obtain ⟨hpos', hexp, hkeep⟩ := UpdateParticleSystem_body_lifeTime_spec GetRandomValue hrand
      DEG2RAD fsub cosf sinf deltaTime g' q
    refine ⟨_, hq', UpdateParticleSystem_body_inViewport _ _ _ _ _ _ _ _, ?_⟩
    by_cases hx : fsub q.lifeTime deltaTime ≤ 0
    · obtain ⟨L', h3', h10', hL'⟩ := hexp hx
      refine ⟨n + 1, 0, L', rfl, h3', h10', Or.inr ⟨by omega, ?_⟩, ?_, ?_, ?_, ?_, hpos', ?_⟩
      · rw [Nat.add_sub_cancel, hn]; exact hx
      · rw [hn1, hL']
      · intro j h1 h2; omega
      · rw [hL']; rfl
      · intro _; rw [hL']; simp
      · rw [hL']; exact_mod_cast h10'
    · have hx' : 0 < fsub q.lifeTime deltaTime := not_le.mp hx
      have hnew := hkeep hx'
      refine ⟨m, k + 1, L, by omega, h3, h10, hspawn, hLm, ?_, ?_, ?_, hpos', ?_⟩
      · intro j h1 h2
        by_cases hj : j < n
        · exact hsince j h1 hj
        · have : j = n := by omega
          rw [this, hn]; exact hx'
      · rw [hnew, Function.iterate_succ_apply', ← hlife]
      · intro hex
        have hk := hexact (fun j hj => hex j (by omega))
        have hlast := hex k (by omega)
        rw [hnew, hlife, hlast, ← hlife, hk]
        push_cast
        ring
      · rw [hnew]; exact hsub _ _ hdt hle

/-- C16, as the code has it. End to end, for every random source whose draws lie
in `min .. max`: after `InitParticleSystem` on 500 particles and then any number
`n` of `UpdateParticleSystem` steps with a fixed `deltaTime >= 0`, every particle
lies in `[0, 1200] x [0, 800]`, and its lifetime is what the `k` subtractions
`lifeTime -= deltaTime` of the type `float` leave of the value `L` in `3 .. 10`
drawn at its last (re)spawn, `k` being the number of update steps since then:
`(fun t => fsub t deltaTime)^[k] L`, a value in `(0, 10]`, which is
`L - k * deltaTime` if these `k` subtractions are exact.  Of the subtraction it
is used that taking a value that is not negative from one that is at most 10
leaves at most 10. -/
theorem particle_run_end_to_end (GetRandomValue : G → Int → Int → Int × G)
    (hrand : RandomInRange GetRandomValue) (DEG2RAD : F) (fsub : F → F → F)
    (hsub : ∀ a b : F, 0 ≤ b → a ≤ 10 → fsub a b ≤ 10) (cosf sinf : F → F)
    (particles : List (Particle F)) (hlen : particles.length = 500) (deltaTime : F)
    (hdt : 0 ≤ deltaTime) (g : G) (n i : Nat) (hi : i < 500) :
    ∃ q : Particle F,
      (particlesAfter GetRandomValue DEG2RAD fsub cosf sinf particles MAX_PARTICLES deltaTime g
        n).1[i]? = some q ∧
      SpawnedSince GetRandomValue DEG2RAD fsub cosf sinf particles MAX_PARTICLES deltaTime g n
        i q ∧
      (0 ≤ q.position.x ∧ q.position.x ≤ 1200 ∧ 0 ≤ q.position.y ∧ q.position.y ≤ 800) ∧
      0 < q.lifeTime ∧ q.lifeTime ≤ 10 := by
  obtain ⟨q, hq, hs⟩ := particlesAfter_spawnedSince GetRandomValue hrand DEG2RAD fsub hsub
    cosf sinf particles MAX_PARTICLES deltaTime hdt g i (by omega)
    (by unfold MAX_PARTICLES; exact_mod_cast hi) n
  obtain ⟨hv, m, k, L, _, _, _, _, _, _, _, _, hpos, hle⟩ := id hs
  exact ⟨q, hq, hs, hv, hpos, hle⟩

end ParticleRunClaims

theorem highRandom_inRange : RandomInRange highRandom := by
  intro g min max h
  simp only [highRandom]
  omega

theorem frameTime60_nonneg : (0 : ℚ) ≤ frameTime60 := by
  norm_num [frameTime60]

/-- The `float` nearest to `1/60` is `frameTime60`. -/
theorem roundF32_sixtieth : roundF32 (1 / 60) = frameTime60 := by
  rw [roundF32_eq_of_near (1 / 60) (-6) 8947849 (by decide) (by norm_num [abs_of_pos])
    (by norm_num [abs_of_pos]) (by norm_num [abs_lt])]
  norm_num [frameTime60]

theorem particle_run_end_to_end_witness :
    RandomInRange sampleRandom ∧ (∀ a b : ℚ, 0 ≤ b → a ≤ 10 → subF32 a b ≤ 10) ∧
      (List.replicate 500 edgeParticle).length = 500 ∧ (0 : ℚ) ≤ frameTime60 ∧ 499 < 500 ∧
      ∃ q : Particle ℚ,
        (particlesAfter sampleRandom sampleDegToRad subF32 sampleCos sampleSin
          (List.replicate 500 edgeParticle) MAX_PARTICLES frameTime60 0 100).1[499]? = some q ∧
        0 < q.lifeTime ∧ q.lifeTime ≤ 10 :=
  ⟨sampleRandom_inRange, fun a b hb ha => subF32_le_ten a b hb ha, List.length_replicate _ _,
    frameTime60_nonneg, by decide,
    by
      obtain ⟨q, hq, _, _, hpos, hle⟩ :=
        particle_run_end_to_end sampleRandom sampleRandom_inRange sampleDegToRad subF32
          (fun a b hb ha => subF32_le_ten a b hb ha) sampleCos sampleSin
          (List.replicate 500 edgeParticle) (List.length_replicate _ _) frameTime60
          frameTime60_nonneg 0 100 499 (by decide)
      exact ⟨q, hq, hpos, hle⟩⟩

/-- The first `float` subtraction of `frameTime60` from 10. -/
theorem subF32_ten_frameTime60 : subF32 10 frameTime60 = 2617071 / 262144 := by
  unfold subF32
  rw [roundF32_eq_of_near (10 - frameTime60) 3 10468284 (by decide)
    (by norm_num [frameTime60, abs_of_pos]) (by norm_num [frameTime60, abs_of_pos])
    (by norm_num [frameTime60, abs_lt])]
  norm_num

/-- The second `float` subtraction of `frameTime60`. -/
theorem subF32_second_frameTime60 :
    subF32 (2617071 / 262144) frameTime60 = 1306351 / 131072 := by
  unfold subF32
  rw [roundF32_eq_of_near (2617071 / 262144 - frameTime60) 3 10450808 (by decide)
    (by norm_num [frameTime60, abs_of_pos]) (by norm_num [frameTime60, abs_of_pos])
    (by norm_num [frameTime60, abs_lt])]
  norm_num

/-- The product `2 * frameTime60` is exact in `float`, and the `float` nearest to
`10 - 2 * frameTime60` is `10450807 * 2^(-20)`. -/
theorem roundF32_ten_minus_twice :
    roundF32 (10 - roundF32 (2 * frameTime60)) = 10450807 / 1048576 := by
  have h2 : roundF32 (2 * frameTime60) = 2 * frameTime60 := by
    rw [roundF32_eq_of_near (2 * frameTime60) (-5) 8947849 (by decide)
      (by norm_num [frameTime60, abs_of_pos]) (by norm_num [frameTime60, abs_of_pos])
      (by norm_num [frameTime60, abs_lt])]
    norm_num [frameTime60]
  rw [h2, roundF32_eq_of_near (10 - 2 * frameTime60) 3 10450807 (by decide)
    (by norm_num [frameTime60, abs_of_pos]) (by norm_num [frameTime60, abs_of_pos])
    (by norm_num [frameTime60, abs_lt])]
  norm_num

/-- With the source that draws `max`, every particle is initialised with the
lifetime 10. -/
theorem highRandom_initial_lifeTime (i : Nat) (hi : i < 500) :
    ∃ q : Particle ℚ,
      (particlesAfter highRandom sampleDegToRad subF32 sampleCos sampleSin
        (List.replicate 500 edgeParticle) MAX_PARTICLES frameTime60 0 0).1[i]? = some q ∧
      q.lifeTime = 10 := by
  obtain ⟨g', hg'⟩ := InitParticleSystem_loop_getElem highRandom sampleDegToRad
    MAX_PARTICLES.toNat 0 (List.replicate 500 edgeParticle) i
    (by rw [List.length_replicate]; exact hi) (by unfold MAX_PARTICLES; omega)
  exact ⟨_, hg', by simp [InitParticleSystem.body, highRandom]⟩

/-- With the source that draws `max` and `deltaTime = frameTime60`, no particle
is respawned in the first two update steps, and the lifetimes after them are
`2617071 * 2^(-18)` and `1306351 * 2^(-17)`. -/
theorem highRandom_two_steps (i : Nat) (hi : i < 500) :
    lifeTimeAfter highRandom sampleDegToRad subF32 sampleCos sampleSin
        (List.replicate 500 edgeParticle) MAX_PARTICLES frameTime60 0 0 i = 10 ∧
      lifeTimeAfter highRandom sampleDegToRad subF32 sampleCos sampleSin
        (List.replicate 500 edgeParticle) MAX_PARTICLES frameTime60 0 1 i = 2617071 / 262144 ∧
      lifeTimeAfter highRandom sampleDegToRad subF32 sampleCos sampleSin
        (List.replicate 500 edgeParticle) MAX_PARTICLES frameTime60 0 2 i = 1306351 / 131072 := by
  have hc : (i : Int) < MAX_PARTICLES := by unfold MAX_PARTICLES; omega
  obtain ⟨q0, hq0, hl0⟩ := highRandom_initial_lifeTime i hi
  obtain ⟨q1, hq1, hl1⟩ := lifeTimeAfter_succ_of_pos highRandom highRandom_inRange
    sampleDegToRad subF32 sampleCos sampleSin (List.replicate 500 edgeParticle) MAX_PARTICLES
    frameTime60 0 0 i q0 hq0 hc (by rw [hl0, subF32_ten_frameTime60]; norm_num)
  rw [hl0, subF32_ten_frameTime60] at hl1
  obtain ⟨q2, hq2, hl2⟩ := lifeTimeAfter_succ_of_pos highRandom highRandom_inRange
    sampleDegToRad subF32 sampleCos sampleSin (List.replicate 500 edgeParticle) MAX_PARTICLES
    frameTime60 0 1 i q1 hq1 hc (by rw [hl1, subF32_second_frameTime60]; norm_num)
  rw [hl1, subF32_second_frameTime60] at hl2
  exact ⟨by rw [lifeTimeAfter, lifeTimeAt_of_getElem _ _ _ hq0, hl0],
    by rw [lifeTimeAfter, lifeTimeAt_of_getElem _ _ _ hq1, hl1],
    by rw [lifeTimeAfter, lifeTimeAt_of_getElem _ _ _ hq2, hl2]⟩

/-- C16 as stated fails: initialise 500 particles with the source that draws
`max` (every lifetime is `L = 10`) and run two update steps with
`deltaTime = frameTime60`, the `float` nearest to `1/60`.  No particle is
respawned in these steps (the lifetime after each subtraction is positive), so
`k = 2`, and the lifetime of every particle is `1306351 * 2^(-17)`, about
`9.96666718`.  That is not `L - k * deltaTime` for any `L` in `3 .. 10` and any
`k` in `0 .. 2` (`10 - 2 * frameTime60` is about `9.96666666`), and it is not the
value of `10 - 2 * deltaTime` computed in `float` either (`10450807 * 2^(-20)`,
about `9.96666622`): each of the two subtractions rounds. -/
theorem lifetime_not_spawn_minus_elapsed :
    RandomInRange highRandom ∧ (0 : ℚ) ≤ frameTime60 ∧ roundF32 (1 / 60) = frameTime60 ∧
      ∀ i : Nat, i < 500 →
        lifeTimeAfter highRandom sampleDegToRad subF32 sampleCos sampleSin
            (List.replicate 500 edgeParticle) MAX_PARTICLES frameTime60 0 0 i = 10 ∧
          0 < subF32 (lifeTimeAfter highRandom sampleDegToRad subF32 sampleCos sampleSin
            (List.replicate 500 edgeParticle) MAX_PARTICLES frameTime60 0 0 i) frameTime60 ∧
          0 < subF32 (lifeTimeAfter highRandom sampleDegToRad subF32 sampleCos sampleSin
            (List.replicate 500 edgeParticle) MAX_PARTICLES frameTime60 0 1 i) frameTime60 ∧
          lifeTimeAfter highRandom sampleDegToRad subF32 sampleCos sampleSin
            (List.replicate 500 edgeParticle) MAX_PARTICLES frameTime60 0 2 i =
              1306351 / 131072 ∧
          (∀ (L : Int) (k : Nat), 3 ≤ L → L ≤ 10 → k ≤ 2 →
            lifeTimeAfter highRandom sampleDegToRad subF32 sampleCos sampleSin
              (List.replicate 500 edgeParticle) MAX_PARTICLES frameTime60 0 2 i ≠
                (L : ℚ) - (k : ℚ) * frameTime60) ∧
          lifeTimeAfter highRandom sampleDegToRad subF32 sampleCos sampleSin
            (List.replicate 500 edgeParticle) MAX_PARTICLES frameTime60 0 2 i ≠
              roundF32 (10 - roundF32 (2 * frameTime60)) := by
  refine ⟨highRandom_inRange, frameTime60_nonneg, roundF32_sixtieth, fun i hi => ?_⟩
  obtain ⟨h0, h1, h2⟩ := highRandom_two_steps i hi
  rw [h0, h1, h2, subF32_ten_frameTime60, subF32_second_frameTime60, roundF32_ten_minus_twice]
  refine ⟨rfl, by norm_num, by norm_num, rfl, ?_, by norm_num⟩
  intro L k h3 h10 hk
  interval_cases L <;> interval_cases k <;> norm_num [frameTime60]

/-! ## Escape-time engines against the reference recurrences -/

/-- A count `r` in `0 .. 256` that is only below 256 at an escaping index and is
preceded by no escaping index is the least escaping index, or 256. -/
theorem escapeTime_unique (E : ℕ → Prop) (r : Int) (h0 : 0 ≤ r) (hcap : r ≤ 256)
    (hesc : r < 256 → E r.toNat) (hbefore : ∀ k : ℕ, (k : Int) < r → ¬ E k) (n : ℕ) :
    ((n < 256 ∧ E n ∧ ∀ k < n, ¬ E k) ∨ (n = 256 ∧ ∀ k < 256, ¬ E k)) ↔ r = (n : Int) := by
  constructor
  · rintro (⟨hn, hE, hmin⟩ | ⟨hn, hnone⟩)
    · by_contra hne
      rcases lt_or_gt_of_ne hne with hlt | hgt
      · have hr : r < 256 := by omega
        exact hmin r.toNat (by omega) (hesc hr)
      · exact hbefore n hgt hE
    · by_contra hne
      have hr : r < 256 := by omega
      exact hnone r.toNat (by omega) (hesc hr)
  · intro hr
    by_cases h : r < 256
    · left
      have hn : r.toNat = n := by omega
      refine ⟨by omega, hn ▸ hesc h, fun k hk => hbefore k (by omega)⟩
    · right
      exact ⟨by omega, fun k hk => hbefore k (by omega)⟩

/-- The count of a loop of 256 trips started at 0 is the least escaping index of
its state sequence, or 256. -/
theorem escapeLoop_isLeast {S : Type} (esc : S → Prop) [DecidablePred esc] (step : S → S)
    (s : S) (n : ℕ) :
    ((n < 256 ∧ esc (step^[n] s) ∧ ∀ k < n, ¬ esc (step^[k] s)) ∨
        (n = 256 ∧ ∀ k < 256, ¬ esc (step^[k] s))) ↔
      escapeLoop esc step 256 0 s = (n : Int) := by
  have hb := escapeLoop_from_zero esc step 256 s
  apply escapeTime_unique (fun k => esc (step^[k] s)) _ hb.1 (by simpa using hb.2.1)
  · intro h; exact hb.2.2 (by simpa using h)
  · intro k hk
    exact escapeLoop_not_escaped_before esc step 256 0 s k (by simpa using hk)

/-- The states of `MandelbrotIterations` are the real and imaginary parts of the
Mandelbrot recurrence. -/
theorem MandelbrotIterations_body_iterate (x0 y0 : ℝ) (k : ℕ) :
    (MandelbrotIterations.body x0 y0)^[k] (0, 0) =
      ((mandelbrotOrbit ⟨x0, y0⟩ k).re, (mandelbrotOrbit ⟨x0, y0⟩ k).im) := by
  induction k with
  | zero => simp [mandelbrotOrbit]
  | succ k ih =>
    rw [Function.iterate_succ_apply', ih]
    simp only [MandelbrotIterations.body, mandelbrotOrbit, sq, Complex.add_re, Complex.add_im,
      Complex.mul_re, Complex.mul_im, Prod.mk.injEq]
    exact ⟨trivial, by ring⟩

theorem escaped_iff_abs (z : ℂ) : escaped (z.re, z.im) ↔ Complex.abs z ^ 2 > 4 := by
  rw [Complex.sq_abs, Complex.normSq_apply]
  rfl

/-- C19. Over the reals, for every point `c = (x0, y0)`, `MandelbrotIterations(x0, y0)`
is the escape time of `z ← z² + c` from `z₀ = 0`: the least `n` in `0 .. 255`
with `|z_n|² > 4`, or 256 if there is none. -/
theorem mandelbrotIterations_is_escape_time (x0 y0 : ℝ) (n : ℕ) :
    IsEscapeTime (mandelbrotOrbit ⟨x0, y0⟩) n ↔ MandelbrotIterations x0 y0 = (n : Int) := by
  unfold MandelbrotIterations IsEscapeTime
  rw [MandelbrotIterations_loop_eq]
  have h := escapeLoop_isLeast escaped (MandelbrotIterations.body x0 y0) (0, 0) n
  simp only [MandelbrotIterations_body_iterate, escaped_iff_abs] at h
  exact h

/-- The states of `BurningShipIterations` are the absolute value of the real part
and the imaginary part of the Burning Ship recurrence. -/
theorem BurningShipIterations_body_iterate (x0 y0 : ℝ) (k : ℕ) :
    (BurningShipIterations.body x0 y0)^[k] (0, 0) =
      (|(burningShipOrbit ⟨x0, y0⟩ k).re|, (burningShipOrbit ⟨x0, y0⟩ k).im) := by
  induction k with
  | zero => simp [burningShipOrbit]
  | succ k ih =>
    rw [Function.iterate_succ_apply', ih]
    simp only [BurningShipIterations.body, burningShipOrbit, sq, Complex.add_re,
      Complex.add_im, Complex.mul_re, Complex.mul_im, Prod.mk.injEq]
    constructor
    · congr 1
      rw [abs_mul_abs_self, abs_mul_abs_self]
    · rw [abs_mul, abs_mul, abs_abs]
      simp only [abs_two]
      ring

theorem escaped_abs_re_iff (z : ℂ) : escaped (|z.re|, z.im) ↔ Complex.abs z ^ 2 > 4 := by
  rw [Complex.sq_abs, Complex.normSq_apply]
  show |z.re| * |z.re| + z.im * z.im > 4 ↔ _
  rw [abs_mul_abs_self]

/-- C20. Over the reals, for every point `c = (x0, y0)`, `BurningShipIterations(x0, y0)`
is the escape time of the Burning Ship recurrence `z ← (|Re z| + i |Im z|)² + c`
from `z₀ = 0` (`Re' = Re² - Im² + x0`, `Im' = 2 |Re| |Im| + y0`): the least `n` in
`0 .. 255` with `|z_n|² > 4`, or 256 if there is none.  The code keeps `|Re z|`
where the recurrence has `Re z`, which changes neither the next state nor the
escape test. -/
theorem burningShipIterations_is_escape_time (x0 y0 : ℝ) (n : ℕ) :
    IsEscapeTime (burningShipOrbit ⟨x0, y0⟩) n ↔ BurningShipIterations x0 y0 = (n : Int) := by
  unfold BurningShipIterations IsEscapeTime
  rw [BurningShipIterations_loop_eq]
  have h := escapeLoop_isLeast escaped (BurningShipIterations.body x0 y0) (0, 0) n
  simp only [BurningShipIterations_body_iterate, escaped_abs_re_iff] at h
  exact h

/-! ## The Sierpinski carpet -/

theorem SierpinskiCarpet_of_pos (x y size : Int) (h : size > 0) :
    SierpinskiCarpet x y size =
      if Int.tmod x 3 = 1 ∧ Int.tmod y 3 = 1 then 0
      else SierpinskiCarpet (Int.tdiv x 3) (Int.tdiv y 3) (Int.tdiv size 3) := by
  rw [SierpinskiCarpet, if_pos h]

theorem SierpinskiCarpet_of_nonpos (x y size : Int) (h : ¬ size > 0) :
    SierpinskiCarpet x y size = 1 := by
  rw [SierpinskiCarpet, if_neg h]

theorem digits_three_getD_zero (a : Nat) : (Nat.digits 3 a).getD 0 0 = a % 3 := by
  rcases Nat.eq_zero_or_pos a with h | h
  · subst h; simp
  · rw [Nat.digits_def' (by decide) h]; simp

theorem digits_three_getD_succ (a k : Nat) :
    (Nat.digits 3 a).getD (k + 1) 0 = (Nat.digits 3 (a / 3)).getD k 0 := by
  rcases Nat.eq_zero_or_pos a with h | h
  · subst h; simp
  · rw [Nat.digits_def' (by decide) h]; simp

theorem digits_three_length_succ (n : Nat) (h : 0 < n) :
    (Nat.digits 3 n).length = (Nat.digits 3 (n / 3)).length + 1 := by
  rw [Nat.digits_def' (by decide) h]; simp

/-- The carpet on natural numbers, by induction on `size`. -/
theorem SierpinskiCarpet_natCast (n : Nat) :
    ∀ a b : Nat,
      (SierpinskiCarpet a b n = 0 ∨ SierpinskiCarpet a b n = 1) ∧
      (SierpinskiCarpet a b n = 0 ↔
        ∃ k : Nat, k < (Nat.digits 3 n).length ∧
          (Nat.digits 3 a).getD k 0 = 1 ∧ (Nat.digits 3 b).getD k 0 = 1) := by
  induction n using Nat.strong_induction_on with
  | _ n ih =>
    intro a b
    rcases Nat.eq_zero_or_pos n with hn | hn
    · subst hn
      rw [SierpinskiCarpet_of_nonpos _ _ _ (by simp)]
      simp
    · have hpos : ((n : Nat) : Int) > 0 := by exact_mod_cast hn
      have hx : Int.tmod (a : Int) 3 = ((a % 3 : Nat) : Int) := by
        rw [Int.tmod_eq_emod (by omega) (by decide)]; norm_cast
      have hy : Int.tmod (b : Int) 3 = ((b % 3 : Nat) : Int) := by
        rw [Int.tmod_eq_emod (by omega) (by decide)]; norm_cast
      have dx : Int.tdiv (a : Int) 3 = ((a / 3 : Nat) : Int) := by
        rw [Int.tdiv_eq_ediv (by omega) (by decide)]; norm_cast
      have dy : Int.tdiv (b : Int) 3 = ((b / 3 : Nat) : Int) := by
        rw [Int.tdiv_eq_ediv (by omega) (by decide)]; norm_cast
      have dn : Int.tdiv (n : Int) 3 = ((n / 3 : Nat) : Int) := by
        rw [Int.tdiv_eq_ediv (by omega) (by decide)]; norm_cast
      rw [SierpinskiCarpet_of_pos _ _ _ hpos, hx, hy, dx, dy, dn,
        digits_three_length_succ n hn]
      by_cases h1 : a % 3 = 1 ∧ b % 3 = 1
      · have h1' : ((a % 3 : Nat) : Int) = 1 ∧ ((b % 3 : Nat) : Int) = 1 := by
          exact ⟨by exact_mod_cast h1.1, by exact_mod_cast h1.2⟩
        rw [if_pos h1']
        refine ⟨Or.inl rfl, fun _ => ⟨0, by omega, ?_, ?_⟩, fun _ => rfl⟩
        · rw [digits_three_getD_zero]; exact h1.1
        · rw [digits_three_getD_zero]; exact h1.2
      · have h1' : ¬ (((a % 3 : Nat) : Int) = 1 ∧ ((b % 3 : Nat) : Int) = 1) := by
          intro h; exact h1 ⟨by exact_mod_cast h.1, by exact_mod_cast h.2⟩
        rw [if_neg h1']
        obtain ⟨hval, hiff⟩ := ih (n / 3) (Nat.div_lt_self hn (by decide)) (a / 3) (b / 3)
        refine ⟨hval, hiff.trans ⟨?_, ?_⟩⟩
        · rintro ⟨k, hk, h2, h3⟩
          exact ⟨k + 1, by omega, by rw [digits_three_getD_succ]; exact h2,
            by rw [digits_three_getD_succ]; exact h3⟩
        · rintro ⟨k, hk, h2, h3⟩
          cases k with
          | zero =>
            rw [digits_three_getD_zero] at h2 h3
            exact absurd ⟨h2, h3⟩ h1
          | succ k =>
            rw [digits_three_getD_succ] at h2 h3
            exact ⟨k, by omega, h2, h3⟩

/-- C21. `SierpinskiCarpet` extracts base-3 digits: for `x >= 0`, `y >= 0` and
`size >= 0`, with `L` the number of base-3 digits of `size` (0 for `size = 0`,
6 for the `size = 243` of `DrawFractal`), the function returns 0 exactly when at
some digit position `k < L` the base-3 digits of `x` and of `y` are both 1, and
returns 1 otherwise.  The function is total: the loop ends for every `size`. -/
theorem sierpinskiCarpet_digits (x y size : Int) (hx : 0 ≤ x) (hy : 0 ≤ y) (hs : 0 ≤ size) :
    (SierpinskiCarpet x y size = 0 ↔
      ∃ k : Nat, k < (Nat.digits 3 size.toNat).length ∧
        (Nat.digits 3 x.toNat).getD k 0 = 1 ∧ (Nat.digits 3 y.toNat).getD k 0 = 1) ∧
    (SierpinskiCarpet x y size ≠ 0 → SierpinskiCarpet x y size = 1) ∧
    (Nat.digits 3 (0 : Int).toNat).length = 0 ∧ (Nat.digits 3 (243 : Int).toNat).length = 6 := by
  have h := SierpinskiCarpet_natCast size.toNat x.toNat y.toNat
  rw [Int.toNat_of_nonneg hx, Int.toNat_of_nonneg hy, Int.toNat_of_nonneg hs] at h
  refine ⟨h.2, fun hne => h.1.resolve_left hne, by simp, ?_⟩
  show (Nat.digits 3 243).length = 6
  norm_num

theorem sierpinskiCarpet_digits_witness :
    (0 : Int) ≤ 4 ∧ (0 : Int) ≤ 13 ∧ (0 : Int) ≤ 243 ∧ SierpinskiCarpet 4 13 243 = 0 :=
  ⟨by decide, by decide, by decide,
    ((sierpinskiCarpet_digits 4 13 243 (by decide) (by decide) (by decide)).1).mpr
      ⟨0, by show 0 < (Nat.digits 3 243).length; norm_num,
        by show (Nat.digits 3 4).getD 0 0 = 1; norm_num,
        by show (Nat.digits 3 13).getD 0 0 = 1; norm_num⟩⟩

/-! ## The two Mandelbrot variants -/

/-- Two escape loops whose states stay related, with the same escape test on
related states, return the same count. -/
theorem escapeLoop_simulation {S T : Type} (esc₁ : S → Prop) [DecidablePred esc₁]
    (step₁ : S → S) (esc₂ : T → Prop) [DecidablePred esc₂] (step₂ : T → T)
    (R : S → T → Prop) (hesc : ∀ s t, R s t → (esc₁ s ↔ esc₂ t))
    (hstep : ∀ s t, R s t → R (step₁ s) (step₂ t)) (trips : Nat) :
    ∀ (i : Int) (s : S) (t : T), R s t →
      escapeLoop esc₁ step₁ trips i s = escapeLoop esc₂ step₂ trips i t := by
  induction trips with
  | zero => intro i s t _; rfl
  | succ n ih =>
    intro i s t h
    unfold escapeLoop
    by_cases h1 : esc₁ s
    · rw [if_pos h1, if_pos ((hesc s t h).mp h1)]
    · rw [if_neg h1, if_neg (fun h2 => h1 ((hesc s t h).mpr h2))]
      exact ih (i + 1) _ _ (hstep s t h)

section Variants

variable {F : Type} [LinearOrderedField F]

/-- With a square root that satisfies `sqrtf (a * a) = |a|`, `CalculateMandelbrot`
with cap 256 and `BurningShipIterations` return the same count: the pair
`(r2, i2)` of the first is the pair of squares of the state of the second. -/
theorem CalculateMandelbrot_eq_BurningShipIterations (sqrtf : F → F)
    (hsq : ∀ a : F, sqrtf (a * a) = |a|) (x y : F) :
    CalculateMandelbrot sqrtf x y 256 = BurningShipIterations x y := by
  unfold CalculateMandelbrot BurningShipIterations
  rw [CalculateMandelbrot_loop_eq sqrtf x y 256 (256 : Int).toNat 0 (0, 0) (by decide),
    BurningShipIterations_loop_eq]
  apply escapeLoop_simulation escapedSquares (CalculateMandelbrot.body sqrtf x y) escaped
    (BurningShipIterations.body x y) (fun s t => s.1 = t.1 * t.1 ∧ s.2 = t.2 * t.2)
  · intro s t h
    simp only [escapedSquares, escaped, h.1, h.2]
  · intro s t h
    simp only [CalculateMandelbrot.body, BurningShipIterations.body, h.1, h.2, hsq]
    constructor
    · rw [abs_mul_abs_self]
    · rw [abs_mul, abs_mul, abs_two]
  · simp

/-- `CalculateMandelbrot(-1, 1, 256)`: the pairs `(r2, i2)` are `(0,0)`, `(1,1)`,
`(1,9)` and the third escapes. -/
theorem CalculateMandelbrot_neg_one_one (sqrtf : F → F) (h0 : sqrtf 0 = 0)
    (h1 : sqrtf 1 = 1) : CalculateMandelbrot sqrtf (-1) 1 256 = 2 := by
  show CalculateMandelbrot.loop sqrtf (-1 : F) 1 256 (253 + 1 + 1 + 1) 0 (0, 0) = 2
  have e1 : ¬ (((0 : F), (0 : F)).1 + ((0 : F), (0 : F)).2 > 4) := by norm_num
  have b1 : CalculateMandelbrot.body sqrtf (-1) 1 ((0 : F), (0 : F)) = (1, 1) := by
    simp only [CalculateMandelbrot.body, h0]; norm_num
  have e2 : ¬ (((1 : F), (1 : F)).1 + ((1 : F), (1 : F)).2 > 4) := by norm_num
  have b2 : CalculateMandelbrot.body sqrtf (-1) 1 ((1 : F), (1 : F)) = (1, 9) := by
    simp only [CalculateMandelbrot.body, h1]; norm_num
  have e3 : ((1 : F), (9 : F)).1 + ((1 : F), (9 : F)).2 > 4 := by norm_num
  rw [CalculateMandelbrot.loop, if_neg e1, b1, CalculateMandelbrot.loop, if_neg e2, b2,
    CalculateMandelbrot.loop, if_pos e3]
  rfl

/-- `MandelbrotIterations(-1, 1)`: the states are `(0,0)`, `(-1,1)`, `(-1,-1)`,
`(-1,3)` and the fourth escapes. -/
theorem MandelbrotIterations_neg_one_one : MandelbrotIterations (-1 : F) 1 = 3 := by
  show MandelbrotIterations.loop (-1 : F) 1 (252 + 1 + 1 + 1 + 1) 0 (0, 0) = 3
  have e1 : ((0 : F), (0 : F)).1 * ((0 : F), (0 : F)).1 +
      ((0 : F), (0 : F)).2 * ((0 : F), (0 : F)).2 ≤ 4 := by norm_num
  have b1 : MandelbrotIterations.body (-1 : F) 1 ((0 : F), (0 : F)) = (-1, 1) := by
    simp only [MandelbrotIterations.body]; norm_num
  have e2 : ((-1 : F), (1 : F)).1 * ((-1 : F), (1 : F)).1 +
      ((-1 : F), (1 : F)).2 * ((-1 : F), (1 : F)).2 ≤ 4 := by norm_num
  have b2 : MandelbrotIterations.body (-1 : F) 1 ((-1 : F), (1 : F)) = (-1, -1) := by
    simp only [MandelbrotIterations.body]; norm_num
  have e3 : ((-1 : F), (-1 : F)).1 * ((-1 : F), (-1 : F)).1 +
      ((-1 : F), (-1 : F)).2 * ((-1 : F), (-1 : F)).2 ≤ 4 := by norm_num
  have b3 : MandelbrotIterations.body (-1 : F) 1 ((-1 : F), (-1 : F)) = (-1, 3) := by
    simp only [MandelbrotIterations.body]; norm_num
  have e4 : ¬ (((-1 : F), (3 : F)).1 * ((-1 : F), (3 : F)).1 +
      ((-1 : F), (3 : F)).2 * ((-1 : F), (3 : F)).2 ≤ 4) := by norm_num
  rw [MandelbrotIterations.loop, if_pos e1, b1, MandelbrotIterations.loop, if_pos e2, b2,
    MandelbrotIterations.loop, if_pos e3, b3, MandelbrotIterations.loop, if_neg e4]
  rfl

end Variants

/-- C23. The two Mandelbrot implementations are different variants: over the
reals, at the point `(-1, 1)` the `CalculateMandelbrot(x, y, 256)` of
`module_fractal.c` and `art_generator.c` returns 2 while the
`MandelbrotIterations(x, y)` of `mandala/src/fractals.c` returns 3. -/
theorem mandelbrot_variants_differ :
    CalculateMandelbrot Real.sqrt (-1) 1 256 = 2 ∧ MandelbrotIterations (-1 : ℝ) 1 = 3 ∧
      ∃ x y : ℝ, CalculateMandelbrot Real.sqrt x y 256 ≠ MandelbrotIterations x y := by
  have hc := CalculateMandelbrot_neg_one_one Real.sqrt Real.sqrt_zero Real.sqrt_one
  have hm : MandelbrotIterations (-1 : ℝ) 1 = 3 := MandelbrotIterations_neg_one_one
  refine ⟨hc, hm, -1, 1, ?_⟩
  rw [hc, hm]
  decide

/-- C27. Over the reals the `CalculateMandelbrot` of `module_fractal.c` and
`art_generator.c`, which keeps only `r2 = Re²` and `i2 = Im²` and uses
`2 * sqrt(r2) * sqrt(i2)`, is the Burning Ship: for all `x` and `y`,
`CalculateMandelbrot(x, y, 256)` returns `BurningShipIterations(x, y)`. -/
theorem calculateMandelbrot_is_burning_ship (x y : ℝ) :
    CalculateMandelbrot Real.sqrt x y 256 = BurningShipIterations x y :=
  CalculateMandelbrot_eq_BurningShipIterations Real.sqrt Real.sqrt_mul_self_eq_abs x y

/-! ## Palette channel values and the exported selectors -/

/-- In every branch of the HSV conversion of `GeneratePalette` one of `r`, `g`, `b`
is `c = 1`, so one channel value is `(1 + 0.2) * 255 = 306`. -/
theorem GeneratePalette_channels_has_306 {F : Type} [LinearOrderedField F]
    (fmodf : F → F → F) (hueShift : F) (i : Nat) :
    (GeneratePalette.channels fmodf hueShift i).1 = 306 ∨
      (GeneratePalette.channels fmodf hueShift i).2.1 = 306 ∨
      (GeneratePalette.channels fmodf hueShift i).2.2 = 306 := by
  have h306 : ((1 : F) + 0.2) * 255 = 306 := by norm_num
  simp only [GeneratePalette.channels]
  split_ifs <;> simp [h306]

/-- C28 fails on the code. For hue shift 0 and index 0 the three values computed
before the conversion to `unsigned char` are `306`, `51` and `51`: the red value
is above 255.  For every hue shift and every index one of the three values is
`306`. -/
theorem generatePalette_channel_above_255 :
    GeneratePalette.channels sampleFmod (0 : ℚ) 0 = (306, 51, 51) ∧
      ¬ ((GeneratePalette.channels sampleFmod (0 : ℚ) 0).1 ≤ 255) ∧
      ∀ (h : ℚ) (i : Nat),
        (GeneratePalette.channels sampleFmod h i).1 = 306 ∨
          (GeneratePalette.channels sampleFmod h i).2.1 = 306 ∨
          (GeneratePalette.channels sampleFmod h i).2.2 = 306 := by
  have hv : GeneratePalette.channels sampleFmod (0 : ℚ) 0 = (306, 51, 51) := by
    simp only [GeneratePalette.channels, sampleFmod]
    norm_num
  refine ⟨hv, ?_, fun h i => GeneratePalette_channels_has_306 sampleFmod h i⟩
  rw [hv]
  norm_num

/-- For a non-negative argument the selectors store a value in range. -/
theorem selectors_of_nonneg (v : Int) (h : 0 ≤ v) :
    (0 ≤ SetFractalType v ∧ SetFractalType v ≤ 3) ∧
      (0 ≤ SetColorScheme v ∧ SetColorScheme v ≤ 4) := by
  unfold SetFractalType SetColorScheme
  rw [Int.tmod_eq_emod h (by decide), Int.tmod_eq_emod h (by decide)]
  omega

/-- C29 fails on the code for negative arguments. `SetFractalType(-1)` stores
`-1 % 4 = -1`, which is none of 0, 1, 2, 3: `DrawFractal` then takes no case of
its `switch` and gives every pixel the count 0.  `SetColorScheme(-1)` stores
`-1`, which is none of 0 .. 4. -/
theorem selectors_negative_argument :
    SetFractalType (-1) = -1 ∧ SetColorScheme (-1) = -1 ∧
      ¬ (SetFractalType (-1) = 0 ∨ SetFractalType (-1) = 1 ∨ SetFractalType (-1) = 2 ∨
        SetFractalType (-1) = 3) ∧
      ¬ (0 ≤ SetColorScheme (-1) ∧ SetColorScheme (-1) ≤ 4) ∧
      DrawFractal.iterationsOf (SetFractalType (-1)) (0 : ℚ) 0 2 0 = 0 := by
  refine ⟨by decide, by decide, by decide, by decide, ?_⟩
  have h : SetFractalType (-1) = -1 := by decide
  rw [h]
  simp [DrawFractal.iterationsOf]

/-! ## Colour interpolation -/

section LerpClaims

variable {F : Type} [LinearOrderedField F]

theorem LerpColor_channel_zero (a b : Nat) : LerpColor.channel a b (0 : F) = (a : F) := by
  simp [LerpColor.channel]

theorem LerpColor_channel_one (a b : Nat) : LerpColor.channel a b (1 : F) = (b : F) := by
  simp [LerpColor.channel]

/-- For `0 <= t <= 1` the channel value lies between the two channels. -/
theorem LerpColor_channel_between (a b : Nat) (t : F) (h0 : 0 ≤ t) (h1 : t ≤ 1) :
    ((min a b : Nat) : F) ≤ LerpColor.channel a b t ∧
      LerpColor.channel a b t ≤ ((max a b : Nat) : F) := by
  simp only [LerpColor.channel]
  push_cast
  rcases le_total a b with hab | hab
  · have hF : (a : F) ≤ (b : F) := by exact_mod_cast hab
    rw [min_eq_left hF, max_eq_right hF]
    constructor <;> nlinarith
  · have hF : (b : F) ≤ (a : F) := by exact_mod_cast hab
    rw [min_eq_right hF, max_eq_left hF]
    constructor <;> nlinarith

theorem clamp_unit_interval (t : F) : 0 ≤ max 0 (min 1 t) ∧ max 0 (min 1 t) ≤ 1 :=
  ⟨le_max_left _ _, max_le zero_le_one (min_le_left _ _)⟩

variable [FloorRing F]

theorem truncToUChar_natCast (n : Nat) (h : n ≤ 255) : truncToUChar ((n : F)) = n := by
  have h0 : (0 : F) ≤ (n : F) := Nat.cast_nonneg n
  simp only [truncToUChar, h0, if_true, Int.floor_natCast]
  omega

/-- The converted channel lies between the two channels, when both fit a byte. -/
theorem truncToUChar_channel_between (a b : Nat) (ha : a ≤ 255) (hb : b ≤ 255) (t : F)
    (h0 : 0 ≤ t) (h1 : t ≤ 1) :
    min a b ≤ truncToUChar (LerpColor.channel a b t) ∧
      truncToUChar (LerpColor.channel a b t) ≤ max a b := by
  obtain ⟨hlo, hhi⟩ := LerpColor_channel_between a b t h0 h1
  have hnn : (0 : F) ≤ LerpColor.channel a b t := le_trans (Nat.cast_nonneg _) hlo
  have hfl : ((min a b : Nat) : Int) ≤ Int.floor (LerpColor.channel a b t) := by
    rw [Int.le_floor]; exact_mod_cast hlo
  have hfu : Int.floor (LerpColor.channel a b t) ≤ ((max a b : Nat) : Int) := by
    have := le_trans (Int.floor_le (LerpColor.channel a b t)) hhi
    exact_mod_cast this
  have hmax : max a b ≤ 255 := max_le ha hb
  simp only [truncToUChar, hnn, if_true]
  omega

/-- C30. `LerpColor` clamps and interpolates within range: for all colours `a`
and `b` whose channels fit a byte and every `t`, `LerpColor(a, b, t)` is `a` when
`t <= 0` and `b` when `t >= 1`; for every `t` each channel value before the
conversion lies between the corresponding channels of `a` and `b`, hence in
`0 .. 255`, and so does the converted channel. -/
theorem lerpColor_clamps (a b : Color) (ha : a.Valid) (hb : b.Valid) (t : F) :
    (t ≤ 0 → LerpColor a b t = a) ∧ (1 ≤ t → LerpColor a b t = b) ∧
    ((min a.r b.r ≤ (LerpColor a b t).r ∧ (LerpColor a b t).r ≤ max a.r b.r) ∧
      (min a.g b.g ≤ (LerpColor a b t).g ∧ (LerpColor a b t).g ≤ max a.g b.g) ∧
      (min a.b b.b ≤ (LerpColor a b t).b ∧ (LerpColor a b t).b ≤ max a.b b.b) ∧
      (min a.a b.a ≤ (LerpColor a b t).a ∧ (LerpColor a b t).a ≤ max a.a b.a)) ∧
    (∀ x y : Nat, x ≤ 255 → y ≤ 255 →
      0 ≤ LerpColor.channel x y (max 0 (min 1 t)) ∧
        LerpColor.channel x y (max 0 (min 1 t)) ≤ 255) := by
  obtain ⟨ha1, ha2, ha3, ha4⟩ := ha
  obtain ⟨hb1, hb2, hb3, hb4⟩ := hb
  obtain ⟨h0, h1⟩ := clamp_unit_interval t
  refine ⟨fun ht => ?_, fun ht => ?_, ⟨?_, ?_, ?_, ?_⟩, ?_⟩
  · have hc : max 0 (min 1 t) = 0 := by
      rw [min_eq_right (le_trans ht zero_le_one), max_eq_left ht]
    simp only [LerpColor, hc, LerpColor_channel_zero]
    rw [truncToUChar_natCast _ ha1, truncToUChar_natCast _ ha2, truncToUChar_natCast _ ha3,
      truncToUChar_natCast _ ha4]
  · have hc : max 0 (min 1 t) = 1 := by
      rw [min_eq_left ht, max_eq_right zero_le_one]
    simp only [LerpColor, hc, LerpColor_channel_one]
    rw [truncToUChar_natCast _ hb1, truncToUChar_natCast _ hb2, truncToUChar_natCast _ hb3,
      truncToUChar_natCast _ hb4]
  · exact truncToUChar_channel_between _ _ ha1 hb1 _ h0 h1
  · exact truncToUChar_channel_between _ _ ha2 hb2 _ h0 h1
  · exact truncToUChar_channel_between _ _ ha3 hb3 _ h0 h1
  · exact truncToUChar_channel_between _ _ ha4 hb4 _ h0 h1
  · intro x y hx hy
    obtain ⟨hlo, hhi⟩ := LerpColor_channel_between x y _ h0 h1
    have hmax : ((max x y : Nat) : F) ≤ 255 := by
      have : max x y ≤ 255 := max_le hx hy
      exact_mod_cast this
    exact ⟨le_trans (Nat.cast_nonneg _) hlo, le_trans hhi hmax⟩

end LerpClaims

theorem lerpColor_clamps_witness :
    BLACK.Valid ∧ Color.Valid { r := 255, g := 215, b := 0, a := 255 } ∧ (1 : ℚ) ≤ 3 / 2 ∧
      LerpColor BLACK { r := 255, g := 215, b := 0, a := 255 } (3 / 2 : ℚ) =
        { r := 255, g := 215, b := 0, a := 255 } :=
  ⟨by decide, by decide, by norm_num,
    (lerpColor_clamps BLACK { r := 255, g := 215, b := 0, a := 255 } (by decide) (by decide)
      (3 / 2 : ℚ)).2.1 (by norm_num)⟩

/-! ## Mandala module: the segment count -/

section MandalaClaims

variable {F : Type} [LinearOrderedField F] [FloorRing F] {G : Type}

theorem truncToInt_intCast (k : Int) : truncToInt ((k : Int) : F) = k := by
  unfold truncToInt
  split <;> simp

/-- `fmaxf(3, segments - 1)` converted back to `int`, for a small `segments`. -/
theorem truncToInt_fmaxf (n : Int) (h1 : -1000 ≤ n) (h2 : n ≤ 1000) :
    truncToInt (max (3 : F) ((wrapInt (n - 1) : Int) : F)) = max 3 (n - 1) := by
  rw [wrapInt_of_small _ (by omega) (by omega)]
  have : max (3 : F) (((n - 1 : Int)) : F) = ((max 3 (n - 1) : Int) : F) := by
    push_cast; rfl
  rw [this, truncToInt_intCast]

/-- `fminf(24, segments + 1)` converted back to `int`, for a small `segments`. -/
theorem truncToInt_fminf (n : Int) (h1 : -1000 ≤ n) (h2 : n ≤ 1000) :
    truncToInt (min (24 : F) ((wrapInt (n + 1) : Int) : F)) = min 24 (n + 1) := by
  rw [wrapInt_of_small _ (by omega) (by omega)]
  have : min (24 : F) (((n + 1 : Int)) : F) = ((min 24 (n + 1) : Int) : F) := by
    push_cast; rfl
  rw [this, truncToInt_intCast]

/-- The segment count after `Mandala_HandleInput`: R resets it to 12, then LEFT
lowers it and RIGHT raises it. -/
theorem Mandala_HandleInput_segments (GetRandomValue : G → Int → Int → Int × G) (DEG2RAD : F)
    (keys : Keys) (m : MandalaModule F G) :
    (Mandala_HandleInput GetRandomValue DEG2RAD keys m).mandala.segments =
      (let s4 : Int := if keys.r then 12 else m.mandala.segments
       let s5 : Int :=
         if keys.left then truncToInt (max (3 : F) ((wrapInt (s4 - 1) : Int) : F)) else s4
       if keys.right then truncToInt (min (24 : F) ((wrapInt (s5 + 1) : Int) : F)) else s5) := by
  unfold Mandala_HandleInput
  cases keys.up <;> cases keys.down <;> cases keys.p <;> cases keys.r <;> cases keys.left <;>
    cases keys.right <;> simp [Mandala_Init]

theorem Mandala_HandleInput_segments_range (GetRandomValue : G → Int → Int → Int × G)
    (DEG2RAD : F) (keys : Keys) (m : MandalaModule F G)
    (h : 3 ≤ m.mandala.segments ∧ m.mandala.segments ≤ 24) :
    3 ≤ (Mandala_HandleInput GetRandomValue DEG2RAD keys m).mandala.segments ∧
      (Mandala_HandleInput GetRandomValue DEG2RAD keys m).mandala.segments ≤ 24 := by
  rw [Mandala_HandleInput_segments]
  dsimp only
  have hs4 : 3 ≤ (if keys.r then (12 : Int) else m.mandala.segments) ∧
      (if keys.r then (12 : Int) else m.mandala.segments) ≤ 24 := by
    split <;> omega
  generalize (if keys.r then (12 : Int) else m.mandala.segments) = s4 at hs4
  have hs5 : 3 ≤ (if keys.left then
      truncToInt (max (3 : F) ((wrapInt (s4 - 1) : Int) : F)) else s4) ∧
      (if keys.left then
        truncToInt (max (3 : F) ((wrapInt (s4 - 1) : Int) : F)) else s4) ≤ 24 := by
    split
    · rw [truncToInt_fmaxf s4 (by omega) (by omega)]; omega
    · exact hs4
  generalize (if keys.left then
      truncToInt (max (3 : F) ((wrapInt (s4 - 1) : Int) : F)) else s4) = s5 at hs5
  split
  · rw [truncToInt_fminf s5 (by omega) (by omega)]; omega
  · exact hs5

theorem mandalaAfter_segments_range (GetRandomValue : G → Int → Int → Int × G) (DEG2RAD : F)
    (m : MandalaModule F G) (frames : List Keys) :
    3 ≤ (mandalaAfter GetRandomValue DEG2RAD m frames).mandala.segments ∧
      (mandalaAfter GetRandomValue DEG2RAD m frames).mandala.segments ≤ 24 := by
  unfold mandalaAfter
  have h0 : 3 ≤ (Mandala_Init GetRandomValue DEG2RAD m).mandala.segments ∧
      (Mandala_Init GetRandomValue DEG2RAD m).mandala.segments ≤ 24 := by
    simp [Mandala_Init]
  generalize Mandala_Init GetRandomValue DEG2RAD m = s at h0
  induction frames generalizing s with
  | nil => exact h0
  | cons k rest ih =>
    rw [List.foldl_cons]
    exact ih _ (Mandala_HandleInput_segments_range GetRandomValue DEG2RAD k s h0)

/-- C25. The mandala segment count is clamped: after `Mandala_Init` (which sets
12) and any sequence of `Mandala_HandleInput` calls, whatever keys each frame
reports, `3 <= mandala.segments <= 24`.  Hence each of the three layers of
`Mandala_Draw` has `segments + 4 * layer >= 3` segments, and the divisor of
`2 * PI / segments` in `DrawMandalaPattern` is not zero. -/
theorem mandala_segments_clamped (GetRandomValue : G → Int → Int → Int × G) (DEG2RAD : F)
    (m : MandalaModule F G) (frames : List Keys) :
    (Mandala_Init GetRandomValue DEG2RAD m).mandala.segments = 12 ∧
    (3 ≤ (mandalaAfter GetRandomValue DEG2RAD m frames).mandala.segments ∧
      (mandalaAfter GetRandomValue DEG2RAD m frames).mandala.segments ≤ 24) ∧
    (∀ layer : Int, 0 ≤ layer → layer < 3 →
      3 ≤ Mandala_Draw.layerSegments
            (mandalaAfter GetRandomValue DEG2RAD m frames).mandala.segments layer ∧
        ((Mandala_Draw.layerSegments
            (mandalaAfter GetRandomValue DEG2RAD m frames).mandala.segments layer : Int) : F)
          ≠ 0) := by
  have h := mandalaAfter_segments_range GetRandomValue DEG2RAD m frames
  refine ⟨rfl, h, fun layer h0 h3 => ?_⟩
  have hl : 3 ≤ Mandala_Draw.layerSegments
      (mandalaAfter GetRandomValue DEG2RAD m frames).mandala.segments layer := by
    unfold Mandala_Draw.layerSegments; omega
  refine ⟨hl, ?_⟩
  have : Mandala_Draw.layerSegments
      (mandalaAfter GetRandomValue DEG2RAD m frames).mandala.segments layer ≠ 0 := by omega
  exact_mod_cast this

end MandalaClaims

theorem mandala_segments_clamped_witness :
    (0 : Int) ≤ 2 ∧ (2 : Int) < 3 ∧
      3 ≤ Mandala_Draw.layerSegments
        (mandalaAfter sampleRandom sampleDegToRad sampleMandalaModule
          [{ left := true }, { right := true, r := true }]).mandala.segments 2 :=
  ⟨by decide, by decide,
    ((mandala_segments_clamped sampleRandom sampleDegToRad sampleMandalaModule
      [{ left := true }, { right := true, r := true }]).2.2 2 (by decide) (by decide)).1⟩

/-! ## Fractal module: the zoom -/

section FractalZoom

variable {F : Type} [LinearOrderedField F] {R : Type}

end FractalZoom

/-- On a registry reached by calls, a frame with LEFT SHIFT and TAB both pressed
leaves the registry as it was: `NextModule` runs, then `PreviousModule`. -/
theorem main_switching_shift_tab_registry (calls : List RegistryCall)
    (currentModule : Option (Option ArtModule)) (called : List Nat) :
    (main.switching { tab := true, leftShift := true }
        { registry := runCalls calls, currentModule := currentModule,
          calls := called }).registry = runCalls calls := by
  have h := runCalls_holds calls
  have hreg : ∀ (field : ArtModule → Option Nat) (d : Driver),
      (Driver.call field d).registry = d.registry := by
    intro field d
    unfold Driver.call
    split
    · split <;> rfl
    · rfl
  simp only [main.switching, main.onTab, main.onShiftTab, Bool.and_self, if_true, hreg]
  by_cases hpos : 0 < (runCalls calls).moduleCount
  · exact PreviousModule_NextModule _ h.cur_nonneg (h.cur_lt_count hpos) h.count_le
  · have he : (runCalls calls).moduleCount ≤ 0 := not_lt.mp hpos
    rw [NextModule_of_empty _ he, PreviousModule_of_empty _ he]

/-- C24 fails on the code. In the state `main` starts in (Mandala and Fractal
registered, index 0), a frame with LEFT SHIFT and TAB both pressed runs the TAB
block and then the SHIFT+TAB block: cleanup of Mandala, init of Fractal, cleanup
of Fractal, init of Mandala.  The current index ends at 0 and the current module
is Mandala, not the module at index `(0 - 1 + 2) mod 2 = 1`. -/
theorem shift_tab_returns_to_same_module :
    (main.switching { tab := true, leftShift := true } main.start).registry.currentModuleIndex =
        0 ∧
      (main.switching { tab := true, leftShift := true } main.start).currentModule =
        some (some mandalaModule) ∧
      (main.switching { tab := true, leftShift := true } main.start).calls = [1, 4, 6, 9, 1] ∧
      main.start.registry.currentModuleIndex = 0 ∧ GetModuleCount main.start.registry = 2 ∧
      ((0 : Int) - 1 + 2) % 2 = 1 ∧
      (main.switching { tab := true } main.start).registry.currentModuleIndex = 1 := by
  decide

/-! ## The request handlers -/

theorem infix_dotdot_cons (c : Char) (l : List Char) (h : ['.', '.'] <:+: l) :
    ['.', '.'] <:+: c :: l :=
  List.IsInfix.trans h (List.suffix_cons c l).isInfix

/-- `handle_request` of `server.c` answers 404 and opens no file for every GET
request whose path contains `..` and, with the leading `.`, fits `filepath`
(at most 254 characters). -/
theorem Server_handle_request_rejects_dotdot (fs : FileSystem) (path : String)
    (hdots : strstr path ".." = true) (hlen : path.length ≤ 254) :
    Server.handle_request fs "GET" path = Reply.notFound ∧
      (Server.handle_request fs "GET" path).opened = none := by
  have hin : ['.', '.'] <:+: path.data := by
    simpa [strstr] using hdots
  have hne : path ≠ "/" := by
    intro h
    rw [h] at hin
    revert hin
    decide
  have hfp : strstr (snprintf 256 ("." ++ path)) ".." = true := by
    have hl : path.data.length ≤ 254 := hlen
    have : (snprintf 256 ("." ++ path)).data = '.' :: path.data := by
      simp only [snprintf, String.data_append]
      exact List.take_of_length_le (by simp; omega)
    simp only [strstr, this, decide_eq_true_eq]
    exact infix_dotdot_cons _ _ hin
  have h : Server.handle_request fs "GET" path = Reply.notFound := by
    simp [Server.handle_request, hne, hfp]
  rw [h]
  exact ⟨rfl, rfl⟩

/-- C22 fails on the code of `mandala/server.c`. Its `handle_request` has no test
for `..`: for the GET request with path `/../server.c`, which contains `..`, it
builds `web/../server.c`, and where that file exists it opens it and answers
`200 OK`.  `handle_request` of `server.c` answers 404 to the same request. -/
theorem mandala_server_serves_dotdot :
    strstr "/../server.c" ".." = true ∧
      MandalaServer.handle_request serverSourceOnly "GET" "/../server.c" =
        Reply.ok "web/../server.c" ∧
      (MandalaServer.handle_request serverSourceOnly "GET" "/../server.c").opened =
        some "web/../server.c" ∧
      Server.handle_request serverSourceOnly "GET" "/../server.c" = Reply.notFound := by
  decide

set_option maxRecDepth 100000 in
/-- In `server.c` the test for `..` is made on `filepath`, after `snprintf` cut
`"." + path` to 255 characters: for a path of 255 characters that ends in `..`
the second dot is cut off, the test finds nothing and `send_file` is reached. -/
theorem Server_handle_request_truncates :
    longDotDotPath.length = 255 ∧ strstr longDotDotPath ".." = true ∧
      Server.handle_request everyFile "GET" longDotDotPath =
        Reply.ok (String.mk ('.' :: '/' :: List.replicate 252 'a' ++ ['.'])) := by
  decide

end Nise
